import Mathlib

/-! SLIP framing on the Make Controller link.

A shallow embedding of the SLIP (Serial Line Internet Protocol) framing code of the
Make Controller sources, and of the board properties served over it:

* `firmware/trunk/core/makingthings/usbserial.c` (ChibiOS firmware):
  `usbserialWrite`, `usbserialWriteSlip`, `usbserialWriteSlipIfFull`, `usbserialReadSlip`;
* `firmware/trunk/controller/makingthings/usb.c` (legacy firmware):
  `Usb_SetActive`, `Usb_GetActive`, `Usb_Read`, `Usb_Write`, `TestAndSend`, `Usb_SlipSend`,
  `Usb_SlipReceive`;
* `mchelper/.../PacketUsbCdc.cpp` (desktop): `run`, `sendPacket`, `getMoreBytes`,
  `slipReceive`, `isPacketWaiting`, `receivePacket`;
* `maxmsp/mc_usb/trunk/mc.usb.c` (Max plugin): `mc_send_packet`, `mc_SLIP_receive`;
* `firmware/branches/chibios/core/makingthings/system.c`: `systemFreeMemory`,
  `systemSerialNumber`, `systemSetSerialNumber`, `systemSetName`, `systemName`, the
  handlers `systemNameOsc`, `systemFreememOsc`, `systemResetOsc`, `systemSambaOsc` and
  the node `systemOsc`.

Conventions of the embedding.

* A `char` is the octet it holds, a `Nat` in `0..255`.  The firmware target's plain
  `char` is unsigned, so that the firmware compares the octet itself with the SLIP codes.
  The desktop transport and the plugin are built for hosts on which the signedness of
  plain `char` is the compiler's choice (signed on the x86 hosts): their functions take
  it as the argument `signedChar`, and a `switch` on a plain `char` compares
  `charValue signedChar c` with its case labels.  The plugin decoder casts to
  `unsigned char` before its `switch` and compares the octet itself.
* A C array is a function `Nat → Nat` from index to octet, written through `store`;
  `bytes m n` reads the first `n` cells.  The capacity of an array is not part of the
  function: bounds on the indices that are stored are separate statements.
* A `(pointer, length)` argument that is only read is the list of its octets; a string
  argument is the list of its bytes, the terminating zero left out.
* A call that blocks or retries for ever, or whose result the language leaves undefined,
  has the value `none`.  Loops without a bound of their own take a bound on their
  iterations as an argument, and run out of it when they do not end.
-/

namespace MakeController

/-! ## SLIP codes -/

/-- Octal 0300: indicates end of packet. -/
def END : Nat := 192

/-- Octal 0333: indicates byte stuffing. -/
def ESC : Nat := 219

/-- Octal 0334: ESC ESC_END means END data byte. -/
def ESC_END : Nat := 220

/-- Octal 0335: ESC ESC_ESC means ESC data byte. -/
def ESC_ESC : Nat := 221

/-- The value of a plain `char` holding the octet `c`, as the `int` it is promoted to
in `switch( *packet )`: the octet itself where plain `char` is unsigned, and the octet
less 256 for the octets from 128 on where plain `char` is signed.  The case labels
`END` (0300) and `ESC` (0333) are the `int` values 192 and 219. -/
def charValue (signedChar : Bool) (c : Nat) : Int :=
  if signedChar && decide (128 ≤ c % 256) then ((c % 256 : Nat) : Int) - 256 else (c : Int)

/-! ## Memory -/

/-- The array `m` after the assignment `m[i] = v`. -/
def store (m : Nat → Nat) (i v : Nat) : Nat → Nat :=
  fun j => if j = i then v else m j

/-- The first `n` cells of the array `m`. -/
def bytes (m : Nat → Nat) (n : Nat) : List Nat :=
  (List.range n).map m

/-- The array `m` after the bytes of a list have been stored in consecutive cells from
index `i` on. -/
def storeList (m : Nat → Nat) (i : Nat) : List Nat → Nat → Nat
  | [] => m
  | c :: p => storeList (store m i c) (i + 1) p

/-! ## Reference encoding (from the wire format of the specification) -/

/-- Escaping of one payload byte: END becomes (ESC, ESC_END), ESC becomes (ESC, ESC_ESC),
every other byte is itself. -/
def escapeByte (c : Nat) : List Nat :=
  if c = END then [ESC, ESC_END] else if c = ESC then [ESC, ESC_ESC] else [c]

/-- Escaped payload: the escapings of the bytes, in order. -/
def escape : List Nat → List Nat
  | [] => []
  | c :: p => escapeByte c ++ escape p

/-- Reference frame of a message: END, the escaped payload, END. -/
def encode (p : List Nat) : List Nat :=
  END :: (escape p ++ [END])

/-- A frame is self-delimiting: it begins and ends with END, no interior position holds
END, and every interior ESC is immediately followed by ESC_END or ESC_ESC.  The
interior positions of `f` are the `i` with `0 < i` and `i + 1 < f.length`. -/
def SelfDelimiting (f : List Nat) : Prop :=
  f.head? = some END ∧ f.getLast? = some END
  ∧ (∀ i : Nat, 0 < i → i + 1 < f.length → f[i]? ≠ some END)
  ∧ (∀ i : Nat, 0 < i → i + 1 < f.length → f[i]? = some ESC →
      f[i + 1]? = some ESC_END ∨ f[i + 1]? = some ESC_ESC)

/-- Reference reading of an input stream, after the words "the bytes that accumulate
before a terminating END", with no bound on their number.  The first argument tells
whether a byte has accumulated already: an END before that is skipped, an END after it
terminates.  An ESC and the byte after it give one byte (END for ESC_END, ESC for
ESC_ESC, the byte itself otherwise), every other byte gives itself.  The value is the
bytes that accumulate from here on, and the rest of the stream after the terminating
END, or `none` when the stream ends before a terminating END. -/
def accumulate : Bool → List Nat → List Nat × Option (List Nat)
  | _, [] => ([], none)
  | started, c :: inq =>
    if c = END then
      if started then ([], some inq) else accumulate false inq
    else if c = ESC then
      match inq with
      | [] => ([], none)
      | c2 :: inq2 =>
        let r := accumulate true inq2
        ((if c2 = ESC_END then END else if c2 = ESC_ESC then ESC else c2) :: r.1, r.2)
    else
      let r := accumulate true inq
      (c :: r.1, r.2)

/-! ## usbserial.c: the ChibiOS firmware codec -/

/-- State of `usbserialWriteSlip`: the static output buffer `usbSerial.slipOutBuf`, the
offset `obp - usbSerial.slipOutBuf` of the write pointer, and the data of every
`usbserialWrite` call made so far, in order. -/
structure SlipOut where
  slipOutBuf : Nat → Nat
  obp : Nat
  calls : List (List Nat)

/-- The function `usbserialWrite(buffer, length, timeout)`.  The USB driver is the
environment `env`: `env k` is the outcome of call number `k`, `some n` when the transfer
completed with `justWrote = n`, `none` when the port is not active, the driver refuses
the write or the semaphore times out (`rv` stays `-1`). -/
def usbserialWrite (env : Nat → Option Nat) (calls : List (List Nat)) (data : List Nat) :
    Int × List (List Nat) :=
  (match env calls.length with
    | some n => (n : Int)
    | none => -1,
   calls ++ [data])

/-- The function `usbserialWriteSlipIfFull(&obp, usbSerial.slipOutBuf, timeout)`, with
`USBSER_MAX_WRITE = maxWrite`. -/
def usbserialWriteSlipIfFull (env : Nat → Option Nat) (maxWrite : Nat) (s : SlipOut) :
    Int × SlipOut :=
  let bufSize := s.obp
  if bufSize ≥ maxWrite then
    let r := usbserialWrite env s.calls (bytes s.slipOutBuf bufSize)
    (r.1, { s with obp := 0, calls := r.2 })
  else
    (0, s)

/-- The assignment `*obp++ = v`. -/
def SlipOut.put (s : SlipOut) (v : Nat) : SlipOut :=
  { s with slipOutBuf := store s.slipOutBuf s.obp v, obp := s.obp + 1 }

/-- One `*obp++ = v; count += usbserialWriteSlipIfFull(...)` pair. -/
def putIfFull (env : Nat → Option Nat) (maxWrite : Nat) (v : Nat) (cs : Int × SlipOut) :
    Int × SlipOut :=
  let r := usbserialWriteSlipIfFull env maxWrite (cs.2.put v)
  (cs.1 + r.1, r.2)

/-- The loop `while (length--)` of `usbserialWriteSlip` over the remaining message. -/
def usbserialWriteSlip.loop (env : Nat → Option Nat) (maxWrite : Nat) :
    List Nat → Int × SlipOut → Int × SlipOut
  | [], cs => cs
  | c :: buffer, cs =>
    if c = END then
      loop env maxWrite buffer (putIfFull env maxWrite ESC_END (putIfFull env maxWrite ESC cs))
    else if c = ESC then
      loop env maxWrite buffer (putIfFull env maxWrite ESC_ESC (putIfFull env maxWrite ESC cs))
    else
      loop env maxWrite buffer (putIfFull env maxWrite c cs)

/-- The function `usbserialWriteSlip(buffer, length, timeout)`: the message is the list
`buffer`, `slipOutBuf` is the static output buffer as the call finds it.  The value is
the returned `count` and the final state, whose `calls` are the chunks handed to
`usbserialWrite`. -/
def usbserialWriteSlip (env : Nat → Option Nat) (maxWrite : Nat) (slipOutBuf : Nat → Nat)
    (buffer : List Nat) : Int × SlipOut :=
  let s0 : SlipOut := { slipOutBuf := slipOutBuf, obp := 0, calls := [] }
  let cs := usbserialWriteSlip.loop env maxWrite buffer (0, s0.put END)
  let s := cs.2.put END
  let r := usbserialWrite env s.calls (bytes s.slipOutBuf s.obp)
  (cs.1 + r.1, { s with calls := r.2 })

/-- The bytes `usbserialWriteSlip` puts on the wire: the chunks it hands to
`usbserialWrite`, concatenated in order. -/
def usbserialWriteSlip.wire (env : Nat → Option Nat) (maxWrite : Nat)
    (slipOutBuf : Nat → Nat) (buffer : List Nat) : List Nat :=
  (usbserialWriteSlip env maxWrite slipOutBuf buffer).2.calls.flatten

/-- The loop `while (received < length)` of `usbserialReadSlip`.  The input queue behind
`usbserialGet` is the list of the bytes still to come; `usbserialGet` on the empty queue
blocks (`TIME_INFINITE`), which is the value `none`.  The value is the return value, the
caller's buffer and the unread rest of the queue; `badFormat` stands for
`CONTROLLER_ERROR_BAD_FORMAT`. -/
def usbserialReadSlip.loop (badFormat : Int) (length : Int) :
    List Nat → Nat → (Nat → Nat) → Option (Int × (Nat → Nat) × List Nat)
  | [], received, buffer =>
    if (received : Int) < length then none else some (badFormat, buffer, [])
  | c :: inq, received, buffer =>
    if (received : Int) < length then
      if c = END then
        if received ≠ 0 then
          some ((received : Int), buffer, inq)
        else
          loop badFormat length inq received buffer
      else if c = ESC then
        match inq with
        | [] => none
        | c2 :: inq2 =>
          let c3 := if c2 = ESC_END then END else if c2 = ESC_ESC then ESC else c2
          loop badFormat length inq2 (received + 1) (store buffer received c3)
      else
        loop badFormat length inq (received + 1) (store buffer received c)
    else
      some (badFormat, buffer, c :: inq)

/-- The function `usbserialReadSlip(buffer, length, timeout)` on the input queue `inq`. -/
def usbserialReadSlip (badFormat : Int) (inq : List Nat) (buffer : Nat → Nat)
    (length : Int) : Option (Int × (Nat → Nat) × List Nat) :=
  usbserialReadSlip.loop badFormat length inq 0 buffer

/-! ## usb.c: the legacy firmware codec -/

/-- A block of the USB receive queue (`xBULKBUFFER`): the cells `Data` and the number
`Count` of them that hold data. -/
structure xBULKBUFFER where
  Data : Nat → Nat
  Count : Nat

/-- The receive side of `usb.c`: the queue `xRxCDC` and the statics of `Usb_Read`. -/
structure UsbRx where
  xRxCDC : List xBULKBUFFER
  DeQueue : xBULKBUFFER
  queueRemaining : Bool
  queuePtr : Nat

/-- The loop `while (bufferPtr - buffer < length)` of `Usb_Read`; `n` is
`bufferPtr - buffer`.  The first argument bounds the number of iterations. -/
def Usb_Read.loop (length : Int) :
    Nat → UsbRx → (Nat → Nat) → Nat → Option (UsbRx × (Nat → Nat) × Nat)
  | 0, _, _, _ => none
  | fuel + 1, rx, buffer, n =>
    if (n : Int) < length then
      if rx.queueRemaining then
        if rx.queuePtr < rx.DeQueue.Count then
          loop length fuel { rx with queuePtr := rx.queuePtr + 1 }
            (store buffer n (rx.DeQueue.Data rx.queuePtr)) (n + 1)
        else
          loop length fuel { rx with queueRemaining := false } buffer n
      else
        match rx.xRxCDC with
        | b :: q =>
          loop length fuel { rx with xRxCDC := q, DeQueue := b, queueRemaining := true,
                                     queuePtr := 0 } buffer n
        | [] => some (rx, buffer, n)
    else
      some (rx, buffer, n)

/-- The function `Usb_Read(buffer, length)`: the value is the receive side after the
call, the buffer and the returned number of bytes.  An iteration copies a byte (at most
`length` times), clears `queueRemaining` or takes a block off the queue (at most once
for every block each, and once for the block left over), or leaves the loop. -/
def Usb_Read (rx : UsbRx) (buffer : Nat → Nat) (length : Int) :
    Option (UsbRx × (Nat → Nat) × Nat) :=
  Usb_Read.loop length (length.toNat + 2 * rx.xRxCDC.length + 3) rx buffer 0

/-- The function `Usb_SlipSend(buffer, length)`: the value is the pair
`(outgoingBuf, sendLength)` it hands to `Usb_Write`, as the list of the first
`sendLength` cells of `outgoingBuf`.  The loop `while (count--)` is the recursion on
the message; `obp` is the offset `obp - outgoingBuf`. -/
def Usb_SlipSend.loop : List Nat → (Nat → Nat) × Nat → (Nat → Nat) × Nat
  | [], o => o
  | c :: bp, (outgoingBuf, obp) =>
    if c = END then
      loop bp (store (store outgoingBuf obp ESC) (obp + 1) ESC_END, obp + 2)
    else if c = ESC then
      loop bp (store (store outgoingBuf obp ESC) (obp + 1) ESC_ESC, obp + 2)
    else
      loop bp (store outgoingBuf obp c, obp + 1)

/-- See `Usb_SlipSend.loop`; `outgoingBuf` is the stack array as the call finds it. -/
def Usb_SlipSend (outgoingBuf : Nat → Nat) (buffer : List Nat) : List Nat :=
  let o := Usb_SlipSend.loop buffer (store outgoingBuf 0 END, 1)
  let sendLength := o.2 + 1
  bytes (store o.1 o.2 END) sendLength

/-- Size in bytes of the array `char outgoingBuf[ length * 2 ]` of `Usb_SlipSend`. -/
def Usb_SlipSend.outgoingBufSize (length : Nat) : Nat := length * 2

/-- The constant `MAX_INCOMING_SLIP_PACKET`. -/
def MAX_INCOMING_SLIP_PACKET : Nat := 400

/-- The statics of `Usb_SlipReceive` (`parseBuf`, the offset of `pbp` in it,
`bufRemaining`) together with the receive side it reads from. -/
structure SlipRx where
  rx : UsbRx
  parseBuf : Nat → Nat
  pbp : Nat
  bufRemaining : Int

/-- The locals of a decoder call: `started`, `count`, the caller's buffer and the
offset `bp - buffer` of the write pointer in it. -/
structure SlipLocals where
  started : Bool
  count : Nat
  buffer : Nat → Nat
  bp : Nat

/-- The `default:` branch of the decoders: `if (started) { *bp++ = c; count++; }`. -/
def SlipLocals.put (l : SlipLocals) (c : Nat) : SlipLocals :=
  if l.started then
    { l with buffer := store l.buffer l.bp c, bp := l.bp + 1, count := l.count + 1 }
  else l

/-- The loop `for (i = 0; i < bufRemaining; i++)` of `Usb_SlipReceive`.  The first
component of the value is `some count` when the loop executed `return count`, `none`
when it ran to its end.  The first argument bounds the number of iterations. -/
def Usb_SlipReceive.forLoop :
    Nat → Nat → SlipRx → SlipLocals → Option (Option Int × SlipRx × SlipLocals)
  | 0, _, _, _ => none
  | fuel + 1, i, s, l =>
    if (i : Int) < s.bufRemaining then
      let c := s.parseBuf s.pbp
      if c = END then
        if l.started && l.count != 0 then
          some (some (l.count : Int), { s with bufRemaining := s.bufRemaining - 1 }, l)
        else
          forLoop fuel (i + 1) { s with pbp := s.pbp + 1, bufRemaining := s.bufRemaining - 1 }
            { l with started := true }
      else if c = ESC then
        forLoop fuel (i + 1) { s with pbp := s.pbp + 2, bufRemaining := s.bufRemaining - 1 }
          (l.put (s.parseBuf (s.pbp + 1)))
      else
        forLoop fuel (i + 1) { s with pbp := s.pbp + 1, bufRemaining := s.bufRemaining - 1 }
          (l.put c)
    else
      some (none, s, l)

/-- The loop `while ( count < length )` of `Usb_SlipReceive`; `Sleep(1)` has no effect
on the state.  The first argument bounds the number of iterations: a call that waits
for data that never comes runs out of it. -/
def Usb_SlipReceive.loop (badFormat : Int) (length : Int) :
    Nat → SlipRx → SlipLocals → Option (Int × SlipRx × (Nat → Nat))
  | 0, _, _ => none
  | fuel + 1, s, l =>
    if (l.count : Int) < length then
      let filled : Option SlipRx :=
        if s.bufRemaining = 0 then
          (Usb_Read s.rx s.parseBuf MAX_INCOMING_SLIP_PACKET).map fun r =>
            { rx := r.1, parseBuf := r.2.1, pbp := 0, bufRemaining := (r.2.2 : Int) }
        else some s
      match filled with
      | none => none
      | some s1 =>
        match Usb_SlipReceive.forLoop (s1.bufRemaining.toNat + 1) 0 s1 l with
        | none => none
        | some (some r, s2, l2) => some (r, s2, l2.buffer)
        | some (none, s2, l2) => loop badFormat length fuel s2 l2
    else
      some (badFormat, s, l.buffer)

/-- The function `Usb_SlipReceive(buffer, length)` in the state `s` of its statics: the
value is the return value, the statics after the call and the caller's buffer. -/
def Usb_SlipReceive (badFormat : Int) (fuel : Nat) (s : SlipRx) (buffer : Nat → Nat)
    (length : Int) : Option (Int × SlipRx × (Nat → Nat)) :=
  Usb_SlipReceive.loop badFormat length fuel s
    { started := false, count := 0, buffer := buffer, bp := 0 }

/-- The constant `EP_FIFO`, the size of a block of the USB hardware (64, as the comment
on `TestAndSend` has it). -/
def EP_FIFO : Nat := 64

/-- The receive queue holding the bytes `data` as blocks of at most `EP_FIFO` bytes, the
way the USB task queues what the host sent. -/
def rxBlocks (data : List Nat) : List xBULKBUFFER :=
  (data.toChunks EP_FIFO).map fun b => { Data := fun i => b.getD i 0, Count := b.length }

/-- The statics of `Usb_Read` and `Usb_SlipReceive` at start-up, with the blocks `q` in
the receive queue. -/
def SlipRx.init (q : List xBULKBUFFER) : SlipRx :=
  { rx := { xRxCDC := q, DeQueue := { Data := fun _ => 0, Count := 0 },
            queueRemaining := false, queuePtr := 0 },
    parseBuf := fun _ => 0, pbp := 0, bufRemaining := 0 }

/-! ## PacketUsbCdc.cpp: the desktop transport -/

/-- The serial port behind `PacketUsbCdc`: whether it is open, and its environment and
trace.  `openOk` tells whether `open` succeeds, `writeResult` is what `write` returns,
`written` lists the arrays written so far, and `incoming` lists what the successive
polls of `getMoreBytes` find: `some data` for `bytesAvailable() = data.length` bytes
that `read` then delivers, `none` for a negative `bytesAvailable()` or `read`.  A poll
past the end of `incoming` finds no data. -/
structure QextSerialPort where
  isOpen : Bool
  openOk : Bool
  writeResult : Int
  written : List (List Nat)
  incoming : List (Option (List Nat))

/-- The values of `PacketInterface::Status` that `PacketUsbCdc` returns. -/
inductive Status where
  | OK
  | ERROR_NOT_OPEN
  | IO_ERROR
  deriving DecidableEq, Repr

/-- The loop `while( size-- )` of `PacketUsbCdc::sendPacket`, appending to the
`QByteArray outgoingPacket`; `switch( *packet )` is on a plain `char`. -/
def PacketUsbCdc.sendPacket.loop (signedChar : Bool) : List Nat → List Nat → List Nat
  | [], outgoingPacket => outgoingPacket
  | c :: packet, outgoingPacket =>
    if charValue signedChar c = (END : Int) then
      loop signedChar packet ((outgoingPacket ++ [ESC]) ++ [ESC_END])
    else if charValue signedChar c = (ESC : Int) then
      loop signedChar packet ((outgoingPacket ++ [ESC]) ++ [ESC_ESC])
    else
      loop signedChar packet (outgoingPacket ++ [c])

/-- The function `PacketUsbCdc::sendPacket(packet, length)` on a host whose plain `char`
is signed or not, as `signedChar` tells. -/
def PacketUsbCdc.sendPacket (signedChar : Bool) (port : QextSerialPort) (packet : List Nat) :
    Status × QextSerialPort :=
  let port1 := if !port.isOpen then { port with isOpen := port.openOk } else port
  if !port1.isOpen then
    (Status.IO_ERROR, port1)
  else
    let outgoingPacket :=
      PacketUsbCdc.sendPacket.loop signedChar packet ([] ++ [END]) ++ [END]
    let port2 := { port1 with written := port1.written ++ [outgoingPacket] }
    if port2.writeResult < 0 then
      (Status.IO_ERROR, port2)
    else
      (Status.OK, port2)

/-- The function `PacketUsbCdc::getMoreBytes()`: the value is whether it returned
`PacketInterface::OK` (and not `-1`), the member `slipRxPacket` and the port. -/
def PacketUsbCdc.getMoreBytes (slipRxPacket : List Nat) (port : QextSerialPort) :
    Bool × List Nat × QextSerialPort :=
  if slipRxPacket.length < 1 then
    match port.incoming with
    | [] => (true, slipRxPacket, port)
    | none :: rest => (false, slipRxPacket, { port with incoming := rest })
    | some data :: rest =>
      if data.length > 0 then
        (true, data, { port with incoming := rest })
      else
        (true, slipRxPacket, { port with incoming := rest })
  else
    (true, slipRxPacket, port)

/-- The loop `for( i = 0; i < size; i++ )` of `PacketUsbCdc::slipReceive`; the second
argument is the number `size - i` of iterations left.  `*slipRxPacket.data( )` is the
first byte of the array, or the terminating zero of an empty array, a plain `char` on
which the `switch` is made, and `remove( 0, 1 )` drops the first byte, if any.  The
first component of the value is `some count` when the loop executed `return count`. -/
def PacketUsbCdc.slipReceive.forLoop (signedChar : Bool) :
    Nat → List Nat → SlipLocals → Option Int × List Nat × SlipLocals
  | 0, slipRxPacket, l => (none, slipRxPacket, l)
  | n + 1, slipRxPacket, l =>
    let c := slipRxPacket.headD 0
    if charValue signedChar c = (END : Int) then
      if l.started && l.count != 0 then
        (some (l.count : Int), slipRxPacket.drop 1, l)
      else
        forLoop signedChar n (slipRxPacket.drop 1) { l with started := true }
    else if charValue signedChar c = (ESC : Int) then
      forLoop signedChar n ((slipRxPacket.drop 1).drop 1)
        (l.put ((slipRxPacket.drop 1).headD 0))
    else
      forLoop signedChar n (slipRxPacket.drop 1) (l.put c)

/-- The loop `while ( true )` of `PacketUsbCdc::slipReceive`; `msleep` has no effect on
the state.  The argument after `length` bounds the number of iterations: a call that
waits for data that never comes runs out of it. -/
def PacketUsbCdc.slipReceive.loop (signedChar : Bool) (length : Int) :
    Nat → List Nat → QextSerialPort → SlipLocals →
      Option (Int × List Nat × QextSerialPort × (Nat → Nat))
  | 0, _, _, _ => none
  | fuel + 1, slipRxPacket, port, l =>
    let g := PacketUsbCdc.getMoreBytes slipRxPacket port
    if !g.1 then
      some (-1, g.2.1, g.2.2, l.buffer)
    else if g.2.1.length ≠ 0 then
      let size : Int := if (g.2.1.length : Int) > length then length else g.2.1.length
      match PacketUsbCdc.slipReceive.forLoop signedChar size.toNat g.2.1 l with
      | (some r, rx, l1) => some (r, rx, g.2.2, l1.buffer)
      | (none, rx, l1) => loop signedChar length fuel rx g.2.2 l1
    else
      loop signedChar length fuel g.2.1 g.2.2 l

/-- The function `PacketUsbCdc::slipReceive(buffer, length)` on a host whose plain `char`
is signed or not, as `signedChar` tells: the value is the return value, the member
`slipRxPacket`, the port and the caller's buffer. -/
def PacketUsbCdc.slipReceive (signedChar : Bool) (fuel : Nat) (slipRxPacket : List Nat)
    (port : QextSerialPort) (buffer : Nat → Nat) (length : Int) :
    Option (Int × List Nat × QextSerialPort × (Nat → Nat)) :=
  PacketUsbCdc.slipReceive.loop signedChar length fuel slipRxPacket port
    { started := false, count := 0, buffer := buffer, bp := 0 }

/-- A port that is open, has written nothing, and on whose receive side the polls find
the chunks `chunks`, in order. -/
def QextSerialPort.receiving (chunks : List (List Nat)) : QextSerialPort :=
  { isOpen := true, openOk := true, writeResult := 0, written := [],
    incoming := chunks.map some }

/-! ## mc.usb.c: the Max plugin client -/

/-- The constant `MAX_READ_LENGTH`. -/
def MAX_READ_LENGTH : Nat := 16384

/-- The array `m` after `data` has been read into its first cells. -/
def blit (m : Nat → Nat) (data : List Nat) : Nat → Nat :=
  fun j => data.getD j (m j)

/-- The fields of `t_mcUsb` that `mc_SLIP_receive` uses, with `osc_packet->packetBuf`
and `osc_packet->length` as `packetBuf` and `length`, and the environment of the
object: `deviceOpen` is `mc_usbInt->deviceOpen`, `openOk` tells whether `usb_open`
succeeds, `incoming` lists what the successive polls find (the bytes
`usb_numBytesAvailable` reports and `usb_read` delivers; a poll past its end finds
none), and `delivered` lists the packets handed to `Osc_receive_packet`. -/
structure t_mcUsb where
  packetBuf : Nat → Nat
  length : Int
  packetStarted : Int
  usbReadBufPtr : Nat
  usbReadBuffer : Nat → Nat
  usbReadBufLength : Int
  deviceOpen : Bool
  openOk : Bool
  incoming : List (List Nat)
  delivered : List (List Nat)

/-- The `default:` branch of `mc_SLIP_receive`:
`if ( started ) { *bufferPtr++ = *x->usbReadBufPtr; x->osc_packet->length++; }`. -/
def t_mcUsb.put (x : t_mcUsb) (started : Bool) (bufferPtr : Nat) : t_mcUsb × Nat :=
  if started then
    ({ x with packetBuf := store x.packetBuf bufferPtr (x.usbReadBuffer x.usbReadBufPtr),
              length := x.length + 1 }, bufferPtr + 1)
  else (x, bufferPtr)

/-- The statements `x->usbReadBufPtr++; x->usbReadBufLength--;`. -/
def t_mcUsb.advance (x : t_mcUsb) : t_mcUsb :=
  { x with usbReadBufPtr := x.usbReadBufPtr + 1, usbReadBufLength := x.usbReadBufLength - 1 }

/-- The loop `for( i = 0; i < x->usbReadBufLength; i++ )` of `mc_SLIP_receive`, with the
locals `started` and `bufferPtr` (an offset in `packetBuf`).  The first component of the
value tells whether the loop executed `return`.  The first argument bounds the number
of iterations. -/
def mc_SLIP_receive.forLoop :
    Nat → Nat → t_mcUsb → Bool → Nat → Option (Bool × t_mcUsb × Bool × Nat)
  | 0, _, _, _, _ => none
  | fuel + 1, i, x, started, bufferPtr =>
    if (i : Int) < x.usbReadBufLength then
      let c := x.usbReadBuffer x.usbReadBufPtr
      if c = END then
        if started && x.length > 0 then
          let packetBuf := store x.packetBuf bufferPtr 0
          some (true,
            { x with packetBuf := packetBuf,
                     delivered := x.delivered ++ [bytes packetBuf x.length.toNat],
                     packetStarted := 0 },
            started, bufferPtr)
        else
          forLoop fuel (i + 1) { x with length := 0 }.advance true bufferPtr
      else if c = ESC then
        let r := x.advance.put started bufferPtr
        forLoop fuel (i + 1) r.1.advance started r.2
      else
        let r := x.put started bufferPtr
        forLoop fuel (i + 1) r.1.advance started r.2
    else
      some (false, x, started, bufferPtr)

/-- The read at the head of the loop `while( 1 )` of `mc_SLIP_receive`: the first
component tells whether it executed `break`. -/
def mc_SLIP_receive.readMore (x : t_mcUsb) : Bool × t_mcUsb :=
  if x.usbReadBufLength < 1 then
    match x.incoming with
    | [] => (false, x)
    | data :: rest =>
      if data.length > 0 then
        let available := if data.length > MAX_READ_LENGTH then MAX_READ_LENGTH else data.length
        let justGot := available
        let x1 := { x with usbReadBuffer := blit x.usbReadBuffer (data.take available),
                           incoming := if data.length > MAX_READ_LENGTH
                             then data.drop available :: rest else rest,
                           usbReadBufPtr := 0,
                           usbReadBufLength := x.usbReadBufLength + justGot }
        (decide (x1.usbReadBufLength < 0), x1)
      else
        (false, { x with incoming := rest })
  else
    (false, x)

/-- The loop `while( 1 )` of `mc_SLIP_receive`.  The first argument bounds the number of
iterations. -/
def mc_SLIP_receive.loop : Nat → t_mcUsb → Bool → Nat → Option t_mcUsb
  | 0, _, _, _ => none
  | fuel + 1, x, started, bufferPtr =>
    let r := mc_SLIP_receive.readMore x
    if r.1 then
      some r.2
    else
      match mc_SLIP_receive.forLoop (r.2.usbReadBufLength.toNat + 1) 0 r.2 started bufferPtr with
      | none => none
      | some (true, x2, _, _) => some x2
      | some (false, x2, started2, bufferPtr2) =>
        if x2.usbReadBufLength = 0 then
          some x2
        else
          loop fuel x2 started2 bufferPtr2

/-- The function `mc_SLIP_receive(x)`, called by `mcUsb_tick` on every tick. -/
def mc_SLIP_receive (fuel : Nat) (x : t_mcUsb) : Option t_mcUsb :=
  let x0 := { x with length := 0 }
  let x1 := if !x0.deviceOpen then { x0 with deviceOpen := x0.openOk } else x0
  if !x1.deviceOpen then
    some x1
  else
    mc_SLIP_receive.loop fuel x1 false 0

/-- The object as `mcUsb_new` leaves it, on an open device. -/
def t_mcUsb.new : t_mcUsb :=
  { packetBuf := fun _ => 0, length := 0, packetStarted := 0, usbReadBufPtr := 0,
    usbReadBuffer := fun _ => 0, usbReadBufLength := 0, deviceOpen := true, openOk := true,
    incoming := [], delivered := [] }

/-- The object `x` once the bytes `data` have arrived at its port. -/
def t_mcUsb.arrive (x : t_mcUsb) (data : List Nat) : t_mcUsb :=
  { x with incoming := x.incoming ++ [data] }

/-- The loop `while( size-- )` of `mc_send_packet`; `ptr` is the offset `ptr - buf`, and
`switch(*packet)` is on a plain `char`. -/
def mc_send_packet.loop (signedChar : Bool) :
    List Nat → (Nat → Nat) × Nat → (Nat → Nat) × Nat
  | [], o => o
  | c :: packet, (buf, ptr) =>
    if charValue signedChar c = (END : Int) then
      loop signedChar packet (store (store buf ptr ESC) (ptr + 1) ESC_END, ptr + 2)
    else if charValue signedChar c = (ESC : Int) then
      loop signedChar packet (store (store buf ptr ESC) (ptr + 1) ESC_ESC, ptr + 2)
    else
      loop signedChar packet (store buf ptr c, ptr + 1)

/-- The function `mc_send_packet(x, u, packet, length)` on a host whose plain `char` is
signed or not, as `signedChar` tells: the value is the pair `(buf, ptr - buf)` it hands
to `usb_write`, as the list of the first `ptr - buf` cells of `buf`; `buf` is the stack
array as the call finds it. -/
def mc_send_packet (signedChar : Bool) (buf : Nat → Nat) (packet : List Nat) : List Nat :=
  let o := mc_send_packet.loop signedChar packet (store buf 0 END, 1)
  bytes (store o.1 o.2 END) (o.2 + 1)

/-! ## usb.c: the transmit side -/

/-- The value of `CONTROLLER_OK` (zero: "Zero on success", "0 on success" in the
documentation of the functions that return it). -/
def CONTROLLER_OK : Int := 0

/-- The transmit side of `usb.c`: the statics `Usb_Users` and `Usb_Running`, whether the
task that `Usb_SetActive` creates gets to run and set `Usb_Running` (`taskRuns`), the
blocks the queue `xTxCDC` has accepted, in order, and the number of `xQueueSend` calls
made so far. -/
structure UsbTx where
  Usb_Users : Int
  Usb_Running : Bool
  taskRuns : Bool
  xTxCDC : List xBULKBUFFER
  attempts : Nat

/-- The function `Usb_SetActive(state)`.  The loop `while ( !Usb_Running ) Sleep( 100 )`
ends when the created task has set `Usb_Running`; when it never does, the call does not
return (`none`). -/
def Usb_SetActive (state : Int) (tx : UsbTx) : Option (Int × UsbTx) :=
  if state ≠ 0 then
    if tx.Usb_Users = 0 then
      let tx1 := { tx with Usb_Users := tx.Usb_Users + 1 }
      if tx1.Usb_Running || tx1.taskRuns then
        some (CONTROLLER_OK, { tx1 with Usb_Running := true })
      else
        none
    else
      some (CONTROLLER_OK, { tx with Usb_Users := tx.Usb_Users + 1 })
  else
    if tx.Usb_Users ≠ 0 then
      some (CONTROLLER_OK, { tx with Usb_Users := tx.Usb_Users - 1 })
    else
      some (CONTROLLER_OK, tx)

/-- The function `Usb_GetActive()`. -/
def Usb_GetActive (tx : UsbTx) : Int :=
  if tx.Usb_Users > 0 then 1 else 0

/-- The loop `while(xQueueSend( xTxCDC, pq, 0) != pdPASS) Sleep( usbSHORTEST_DELAY )`.
The queue is the environment `accept`: `accept k` tells whether `xQueueSend` call
number `k` returns `pdPASS`, and a call that passes appends a copy of the block to the
queue.  The first argument bounds the number of iterations: a loop that retries for ever
runs out of it. -/
def xQueueSendRetry (accept : Nat → Bool) : Nat → UsbTx → xBULKBUFFER → Option UsbTx
  | 0, _, _ => none
  | fuel + 1, tx, q =>
    if accept tx.attempts then
      some { tx with xTxCDC := tx.xTxCDC ++ [q], attempts := tx.attempts + 1 }
    else
      xQueueSendRetry accept fuel { tx with attempts := tx.attempts + 1 } q

/-- The function `TestAndSend(pq, newByte)`: the value is the returned `pq->Count`, the
transmit side and the block `*pq`. -/
def TestAndSend (accept : Nat → Bool) (fuel : Nat) (tx : UsbTx) (q : xBULKBUFFER)
    (newByte : Nat) : Option (Int × UsbTx × xBULKBUFFER) :=
  let q1 : xBULKBUFFER := { Data := store q.Data q.Count newByte, Count := q.Count + 1 }
  if q1.Count = EP_FIFO then
    (xQueueSendRetry accept fuel tx q1).map fun tx1 => (0, tx1, { q1 with Count := 0 })
  else
    some ((q1.Count : Int), tx, q1)

/-- The loop `while( count-- ) TestAndSend( &q, *bp++ )` of `Usb_Write`. -/
def Usb_Write.loop (accept : Nat → Bool) (fuel : Nat) :
    List Nat → UsbTx × xBULKBUFFER → Option (UsbTx × xBULKBUFFER)
  | [], s => some s
  | c :: bp, (tx, q) =>
    match TestAndSend accept fuel tx q c with
    | none => none
    | some r => loop accept fuel bp (r.2.1, r.2.2)

/-- The function `Usb_Write(buffer, length)`: `qData` is the stack block `q.Data` as the
call finds it.  The value is the return value and the transmit side; `none` when the
call does not return. -/
def Usb_Write (accept : Nat → Bool) (fuel : Nat) (tx : UsbTx) (qData : Nat → Nat)
    (buffer : List Nat) : Option (Int × UsbTx) :=
  let active : Option UsbTx :=
    if tx.Usb_Users = 0 then (Usb_SetActive 1 tx).map fun r => r.2 else some tx
  match active with
  | none => none
  | some tx1 =>
    match Usb_Write.loop accept fuel buffer (tx1, { Data := qData, Count := 0 }) with
    | none => none
    | some (tx2, q) =>
      if q.Count ≠ 0 then
        (xQueueSendRetry accept fuel tx2 q).map fun tx3 => (CONTROLLER_OK, tx3)
      else
        some (CONTROLLER_OK, tx2)

/-- The whole call `Usb_SlipSend(buffer, length)`: the frame is handed to `Usb_Write`,
then `CONTROLLER_OK` is returned. -/
def Usb_SlipSend.call (accept : Nat → Bool) (fuel : Nat) (tx : UsbTx)
    (qData outgoingBuf : Nat → Nat) (buffer : List Nat) : Option (Int × UsbTx) :=
  (Usb_Write accept fuel tx qData (Usb_SlipSend outgoingBuf buffer)).map fun r =>
    (CONTROLLER_OK, r.2)

/-- The transmit side with the USB task running and an empty transmit queue. -/
def UsbTx.running : UsbTx :=
  { Usb_Users := 1, Usb_Running := true, taskRuns := true, xTxCDC := [], attempts := 0 }

/-! ## PacketUsbCdc.cpp: the queue of received packets -/

/-- The class `OscUsbPacket`. -/
structure OscUsbPacket where
  packetBuf : Nat → Nat
  length : Int

/-- The call `memcpy( dest, src, n )`. -/
def memcpy (dest src : Nat → Nat) (n : Nat) : Nat → Nat :=
  fun j => if j < n then src j else dest j

/-- The loop `for( int i = 0; i < listSize; i++ )` of `PacketUsbCdc::receivePacket`; the
first argument is the number `listSize - i` of iterations left.  `packetList.takeAt( i )`
removes and returns the item at index `i`; with `i` out of range the call is undefined
(`QList` asserts `index out of range`), which is the value `none`. -/
def PacketUsbCdc.receivePacket.forLoop (size : Int) :
    Nat → Nat → List OscUsbPacket → (Nat → Nat) → Int →
      Option (Int × List OscUsbPacket × (Nat → Nat))
  | 0, _, packetList, buffer, retval => some (retval, packetList, buffer)
  | n + 1, i, packetList, buffer, _ =>
    match packetList[i]? with
    | none => none
    | some packet =>
      let length := packet.length
      if length ≤ size then
        forLoop size n (i + 1) (packetList.eraseIdx i)
          (memcpy buffer packet.packetBuf length.toNat) length
      else
        forLoop size n (i + 1) (packetList.eraseIdx i) buffer 0

/-- The function `PacketUsbCdc::receivePacket(buffer, size)` on the member `packetList`:
the value is the return value, the list and the caller's buffer after the call, and
the number of error messages handed to `messageInterface`. -/
def PacketUsbCdc.receivePacket (packetList : List OscUsbPacket) (buffer : Nat → Nat)
    (size : Int) : Option (Int × List OscUsbPacket × (Nat → Nat) × Nat) :=
  if packetList.length = 0 then
    some (0, packetList, buffer, 1)
  else
    let listSize := packetList.length
    if listSize > 0 then
      (PacketUsbCdc.receivePacket.forLoop size listSize 0 packetList buffer 0).map fun r =>
        (r.1, r.2.1, r.2.2, 0)
    else
      some (0, packetList, buffer, 0)

/-! ## system.c: name and serial number of the board -/

/-- The constant `SYSTEM_MAX_NAME`. -/
def SYSTEM_MAX_NAME : Nat := 99

/-- Modelled from the spec: the addresses `EEPROM_SYSTEM_NAME` and
`EEPROM_SYSTEM_SERIAL_NUMBER` of `eeprom.h`, which is not among the sources (EEPROM
persistence is an external collaborator of the core). -/
structure EepromMap where
  EEPROM_SYSTEM_NAME : Nat
  EEPROM_SYSTEM_SERIAL_NUMBER : Nat

/-- Modelled from the spec: the call `eepromWrite(address, value)` of the EEPROM
collaborator (not among the sources).  The EEPROM is an array of bytes; the call stores
the four bytes of the 32-bit `value`, low byte first. -/
def eepromWrite (eeprom : Nat → Nat) (address : Nat) (value : Int) : Nat → Nat :=
  let u := (value % 4294967296).toNat
  store (store (store (store eeprom address (u % 256)) (address + 1) (u / 256 % 256))
    (address + 2) (u / 65536 % 256)) (address + 3) (u / 16777216 % 256)

/-- Modelled from the spec: the call `eepromRead(address)` of the EEPROM collaborator
(not among the sources): the `int` whose four bytes are stored at `address`, low byte
first. -/
def eepromRead (eeprom : Nat → Nat) (address : Nat) : Int :=
  let u := eeprom address % 256 + 256 * (eeprom (address + 1) % 256)
    + 65536 * (eeprom (address + 2) % 256) + 16777216 * (eeprom (address + 3) % 256)
  if u < 2147483648 then (u : Int) else (u : Int) - 4294967296

/-- Modelled from the spec: the call `eepromWriteBlock(address, data, 1)` of the EEPROM
collaborator (not among the sources) stores the byte `*data` at `address`. -/
def eepromWriteBlock1 (eeprom : Nat → Nat) (address : Nat) (data : Nat) : Nat → Nat :=
  store eeprom address data

/-- Modelled from the spec: the call `eepromReadBlock(address, data, 1)` of the EEPROM
collaborator (not among the sources) reads the byte at `address`. -/
def eepromReadBlock1 (eeprom : Nat → Nat) (address : Nat) : Nat :=
  eeprom address

/-- The state of `system.c`: the static array `sysName` and the EEPROM. -/
structure System where
  sysName : Nat → Nat
  eeprom : Nat → Nat

/-- The function `systemSerialNumber()`; `x & 0xFFFF` of an `int` is `x % 65536`. -/
def systemSerialNumber (M : EepromMap) (sys : System) : Int :=
  eepromRead sys.eeprom M.EEPROM_SYSTEM_SERIAL_NUMBER % 65536

/-- The function `systemSetSerialNumber(serial)`. -/
def systemSetSerialNumber (M : EepromMap) (sys : System) (serial : Int) : Int × System :=
  (CONTROLLER_OK,
    { sys with eeprom := eepromWrite sys.eeprom M.EEPROM_SYSTEM_SERIAL_NUMBER (serial % 65536) })

/-- The C string a `char*` argument points to is the list of its bytes up to the first
zero; `strlen` is the number of those bytes. -/
def strlen (name : List Nat) : Nat :=
  (name.takeWhile (fun c => c != 0)).length

/-- The byte `name[i]` of a C string given as a list: the terminating zero at the end
of the list. -/
def charAt (name : List Nat) (i : Nat) : Nat :=
  name.getD i 0

/-- The call `strncpy(dest, src, n)`: `n` bytes of `dest` are written, the bytes of the
string `src` and, when `src` is shorter than `n`, zeros after them; no zero is written
when `src` has `n` bytes or more. -/
def strncpy (dest : Nat → Nat) (src : List Nat) (n : Nat) : Nat → Nat :=
  fun j => if j < n then (if j < strlen src then charAt src j else 0) else dest j

/-- The string an array holds from index `i` on, read up to the first zero among the
next `n` cells. -/
def cstring (m : Nat → Nat) : Nat → Nat → List Nat
  | 0, _ => []
  | n + 1, i => if m i = 0 then [] else m i :: cstring m n (i + 1)

/-- The function `systemSetName(name)`. -/
def systemSetName (M : EepromMap) (sys : System) (name : List Nat) : Int × System :=
  let length := min (strlen name) SYSTEM_MAX_NAME
  let sysName := strncpy sys.sysName name length
  let eeprom := (List.range (length + 1)).foldl
    (fun e i => eepromWriteBlock1 e (M.EEPROM_SYSTEM_NAME + i) (charAt name i)) sys.eeprom
  (CONTROLLER_OK, { sysName := sysName, eeprom := eeprom })

/-- The macro `isalnum` in the C locale: digits and ASCII letters. -/
def isalnum (c : Nat) : Bool :=
  (48 ≤ c && c ≤ 57) || (65 ≤ c && c ≤ 90) || (97 ≤ c && c ≤ 122)

/-- The loop `for (i = 0; i <= SYSTEM_MAX_NAME; i++)` of `systemName`; the first
argument is the number of iterations left, and `ptr - sysName` is `i` throughout.  The
value is `i`, `legal` and `sysName` when the loop is left. -/
def systemName.loop (M : EepromMap) (eeprom : Nat → Nat) :
    Nat → Nat → (Nat → Nat) → Bool → Nat × Bool × (Nat → Nat)
  | 0, i, sysName, legal => (i, legal, sysName)
  | n + 1, i, sysName, legal =>
    let sysName1 := store sysName i (eepromReadBlock1 eeprom (M.EEPROM_SYSTEM_NAME + i))
    let c := sysName1 i
    if c = 0 then
      (i, legal, sysName1)
    else if !isalnum c && c != 32 then
      (i, false, sysName1)
    else
      systemName.loop M eeprom n (i + 1) sysName1 true

/-- The string literal `"Make Controller Kit"`. -/
def defaultName : List Nat :=
  [77, 97, 107, 101, 32, 67, 111, 110, 116, 114, 111, 108, 108, 101, 114, 32, 75, 105, 116]

/-- The function `systemName()`: the value is the string the returned pointer `sysName`
points to, and the state after the call. -/
def systemName (M : EepromMap) (sys : System) : List Nat × System :=
  let sys1 : System :=
    if sys.sysName 0 = 0 then
      let r := systemName.loop M sys.eeprom (SYSTEM_MAX_NAME + 1) 0 sys.sysName false
      if !r.2.1 then
        (systemSetName M { sys with sysName := r.2.2 } defaultName).2
      else
        { sys with sysName := store r.2.2 r.1 0 }
    else sys
  (cstring sys1.sysName (SYSTEM_MAX_NAME + 1) 0, sys1)

/-! ## system.c: the OSC handlers -/

/-- The type tags of `OscData` (`osc.h` is not among the sources; `system.c` uses `INT`
and `STRING`). -/
inductive OscType where
  | INT
  | FLOAT
  | STRING
  | BLOB
  deriving DecidableEq, Repr

/-- The union `value` of an `OscData`, by its two views: `i` is the union read as an
`int` (`value.i`), `s` is the string that the union read as a `char*` (`value.s`)
points to. -/
structure OscValue where
  i : Int
  s : List Nat
  deriving DecidableEq, Repr

/-- The struct `OscData`. -/
structure OscData where
  type : OscType
  value : OscValue
  deriving DecidableEq, Repr

/-- A value of a created message: the `int` of a datum tagged `INT`, or the string a
datum tagged `STRING` points to when the message is created. -/
inductive OscArg where
  | int (v : Int)
  | string (str : List Nat)
  deriving DecidableEq, Repr

/-- Modelled from the spec: a call `oscCreateMessage(ch, address, data, datalen)` of
`osc.c`, which is not among the sources, creates one message on the channel `ch` for
the address `address` carrying the values `data`, in order. -/
structure OscMessage where
  ch : Nat
  address : List Nat
  args : List OscArg
  deriving DecidableEq, Repr

/-- The function `systemNameOsc(ch, address, idx, d, datalen)`, with `datalen` the
length of the list `d` (`idx` is unused): the value is the return value, the state and
the messages created so far (`out` before the call). -/
def systemNameOsc (M : EepromMap) (sys : System) (out : List OscMessage) (ch : Nat)
    (address : List Nat) (d : List OscData) : Bool × System × List OscMessage :=
  if d.length = 1 ∧ (d.head?.map fun d0 => d0.type) = some OscType.STRING then
    (true, (systemSetName M sys ((d.head?.map fun d0 => d0.value.s).getD [])).2, out)
  else if d.length = 0 then
    (true, sys,
      out ++ [{ ch := ch, address := address,
                args := [OscArg.string (cstring sys.sysName (SYSTEM_MAX_NAME + 1) 0)] }])
  else
    (false, sys, out)

/-- The state of `system.c` at start-up, `sysName` zeroed, with the bytes `stored` and a
zero after them at `EEPROM_SYSTEM_NAME` in the EEPROM. -/
def System.boot (M : EepromMap) (stored : List Nat) : System :=
  { sysName := fun _ => 0,
    eeprom := fun a => if M.EEPROM_SYSTEM_NAME ≤ a then charAt stored (a - M.EEPROM_SYSTEM_NAME)
      else 0 }

/-! ## system.c: the other handlers and the node table -/

/-- The function `systemFreeMemory()`: `heapFree` is the free size that `chHeapStatus`
reports, a `size_t`, returned as an `int`. -/
def systemFreeMemory (heapFree : Nat) : Int :=
  let u := heapFree % 4294967296
  if u < 2147483648 then (u : Int) else (u : Int) - 4294967296

/-- The function `systemFreememOsc(ch, address, idx, d, datalen)`, with `datalen` the
length of the list `d` (`idx` and `d` are unused): the value is the return value, the
state and the messages created so far (`out` before the call). -/
def systemFreememOsc (heapFree : Nat) (sys : System) (out : List OscMessage) (ch : Nat)
    (address : List Nat) (d : List OscData) : Bool × System × List OscMessage :=
  if d.length = 0 then
    (true, sys, out ++ [OscMessage.mk ch address [OscArg.int (systemFreeMemory heapFree)]])
  else
    (false, sys, out)

/-- What `systemReset` and `systemSamba` set off: the reboot of `kill()`, and the
return of the board to SAM-BA mode. -/
inductive SystemAction where
  | reset
  | samba
  deriving DecidableEq, Repr

/-- The function `systemReset(sure)`, on the list of the actions set off so far. -/
def systemReset (sure : Bool) (acts : List SystemAction) : List SystemAction :=
  if sure then acts ++ [SystemAction.reset] else acts

/-- The function `systemSamba(sure)`, on the list of the actions set off so far. -/
def systemSamba (sure : Bool) (acts : List SystemAction) : List SystemAction :=
  if sure then acts ++ [SystemAction.samba] else acts

/-- The function `systemResetOsc(ch, address, idx, d, datalen)`, with `datalen` the
length of the list `d` (`idx`, `ch` and `address` are unused): the value is the return
value, the messages created so far and the actions set off so far. -/
def systemResetOsc (out : List OscMessage) (acts : List SystemAction) (_ch : Nat)
    (_address : List Nat) (d : List OscData) : Bool × List OscMessage × List SystemAction :=
  if d.length = 1 ∧ (d.head?.map fun d0 => d0.value.i) = some 1 then
    (true, out, systemReset true acts)
  else
    (false, out, acts)

/-- The function `systemSambaOsc(ch, address, idx, d, datalen)`, as `systemResetOsc`. -/
def systemSambaOsc (out : List OscMessage) (acts : List SystemAction) (_ch : Nat)
    (_address : List Nat) (d : List OscData) : Bool × List OscMessage × List SystemAction :=
  if d.length = 1 ∧ (d.head?.map fun d0 => d0.value.i) = some 1 then
    (true, out, systemSamba true acts)
  else
    (false, out, acts)

/-- The handlers of `system.c`. -/
inductive SystemHandler where
  | systemNameOsc
  | systemFreememOsc
  | systemResetOsc
  | systemSambaOsc
  | systemVersionOsc
  deriving DecidableEq, Repr

/-- A leaf `OscNode`: its `.name` and its `.handler`. -/
structure OscLeaf where
  name : String
  handler : SystemHandler
  deriving DecidableEq, Repr

/-- The node `systemNameNode`. -/
def systemNameNode : OscLeaf := { name := "name", handler := SystemHandler.systemNameOsc }

/-- The node `systemFreememNode`. -/
def systemFreememNode : OscLeaf :=
  { name := "freememory", handler := SystemHandler.systemFreememOsc }

/-- The node `systemResetNode`. -/
def systemResetNode : OscLeaf := { name := "reset", handler := SystemHandler.systemResetOsc }

/-- The node `systemSambaNode`. -/
def systemSambaNode : OscLeaf := { name := "samba", handler := SystemHandler.systemSambaOsc }

/-- The node `systemVersionNode`. -/
def systemVersionNode : OscLeaf :=
  { name := "version", handler := SystemHandler.systemVersionOsc }

/-- The `.name` of the node `systemOsc`. -/
def systemOsc.name : String := "system"

/-- The `.children` of the node `systemOsc`, up to the terminating 0. -/
def systemOsc.children : List OscLeaf :=
  [systemFreememNode, systemResetNode, systemSambaNode, systemVersionNode, systemNameNode]

/-- The properties that the documentation of the System subsystem lists (`\section
properties` of the group SystemOSC). -/
def systemDocumentedProperties : List String :=
  ["name", "freememory", "samba", "reset", "serialnumber", "version", "stack-audit",
    "task-report", "active"]

/-! ## Offsets of the stores of the legacy encoders -/

/-- The loop `while( count-- )` of `Usb_SlipSend`, keeping, instead of the bytes it
stores, the offsets in the output array at which it stores them, in order: `obp` is the
offset of the write pointer, and every store is an `*obp++ = ...`. -/
def encoderStores.loop : List Nat → Nat × List Nat → Nat × List Nat
  | [], o => o
  | c :: bp, (obp, ix) =>
    if c = END then
      loop bp (obp + 2, ix ++ [obp, obp + 1])
    else if c = ESC then
      loop bp (obp + 2, ix ++ [obp, obp + 1])
    else
      loop bp (obp + 1, ix ++ [obp])

/-- The offsets in `outgoingBuf` at which `Usb_SlipSend` stores a byte, in order: the
END at offset 0, the stores of the loop, and the closing END. -/
def Usb_SlipSend.stores (buffer : List Nat) : List Nat :=
  let o := encoderStores.loop buffer (1, [0])
  o.2 ++ [o.1]

/-- The loop `while( size-- )` of `mc_send_packet`, keeping the offsets in `buf` at which
it stores a byte, in order: `ptr` is the offset of the write pointer, and every store is
a `*ptr++ = ...`. -/
def mc_send_packet.loop.stores (signedChar : Bool) :
    List Nat → Nat × List Nat → Nat × List Nat
  | [], o => o
  | c :: packet, (ptr, ix) =>
    if charValue signedChar c = (END : Int) then
      stores signedChar packet (ptr + 2, ix ++ [ptr, ptr + 1])
    else if charValue signedChar c = (ESC : Int) then
      stores signedChar packet (ptr + 2, ix ++ [ptr, ptr + 1])
    else
      stores signedChar packet (ptr + 1, ix ++ [ptr])

/-- The offsets in `buf` at which `mc_send_packet` stores a byte, in order: `buf[0]`,
the stores of the loop, and the closing END. -/
def mc_send_packet.stores (signedChar : Bool) (packet : List Nat) : List Nat :=
  let o := mc_send_packet.loop.stores signedChar packet (1, [0])
  o.2 ++ [o.1]

/-- Size in bytes of the array `char buf[ OSC_MAX_MESSAGE * 2 ]` of `mc_send_packet`,
with `OSC_MAX_MESSAGE = maxMessage`. -/
def mc_send_packet.bufSize (maxMessage : Nat) : Nat := maxMessage * 2

/-! ## PacketUsbCdc.cpp: the mutex of the packet list -/

/-- A step of a member function of `PacketUsbCdc` that matters for `packetListMutex`,
in program order: a `QMutexLocker locker( &packetListMutex )` is constructed (`lock`) or
destroyed at the end of its block (`unlock`), a member function of `packetList` or of
`port` is called, or `slipReceive` is called. -/
inductive Access where
  | lock
  | unlock
  | packetList (call : String)
  | port (call : String)
  | slipReceive
  deriving DecidableEq, Repr

/-- The steps of one pass of the loop `while( 1 )` of `PacketUsbCdc::run`: `isOpen` tells
whether the port is open at the start, `opens` whether `open` succeeds, `packetLength`
is what `slipReceive` returns, `packetReadyInterface` whether that pointer is set. -/
def PacketUsbCdc.run.pass (isOpen opens : Bool) (packetLength : Int)
    (packetReadyInterface : Bool) : List Access :=
  [Access.port "isOpen"]
  ++ (if !isOpen then [Access.port "open"] else [])
  ++ [Access.port "isOpen"]
  ++ (if isOpen || opens then
        [Access.slipReceive]
        ++ (if packetLength > 0 && packetReadyInterface then
              [Access.lock, Access.packetList "append", Access.unlock]
            else [])
      else [])

/-- The steps of the loop of `PacketUsbCdc::receivePacket`: a `takeAt` in every
iteration, the loop ending with the call whose index is out of range, if there is one.
The arguments are the iterations left, `i`, and the size of the list. -/
def PacketUsbCdc.receivePacket.forLoop.accesses : Nat → Nat → Nat → List Access
  | 0, _, _ => []
  | n + 1, i, size =>
    Access.packetList "takeAt"
      :: (if i < size then accesses n (i + 1) (size - 1) else [])

/-- The steps of `PacketUsbCdc::receivePacket` on a `packetList` of `size` packets. -/
def PacketUsbCdc.receivePacket.accesses (size : Nat) : List Access :=
  [Access.packetList "size"]
  ++ (if size = 0 then []
      else
        [Access.packetList "size"]
        ++ (if size > 0 then
              [Access.lock] ++ PacketUsbCdc.receivePacket.forLoop.accesses size 0 size
              ++ [Access.unlock]
            else []))

/-- The steps of `PacketUsbCdc::isPacketWaiting`. -/
def PacketUsbCdc.isPacketWaiting.accesses : List Access :=
  [Access.packetList "isEmpty"]

/-- Whether every call on `packetList` in a sequence of steps is made while the mutex is
held; `held` tells whether it is held at the start. -/
def packetListGuarded : Bool → List Access → Bool
  | _, [] => true
  | _, Access.lock :: es => packetListGuarded true es
  | _, Access.unlock :: es => packetListGuarded false es
  | held, Access.packetList _ :: es => held && packetListGuarded held es
  | held, _ :: es => packetListGuarded held es

/-- Whether no call on `port` and no call of `slipReceive` in a sequence of steps is made
while the mutex is held; `held` tells whether it is held at the start. -/
def mutexFreeOfIO : Bool → List Access → Bool
  | _, [] => true
  | _, Access.lock :: es => mutexFreeOfIO true es
  | _, Access.unlock :: es => mutexFreeOfIO false es
  | held, Access.port _ :: es => !held && mutexFreeOfIO held es
  | held, Access.slipReceive :: es => !held && mutexFreeOfIO held es
  | held, _ :: es => mutexFreeOfIO held es

/-! ## usbserial.c: offsets of the stores of the encoder -/

/-- The loop `while (length--)` of `usbserialWriteSlip`, keeping the offsets in
`slipOutBuf` at which it stores a byte, in order: every store is an `*obp++ = ...`, at
the offset `obp` of the state in which it is made. -/
def usbserialWriteSlip.loop.stores (env : Nat → Option Nat) (maxWrite : Nat) :
    List Nat → Int × SlipOut → List Nat
  | [], _ => []
  | c :: buffer, cs =>
    if c = END then
      cs.2.obp :: (putIfFull env maxWrite ESC cs).2.obp ::
        stores env maxWrite buffer
          (putIfFull env maxWrite ESC_END (putIfFull env maxWrite ESC cs))
    else if c = ESC then
      cs.2.obp :: (putIfFull env maxWrite ESC cs).2.obp ::
        stores env maxWrite buffer
          (putIfFull env maxWrite ESC_ESC (putIfFull env maxWrite ESC cs))
    else
      cs.2.obp :: stores env maxWrite buffer (putIfFull env maxWrite c cs)

/-- The offsets in `slipOutBuf` at which `usbserialWriteSlip` stores a byte, in order:
the END at the head, the stores of the loop, and the closing END. -/
def usbserialWriteSlip.stores (env : Nat → Option Nat) (maxWrite : Nat)
    (slipOutBuf : Nat → Nat) (buffer : List Nat) : List Nat :=
  let s0 : SlipOut := { slipOutBuf := slipOutBuf, obp := 0, calls := [] }
  let cs := usbserialWriteSlip.loop env maxWrite buffer (0, s0.put END)
  s0.obp :: (usbserialWriteSlip.loop.stores env maxWrite buffer (0, s0.put END) ++ [cs.2.obp])

/-! ## usb.c: the byte stream behind `Usb_Read` -/

/-- The data bytes of a block of the receive queue: its first `Count` cells. -/
def xBULKBUFFER.received (b : xBULKBUFFER) : List Nat :=
  bytes b.Data b.Count

/-- The bytes the receive side holds and has not delivered, in the order of arrival:
what is left of the block `DeQueue` from `queuePtr` on when `queueRemaining` is set,
then the data bytes of the blocks of the queue `xRxCDC`. -/
def UsbRx.pending (rx : UsbRx) : List Nat :=
  (if rx.queueRemaining then rx.DeQueue.received.drop rx.queuePtr else [])
    ++ (rx.xRxCDC.map xBULKBUFFER.received).flatten

/-- One call `Usb_Read(buffer, length)` of a sequence of calls, with the blocks the USB
task has put in the queue since the call before it. -/
structure Usb_Read.Call where
  arrived : List xBULKBUFFER
  buffer : Nat → Nat
  length : Int

/-- What one call of a sequence did: the number `n` it returned, the bytes it delivered
(the first `n` cells of its buffer) and the receive side as it left it. -/
structure Usb_Read.Return where
  n : Nat
  delivered : List Nat
  rx : UsbRx

/-- A sequence of calls of `Usb_Read`, from the receive side `rx`: the value is the
receive side after the last call and what every call did, in order. -/
def Usb_Read.calls : UsbRx → List Usb_Read.Call → Option (UsbRx × List Usb_Read.Return)
  | rx, [] => some (rx, [])
  | rx, c :: cs =>
    match Usb_Read { rx with xRxCDC := rx.xRxCDC ++ c.arrived } c.buffer c.length with
    | none => none
    | some (rx1, buffer1, n) =>
      (Usb_Read.calls rx1 cs).map fun r =>
        (r.1, { n := n, delivered := bytes buffer1 n, rx := rx1 } :: r.2)

/-! ## Arrays -/

theorem ESC_ne_END : ESC ≠ END := by decide

theorem charValue_false_eq (c code : Nat) : charValue false c = (code : Int) ↔ c = code := by
  simp [charValue]

theorem charValue_true_ne_END (c : Nat) : charValue true c ≠ (END : Int) := by
  unfold charValue END
  split <;> rename_i h <;> simp only [Bool.true_and, decide_eq_true_eq] at h <;> omega

theorem charValue_true_ne_ESC (c : Nat) : charValue true c ≠ (ESC : Int) := by
  unfold charValue ESC
  split <;> rename_i h <;> simp only [Bool.true_and, decide_eq_true_eq] at h <;> omega

theorem bytes_zero (m : Nat → Nat) : bytes m 0 = [] := rfl

theorem bytes_store_of_le (m : Nat → Nat) (i v n : Nat) (h : n ≤ i) :
    bytes (store m i v) n = bytes m n := by
  unfold bytes
  apply List.map_congr_left
  intro j hj
  have hj' : j < n := List.mem_range.mp hj
  have hne : j ≠ i := by omega
  simp [store, hne]

theorem bytes_succ_store (m : Nat → Nat) (n v : Nat) :
    bytes (store m n v) (n + 1) = bytes m n ++ [v] := by
  have h := bytes_store_of_le m n v n (Nat.le_refl n)
  unfold bytes at h ⊢
  rw [List.range_succ, List.map_append, h]
  simp [store]

theorem bytes_storeList (p : List Nat) (m : Nat → Nat) (i : Nat) :
    bytes (storeList m i p) (i + p.length) = bytes m i ++ p := by
  induction p generalizing m i with
  | nil => simp [storeList]
  | cons c p ih =>
    have h := ih (store m i c) (i + 1)
    rw [bytes_succ_store] at h
    simp only [storeList, List.length_cons]
    rw [show i + (p.length + 1) = i + 1 + p.length by omega, h]
    simp

theorem storeList_append (a b : List Nat) : ∀ (m : Nat → Nat) (i : Nat),
    storeList m i (a ++ b) = storeList (storeList m i a) (i + a.length) b := by
  induction a with
  | nil => intro m i; rfl
  | cons c a ih =>
    intro m i
    have h := ih (store m i c) (i + 1)
    rw [show i + 1 + a.length = i + (a.length + 1) by omega] at h
    simpa only [List.cons_append, storeList, List.length_cons] using h

/-! ## The encoder of usbserial.c -/

theorem put_out (s : SlipOut) (v : Nat) :
    (s.put v).calls.flatten ++ bytes (s.put v).slipOutBuf (s.put v).obp
      = (s.calls.flatten ++ bytes s.slipOutBuf s.obp) ++ [v] := by
  simp [SlipOut.put, bytes_succ_store]

theorem usbserialWriteSlipIfFull_out (env : Nat → Option Nat) (maxWrite : Nat) (s : SlipOut) :
    (usbserialWriteSlipIfFull env maxWrite s).2.calls.flatten
        ++ bytes (usbserialWriteSlipIfFull env maxWrite s).2.slipOutBuf
            (usbserialWriteSlipIfFull env maxWrite s).2.obp
      = s.calls.flatten ++ bytes s.slipOutBuf s.obp := by
  unfold usbserialWriteSlipIfFull
  by_cases h : s.obp ≥ maxWrite
  · simp [h, usbserialWrite, bytes_zero]
  · simp [h]

theorem putIfFull_out (env : Nat → Option Nat) (maxWrite v : Nat) (cs : Int × SlipOut) :
    (putIfFull env maxWrite v cs).2.calls.flatten
        ++ bytes (putIfFull env maxWrite v cs).2.slipOutBuf (putIfFull env maxWrite v cs).2.obp
      = (cs.2.calls.flatten ++ bytes cs.2.slipOutBuf cs.2.obp) ++ [v] := by
  unfold putIfFull
  simp only []
  rw [usbserialWriteSlipIfFull_out, put_out]

theorem usbserialWriteSlip_loop_out (env : Nat → Option Nat) (maxWrite : Nat) (p : List Nat)
    (cs : Int × SlipOut) :
    (usbserialWriteSlip.loop env maxWrite p cs).2.calls.flatten
        ++ bytes (usbserialWriteSlip.loop env maxWrite p cs).2.slipOutBuf
            (usbserialWriteSlip.loop env maxWrite p cs).2.obp
      = (cs.2.calls.flatten ++ bytes cs.2.slipOutBuf cs.2.obp) ++ escape p := by
  induction p generalizing cs with
  | nil => simp [usbserialWriteSlip.loop, escape]
  | cons c p ih =>
    unfold usbserialWriteSlip.loop
    by_cases h1 : c = END
    · subst h1
      rw [if_pos rfl, ih, putIfFull_out, putIfFull_out]
      simp [escape, escapeByte]
    · by_cases h2 : c = ESC
      · subst h2
        rw [if_neg ESC_ne_END, if_pos rfl, ih, putIfFull_out, putIfFull_out]
        simp [escape, escapeByte, ESC_ne_END]
      · simp only [h1, h2, if_false]
        rw [ih, putIfFull_out]
        simp [escape, escapeByte, h1, h2]

theorem usbserialWriteSlip_wire_eq (env : Nat → Option Nat) (maxWrite : Nat)
    (slipOutBuf : Nat → Nat) (p : List Nat) :
    usbserialWriteSlip.wire env maxWrite slipOutBuf p = encode p := by
  unfold usbserialWriteSlip.wire usbserialWriteSlip
  simp only [usbserialWrite, List.flatten_append, List.flatten_cons, List.flatten_nil,
    List.append_nil]
  rw [put_out, usbserialWriteSlip_loop_out]
  simp [SlipOut.put, bytes_succ_store, bytes_zero, encode]

/-! ## The decoder of usbserial.c -/

theorem usbserialReadSlip_loop_END (badFormat length : Int) (inq : List Nat)
    (buffer : Nat → Nat) (h : 0 < length) :
    usbserialReadSlip.loop badFormat length (END :: inq) 0 buffer
      = usbserialReadSlip.loop badFormat length inq 0 buffer := by
  rw [usbserialReadSlip.loop.eq_def]
  simp [h]

theorem usbserialReadSlip_loop_ESC (badFormat length : Int) (b : Nat) (inq : List Nat)
    (received : Nat) (buffer : Nat → Nat) (h : (received : Int) < length) :
    usbserialReadSlip.loop badFormat length (ESC :: b :: inq) received buffer
      = usbserialReadSlip.loop badFormat length inq (received + 1)
          (store buffer received
            (if b = ESC_END then END else if b = ESC_ESC then ESC else b)) := by
  rw [usbserialReadSlip.loop.eq_def]
  simp [h, ESC_ne_END]

theorem usbserialReadSlip_loop_data (badFormat length : Int) (c : Nat) (inq : List Nat)
    (received : Nat) (buffer : Nat → Nat) (h : (received : Int) < length)
    (h1 : c ≠ END) (h2 : c ≠ ESC) :
    usbserialReadSlip.loop badFormat length (c :: inq) received buffer
      = usbserialReadSlip.loop badFormat length inq (received + 1) (store buffer received c) := by
  rw [usbserialReadSlip.loop.eq_def]
  simp [h, h1, h2]

theorem usbserialReadSlip_loop_full (badFormat length : Int) (inq : List Nat)
    (received : Nat) (buffer : Nat → Nat) (h : ¬ (received : Int) < length) :
    usbserialReadSlip.loop badFormat length inq received buffer
      = some (badFormat, buffer, inq) := by
  cases inq with
  | nil => rw [usbserialReadSlip.loop.eq_def]; simp [h]
  | cons c inq => rw [usbserialReadSlip.loop.eq_def]; simp [h]

theorem usbserialReadSlip_loop_escape (badFormat length : Int) (p rest : List Nat) :
    ∀ (received : Nat) (buffer : Nat → Nat),
      ((received + p.length : Nat) : Int) < length → 0 < received + p.length →
      usbserialReadSlip.loop badFormat length (escape p ++ END :: rest) received buffer
        = some (((received + p.length : Nat) : Int), storeList buffer received p, rest) := by
  induction p with
  | nil =>
    intro received buffer hlt hpos
    have h0 : received ≠ 0 := by simpa using Nat.pos_iff_ne_zero.mp hpos
    have hlt' : (received : Int) < length := by simpa using hlt
    rw [escape, List.nil_append, usbserialReadSlip.loop.eq_def]
    simp [hlt', h0, storeList]
  | cons c p ih =>
    intro received buffer hlt hpos
    have hlen : received + (c :: p).length = (received + 1) + p.length := by
      simp only [List.length_cons]; omega
    rw [hlen] at hlt ⊢
    have hlt' : (received : Int) < length := by push_cast at hlt; omega
    have ih' := fun b => ih (received + 1) b hlt (by omega)
    by_cases h1 : c = END
    · subst h1
      have : escape (END :: p) ++ END :: rest = ESC :: ESC_END :: (escape p ++ END :: rest) := by
        simp [escape, escapeByte]
      rw [this, usbserialReadSlip_loop_ESC _ _ _ _ _ _ hlt', ih']
      simp [storeList]
    · by_cases h2 : c = ESC
      · subst h2
        have : escape (ESC :: p) ++ END :: rest = ESC :: ESC_ESC :: (escape p ++ END :: rest) := by
          simp [escape, escapeByte, ESC_ne_END]
        have hne : ESC_ESC ≠ ESC_END := by decide
        rw [this, usbserialReadSlip_loop_ESC _ _ _ _ _ _ hlt', ih']
        simp [storeList, hne]
      · have : escape (c :: p) ++ END :: rest = c :: (escape p ++ END :: rest) := by
          simp [escape, escapeByte, h1, h2]
        rw [this, usbserialReadSlip_loop_data _ _ _ _ _ _ hlt' h1 h2, ih']
        simp [storeList]

theorem usbserialReadSlip_loop_count (badFormat length : Int) (n : Nat) :
    ∀ (inq : List Nat), inq.length ≤ n → ∀ (received : Nat) (buffer : Nat → Nat) (r : Int)
      (b : Nat → Nat) (q : List Nat),
      usbserialReadSlip.loop badFormat length inq received buffer = some (r, b, q) →
        r = badFormat ∨ (1 ≤ r ∧ (received : Int) ≤ r ∧ r < length) := by
  induction n with
  | zero =>
    intro inq hn received buffer r b q h
    have : inq = [] := List.length_eq_zero.mp (Nat.le_zero.mp hn)
    subst this
    rw [usbserialReadSlip.loop.eq_def] at h
    by_cases hl : (received : Int) < length
    · simp [hl] at h
    · simp [hl] at h; exact Or.inl h.1.symm
  | succ n ih =>
    intro inq hn received buffer r b q h
    by_cases hl : (received : Int) < length
    · cases inq with
      | nil => rw [usbserialReadSlip.loop.eq_def] at h; simp [hl] at h
      | cons c inq =>
        have hn' : inq.length ≤ n := by simpa using hn
        by_cases h1 : c = END
        · subst h1
          by_cases h0 : received = 0
          · subst h0
            have hl0 : (0 : Int) < length := by simpa using hl
            rw [usbserialReadSlip_loop_END _ _ _ _ hl0] at h
            exact ih inq hn' 0 buffer r b q h
          · rw [usbserialReadSlip.loop.eq_def] at h
            simp [hl, h0] at h
            right
            rw [← h.1]
            omega
        · by_cases h2 : c = ESC
          · subst h2
            cases inq with
            | nil => rw [usbserialReadSlip.loop.eq_def] at h; simp [hl, ESC_ne_END] at h
            | cons c2 inq2 =>
              rw [usbserialReadSlip_loop_ESC _ _ _ _ _ _ hl] at h
              have hn2 : inq2.length ≤ n := by
                simp only [List.length_cons] at hn'; omega
              rcases ih inq2 hn2 _ _ r b q h with h' | h'
              · exact Or.inl h'
              · right; push_cast at h'; omega
          · rw [usbserialReadSlip_loop_data _ _ _ _ _ _ hl h1 h2] at h
            rcases ih inq hn' _ _ r b q h with h' | h'
            · exact Or.inl h'
            · right; push_cast at h'; omega
    · rw [usbserialReadSlip_loop_full _ _ _ _ _ hl] at h
      simp at h
      exact Or.inl h.1.symm

theorem usbserialReadSlip_loop_leading (badFormat length : Int) (k : Nat) (inq : List Nat)
    (buffer : Nat → Nat) (h : 0 < length) :
    usbserialReadSlip.loop badFormat length (List.replicate k END ++ inq) 0 buffer
      = usbserialReadSlip.loop badFormat length inq 0 buffer := by
  induction k with
  | zero => simp
  | succ k ih =>
    rw [List.replicate_succ, List.cons_append, usbserialReadSlip_loop_END _ _ _ _ h, ih]

/-! ## Claims on the codec of usbserial.c -/

/-- C1 (amended): for every non-empty byte sequence `p` whose length is strictly less
than the `length` given to `usbserialReadSlip`, feeding `usbserialReadSlip` the wire
bytes that `usbserialWriteSlip` emits for `p` (followed by any further input `rest`)
returns `len(p)`, leaves exactly `p` in the first `len(p)` cells of the buffer, and
leaves `rest` unread. -/
theorem usbserialReadSlip_roundtrip (badFormat : Int) (env : Nat → Option Nat)
    (maxWrite : Nat) (slipOutBuf buffer : Nat → Nat) (p rest : List Nat) (length : Int)
    (hne : p ≠ []) (hlt : (p.length : Int) < length) :
    (usbserialReadSlip badFormat (usbserialWriteSlip.wire env maxWrite slipOutBuf p ++ rest)
        buffer length).map (fun r => (r.1, bytes r.2.1 p.length, r.2.2))
      = some ((p.length : Int), p, rest) := by
  have hpos : 0 < p.length := List.length_pos.mpr hne
  have hl0 : (0 : Int) < length := by omega
  have hb := bytes_storeList p buffer 0
  rw [usbserialWriteSlip_wire_eq]
  unfold usbserialReadSlip encode
  rw [List.cons_append, usbserialReadSlip_loop_END _ _ _ _ hl0, List.append_assoc,
    List.singleton_append,
    usbserialReadSlip_loop_escape badFormat length p rest 0 buffer (by simpa using hlt)
      (by simpa using hpos)]
  simp only [Nat.zero_add, bytes_zero, List.nil_append] at hb
  simp [hb]

/-- Witness of C1 on the message `[0x41, 0xC0, 0x42]` with a buffer of 8 bytes. -/
theorem usbserialReadSlip_roundtrip_witness :
    (usbserialReadSlip (-1)
        (usbserialWriteSlip.wire (fun _ => some 0) 4 (fun _ => 0) [0x41, 0xC0, 0x42] ++ [])
        (fun _ => 0) 8).map (fun r => (r.1, bytes r.2.1 ([0x41, 0xC0, 0x42] : List Nat).length, r.2.2))
      = some ((([0x41, 0xC0, 0x42] : List Nat).length : Int), [0x41, 0xC0, 0x42], []) :=
  usbserialReadSlip_roundtrip (-1) (fun _ => some 0) 4 (fun _ => 0) (fun _ => 0)
    [0x41, 0xC0, 0x42] [] 8 (by decide) (by decide)

/-- Counterexample to C1 as stated: the one-byte message `[0x41]` has length at most
`length = 1`, yet `usbserialReadSlip` on its frame returns the error value (here `-1`
for `CONTROLLER_ERROR_BAD_FORMAT`) and not `1`; and on the frame of the empty message
it returns nothing at all, it goes on waiting for input. -/
theorem usbserialReadSlip_roundtrip_counterexample :
    (usbserialReadSlip (-1) (usbserialWriteSlip.wire (fun _ => some 0) 64 (fun _ => 0) [0x41])
        (fun _ => 0) 1).map (fun r => r.1) = some (-1)
    ∧ (usbserialReadSlip (-1) (usbserialWriteSlip.wire (fun _ => some 0) 64 (fun _ => 0) [])
        (fun _ => 0) 4).map (fun r => r.1) = none := by
  decide

/-- C2: for every message `p` and every capacity `USBSER_MAX_WRITE >= 2`, the chunks
`usbserialWriteSlip` passes to `usbserialWrite`, concatenated in order, are
`[END] ++ escape(p) ++ [END]`, whatever the outcome of the individual writes. -/
theorem usbserialWriteSlip_reference (env : Nat → Option Nat) (maxWrite : Nat)
    (slipOutBuf : Nat → Nat) (p : List Nat) (_hcap : 2 ≤ maxWrite) :
    (usbserialWriteSlip env maxWrite slipOutBuf p).2.calls.flatten
      = [END] ++ escape p ++ [END] := by
  have h := usbserialWriteSlip_wire_eq env maxWrite slipOutBuf p
  unfold usbserialWriteSlip.wire encode at h
  simpa using h

/-- Witness of C2, the scenario of the specification with a buffer of 4 bytes:
`[0x41, 0xC0, 0x42]` gives `[0xC0, 0x41, 0xDB, 0xDC, 0x42, 0xC0]`. -/
theorem usbserialWriteSlip_reference_witness :
    (usbserialWriteSlip (fun _ => some 4) 4 (fun _ => 0) [0x41, 0xC0, 0x42]).2.calls.flatten
      = [0xC0, 0x41, 0xDB, 0xDC, 0x42, 0xC0] :=
  (usbserialWriteSlip_reference (fun _ => some 4) 4 (fun _ => 0) [0x41, 0xC0, 0x42]
    (by decide)).trans (by decide)

theorem usbserialReadSlip_loop_escape_prefix (badFormat length : Int) (a tail : List Nat) :
    ∀ (received : Nat) (buffer : Nat → Nat),
      ((received + a.length : Nat) : Int) ≤ length →
      usbserialReadSlip.loop badFormat length (escape a ++ tail) received buffer
        = usbserialReadSlip.loop badFormat length tail (received + a.length)
            (storeList buffer received a) := by
  induction a with
  | nil => intro received buffer _; rfl
  | cons c a ih =>
    intro received buffer h
    have hr : (received : Int) < length := by
      simp only [List.length_cons] at h
      omega
    have h2 : ((received + 1 + a.length : Nat) : Int) ≤ length := by
      simp only [List.length_cons] at h
      omega
    have hn : received + (c :: a).length = received + 1 + a.length := by
      simp only [List.length_cons]; omega
    rw [hn]
    by_cases h1 : c = END
    · subst h1
      have he : escape (END :: a) ++ tail = ESC :: ESC_END :: (escape a ++ tail) := by
        simp [escape, escapeByte]
      rw [he, usbserialReadSlip_loop_ESC _ _ _ _ _ _ hr, ih _ _ h2]
      simp [storeList]
    · by_cases h3 : c = ESC
      · subst h3
        have he : escape (ESC :: a) ++ tail = ESC :: ESC_ESC :: (escape a ++ tail) := by
          simp [escape, escapeByte, ESC_ne_END]
        have hne : ESC_ESC ≠ ESC_END := by decide
        rw [he, usbserialReadSlip_loop_ESC _ _ _ _ _ _ hr, ih _ _ h2]
        simp [storeList, hne]
      · have he : escape (c :: a) ++ tail = c :: (escape a ++ tail) := by
          simp [escape, escapeByte, h1, h3]
        rw [he, usbserialReadSlip_loop_data _ _ _ _ _ _ hr h1 h3, ih _ _ h2]
        simp [storeList]

/-- C8: lenient escape recovery in `usbserialReadSlip`.  A frame whose payload holds,
between the escaped bytes of `a` and the escaped bytes of `b`, an ESC followed by a
byte `x`, is read in full when the buffer has room: the call returns the count
`a.length + 1 + b.length` and the message `a`, one byte for the pair, `b`, leaving
unread what follows the closing END.  The one byte is END when `x` is ESC_END, ESC
when `x` is ESC_ESC, and `x` unchanged when it is any other byte, END included; the
ESC itself is dropped and the frame is not aborted. -/
theorem usbserialReadSlip_lenient_escape (badFormat length : Int) (a b rest : List Nat)
    (x : Nat) (buffer : Nat → Nat)
    (hlen : ((a.length + 1 + b.length : Nat) : Int) < length) :
    usbserialReadSlip badFormat (END :: (escape a ++ ESC :: x :: (escape b ++ END :: rest)))
        buffer length
      = some (((a.length + 1 + b.length : Nat) : Int),
          storeList buffer 0
            (a ++ [if x = ESC_END then END else if x = ESC_ESC then ESC else x] ++ b),
          rest) := by
  have h0 : (0 : Int) < length := by omega
  have ha : ((0 + a.length : Nat) : Int) ≤ length := by
    simp only [Nat.zero_add]; omega
  have hr : ((0 + a.length : Nat) : Int) < length := by
    simp only [Nat.zero_add]; omega
  unfold usbserialReadSlip
  rw [usbserialReadSlip_loop_END _ _ _ _ h0,
    usbserialReadSlip_loop_escape_prefix _ _ a _ 0 buffer ha,
    usbserialReadSlip_loop_ESC _ _ _ _ _ _ hr,
    usbserialReadSlip_loop_escape _ _ b rest _ _ (by simp only [Nat.zero_add]; omega)
      (by omega)]
  have e1 : 0 + a.length + 1 + b.length = a.length + 1 + b.length := by omega
  rw [e1, storeList_append, storeList_append]
  simp [storeList]

/-- Witness of C8: in the frame `[0xC0, 0x41, 0xDB, 0xC0, 0x43, 0xC0]` the ESC is
followed by an END, which is read as a byte of the message: the call returns 3 with
`[0x41, 0xC0, 0x43]`; with ESC_END or ESC_ESC after the ESC the byte is END or ESC, and
with `0x42` it is `0x42`. -/
theorem usbserialReadSlip_lenient_escape_witness :
    usbserialReadSlip (-1) [0xC0, 0x41, 0xDB, 0xC0, 0x43, 0xC0, 0x44] (fun _ => 0) 8
        = some (3, storeList (fun _ => 0) 0 [0x41, 0xC0, 0x43], [0x44])
    ∧ (usbserialReadSlip (-1) [0xC0, 0x41, 0xDB, 0xDC, 0x43, 0xC0] (fun _ => 0) 8).map
        (fun r => (r.1, bytes r.2.1 3, r.2.2)) = some (3, [0x41, 0xC0, 0x43], [])
    ∧ (usbserialReadSlip (-1) [0xC0, 0x41, 0xDB, 0xDD, 0x43, 0xC0] (fun _ => 0) 8).map
        (fun r => (r.1, bytes r.2.1 3, r.2.2)) = some (3, [0x41, 0xDB, 0x43], [])
    ∧ (usbserialReadSlip (-1) [0xC0, 0x41, 0xDB, 0x42, 0x43, 0xC0] (fun _ => 0) 8).map
        (fun r => (r.1, bytes r.2.1 3, r.2.2)) = some (3, [0x41, 0x42, 0x43], []) :=
  ⟨usbserialReadSlip_lenient_escape (-1) 8 [0x41] [0x43] [0x44] 0xC0 (fun _ => 0) (by decide),
    by decide, by decide, by decide⟩

/-- C9: leading END bytes are padding.  For every `k` and every input `inq`,
`usbserialReadSlip` returns the same value and the same buffer on `END^k ++ inq` as on
`inq`; when the loop is entered (`0 < length`) an END seen with nothing accumulated
does not end the call, which goes on as if the END had not been there; and a count
that the call returns is never `0`: the return value is the error value or at least
`1`. -/
theorem usbserialReadSlip_leading_END (badFormat length : Int) (k : Nat) (inq : List Nat)
    (buffer : Nat → Nat) :
    (usbserialReadSlip badFormat (List.replicate k END ++ inq) buffer length).map
        (fun r => (r.1, bytes r.2.1))
      = (usbserialReadSlip badFormat inq buffer length).map (fun r => (r.1, bytes r.2.1))
    ∧ (0 < length →
        usbserialReadSlip badFormat (END :: inq) buffer length
          = usbserialReadSlip badFormat inq buffer length)
    ∧ (∀ (r : Int) (b : Nat → Nat) (q : List Nat),
        usbserialReadSlip badFormat inq buffer length = some (r, b, q) →
          r = badFormat ∨ 1 ≤ r) := by
  refine ⟨?_, ?_, ?_⟩
  · unfold usbserialReadSlip
    by_cases h : 0 < length
    · rw [usbserialReadSlip_loop_leading _ _ _ _ _ h]
    · have h' : ¬ ((0 : Nat) : Int) < length := by simpa using h
      rw [usbserialReadSlip_loop_full _ _ _ _ _ h', usbserialReadSlip_loop_full _ _ _ _ _ h']
      rfl
  · intro h
    exact usbserialReadSlip_loop_END _ _ _ _ h
  · intro r b q hr
    rcases usbserialReadSlip_loop_count badFormat length inq.length inq (Nat.le_refl _)
      0 buffer r b q hr with h | h
    · exact Or.inl h
    · exact Or.inr h.1

/-! ## The legacy encoders -/

theorem Usb_SlipSend_loop_bytes (p : List Nat) :
    ∀ (outgoingBuf : Nat → Nat) (obp : Nat),
      bytes (Usb_SlipSend.loop p (outgoingBuf, obp)).1 (Usb_SlipSend.loop p (outgoingBuf, obp)).2
        = bytes outgoingBuf obp ++ escape p := by
  induction p with
  | nil => intro outgoingBuf obp; simp [Usb_SlipSend.loop, escape]
  | cons c p ih =>
    intro outgoingBuf obp
    unfold Usb_SlipSend.loop
    by_cases h1 : c = END
    · subst h1
      rw [if_pos rfl, ih, show obp + 2 = obp + 1 + 1 from rfl, bytes_succ_store,
        bytes_succ_store]
      simp [escape, escapeByte]
    · by_cases h2 : c = ESC
      · subst h2
        rw [if_neg ESC_ne_END, if_pos rfl, ih, show obp + 2 = obp + 1 + 1 from rfl,
          bytes_succ_store, bytes_succ_store]
        simp [escape, escapeByte, ESC_ne_END]
      · rw [if_neg h1, if_neg h2, ih, bytes_succ_store]
        simp [escape, escapeByte, h1, h2]

theorem Usb_SlipSend_eq (outgoingBuf : Nat → Nat) (p : List Nat) :
    Usb_SlipSend outgoingBuf p = encode p := by
  unfold Usb_SlipSend
  simp only []
  rw [bytes_succ_store, Usb_SlipSend_loop_bytes, show (1 : Nat) = 0 + 1 from rfl,
    bytes_succ_store]
  simp [bytes_zero, encode]

theorem mc_send_packet_loop_bytes (p : List Nat) :
    ∀ (buf : Nat → Nat) (ptr : Nat),
      bytes (mc_send_packet.loop false p (buf, ptr)).1
          (mc_send_packet.loop false p (buf, ptr)).2
        = bytes buf ptr ++ escape p := by
  induction p with
  | nil => intro buf ptr; simp [mc_send_packet.loop, escape]
  | cons c p ih =>
    intro buf ptr
    unfold mc_send_packet.loop
    simp only [charValue_false_eq]
    by_cases h1 : c = END
    · subst h1
      rw [if_pos rfl, ih, show ptr + 2 = ptr + 1 + 1 from rfl, bytes_succ_store,
        bytes_succ_store]
      simp [escape, escapeByte]
    · by_cases h2 : c = ESC
      · subst h2
        rw [if_neg ESC_ne_END, if_pos rfl, ih, show ptr + 2 = ptr + 1 + 1 from rfl,
          bytes_succ_store, bytes_succ_store]
        simp [escape, escapeByte, ESC_ne_END]
      · rw [if_neg h1, if_neg h2, ih, bytes_succ_store]
        simp [escape, escapeByte, h1, h2]

theorem mc_send_packet_eq (buf : Nat → Nat) (p : List Nat) :
    mc_send_packet false buf p = encode p := by
  unfold mc_send_packet
  simp only []
  rw [bytes_succ_store, mc_send_packet_loop_bytes, show (1 : Nat) = 0 + 1 from rfl,
    bytes_succ_store]
  simp [bytes_zero, encode]

theorem mc_send_packet_loop_signed (p : List Nat) :
    ∀ (buf : Nat → Nat) (ptr : Nat),
      bytes (mc_send_packet.loop true p (buf, ptr)).1
          (mc_send_packet.loop true p (buf, ptr)).2
        = bytes buf ptr ++ p := by
  induction p with
  | nil => intro buf ptr; simp [mc_send_packet.loop]
  | cons c p ih =>
    intro buf ptr
    unfold mc_send_packet.loop
    rw [if_neg (charValue_true_ne_END c), if_neg (charValue_true_ne_ESC c), ih,
      bytes_succ_store]
    simp

theorem mc_send_packet_signed (buf : Nat → Nat) (p : List Nat) :
    mc_send_packet true buf p = END :: (p ++ [END]) := by
  unfold mc_send_packet
  simp only []
  rw [bytes_succ_store, mc_send_packet_loop_signed, show (1 : Nat) = 0 + 1 from rfl,
    bytes_succ_store]
  simp [bytes_zero]

theorem sendPacket_loop_eq (p : List Nat) :
    ∀ outgoingPacket : List Nat,
      PacketUsbCdc.sendPacket.loop false p outgoingPacket = outgoingPacket ++ escape p := by
  induction p with
  | nil => intro o; simp [PacketUsbCdc.sendPacket.loop, escape]
  | cons c p ih =>
    intro o
    unfold PacketUsbCdc.sendPacket.loop
    simp only [charValue_false_eq]
    by_cases h1 : c = END
    · subst h1
      rw [if_pos rfl, ih]
      simp [escape, escapeByte]
    · by_cases h2 : c = ESC
      · subst h2
        rw [if_neg ESC_ne_END, if_pos rfl, ih]
        simp [escape, escapeByte, ESC_ne_END]
      · rw [if_neg h1, if_neg h2, ih]
        simp [escape, escapeByte, h1, h2]

theorem sendPacket_written (port : QextSerialPort) (p : List Nat)
    (hopen : port.isOpen = true ∨ port.openOk = true) :
    (PacketUsbCdc.sendPacket false port p).2.written = port.written ++ [encode p] := by
  unfold PacketUsbCdc.sendPacket
  rw [sendPacket_loop_eq]
  cases hio : port.isOpen <;> cases hok : port.openOk <;>
    simp [hio, hok] at hopen ⊢ <;> split <;> simp [encode]

theorem sendPacket_loop_signed (p : List Nat) :
    ∀ outgoingPacket : List Nat,
      PacketUsbCdc.sendPacket.loop true p outgoingPacket = outgoingPacket ++ p := by
  induction p with
  | nil => intro o; simp [PacketUsbCdc.sendPacket.loop]
  | cons c p ih =>
    intro o
    unfold PacketUsbCdc.sendPacket.loop
    rw [if_neg (charValue_true_ne_END c), if_neg (charValue_true_ne_ESC c), ih]
    simp

theorem sendPacket_written_signed (port : QextSerialPort) (p : List Nat)
    (hopen : port.isOpen = true ∨ port.openOk = true) :
    (PacketUsbCdc.sendPacket true port p).2.written
      = port.written ++ [END :: (p ++ [END])] := by
  unfold PacketUsbCdc.sendPacket
  rw [sendPacket_loop_signed]
  cases hio : port.isOpen <;> cases hok : port.openOk <;>
    simp [hio, hok] at hopen ⊢ <;> split <;> simp

/-! ## The reference encoding -/

theorem escape_length (p : List Nat) :
    (escape p).length = p.length + p.countP (fun c => decide (c = END ∨ c = ESC)) := by
  induction p with
  | nil => simp [escape]
  | cons c p ih =>
    by_cases h1 : c = END
    · subst h1
      simp [escape, escapeByte, ih, List.countP_cons]
      omega
    · by_cases h2 : c = ESC
      · subst h2
        simp [escape, escapeByte, ih, List.countP_cons, ESC_ne_END]
        omega
      · simp [escape, escapeByte, ih, List.countP_cons, h1, h2]
        omega

theorem END_not_mem_escape (p : List Nat) : END ∉ escape p := by
  induction p with
  | nil => simp [escape]
  | cons c p ih =>
    have h1 : END ≠ ESC := by decide
    have h2 : END ≠ ESC_END := by decide
    have h3 : END ≠ ESC_ESC := by decide
    by_cases hc1 : c = END
    · simp [escape, escapeByte, hc1, ih, h1, h2]
    · by_cases hc2 : c = ESC
      · simp [escape, escapeByte, hc2, ih, h1, h3, ESC_ne_END]
      · simp [escape, escapeByte, hc1, hc2, ih]
        exact fun h => hc1 h.symm

theorem escape_ESC_next (p : List Nat) :
    ∀ i : Nat, (escape p)[i]? = some ESC →
      (escape p)[i + 1]? = some ESC_END ∨ (escape p)[i + 1]? = some ESC_ESC := by
  induction p with
  | nil => intro i h; simp [escape] at h
  | cons c p ih =>
    intro i h
    have e1 : ESC_END ≠ ESC := by decide
    have e2 : ESC_ESC ≠ ESC := by decide
    by_cases hc1 : c = END
    · subst hc1
      have he : escape (END :: p) = ESC :: ESC_END :: escape p := by
        simp [escape, escapeByte]
      rw [he] at h ⊢
      match i, h with
      | 0, _ => simp
      | 1, h => simp [e1] at h
      | i + 2, h =>
        simp only [List.getElem?_cons_succ] at h ⊢
        exact ih i h
    · by_cases hc2 : c = ESC
      · subst hc2
        have he : escape (ESC :: p) = ESC :: ESC_ESC :: escape p := by
          simp [escape, escapeByte, ESC_ne_END]
        rw [he] at h ⊢
        match i, h with
        | 0, _ => simp
        | 1, h => simp [e2] at h
        | i + 2, h =>
          simp only [List.getElem?_cons_succ] at h ⊢
          exact ih i h
      · have he : escape (c :: p) = c :: escape p := by
          simp [escape, escapeByte, hc1, hc2]
        rw [he] at h ⊢
        match i, h with
        | 0, h => simp [hc2] at h
        | i + 1, h =>
          simp only [List.getElem?_cons_succ] at h ⊢
          exact ih i h

theorem encode_length (p : List Nat) : (encode p).length = (escape p).length + 2 := by
  simp [encode]

theorem encode_interior (p : List Nat) (i : Nat) (h : i < (escape p).length) :
    (encode p)[i + 1]? = (escape p)[i]? := by
  unfold encode
  rw [List.getElem?_cons_succ, List.getElem?_append_left h]

theorem encode_selfDelimiting (p : List Nat) : SelfDelimiting (encode p) := by
  have hlast : (encode p).getLast? = some END := by
    have h : encode p = (END :: escape p) ++ [END] := by simp [encode]
    rw [h, List.getLast?_concat]
  refine ⟨by simp [encode], hlast, ?_, ?_⟩
  · intro i h0 hi
    rw [encode_length] at hi
    obtain ⟨j, rfl⟩ : ∃ j, i = j + 1 := ⟨i - 1, by omega⟩
    have hj : j < (escape p).length := by omega
    rw [encode_interior p j hj]
    intro he
    exact END_not_mem_escape p (List.getElem?_mem he)
  · intro i h0 hi hesc
    rw [encode_length] at hi
    obtain ⟨j, rfl⟩ : ∃ j, i = j + 1 := ⟨i - 1, by omega⟩
    have hj : j < (escape p).length := by omega
    rw [encode_interior p j hj] at hesc
    have hn := escape_ESC_next p j hesc
    have hj1 : j + 1 < (escape p).length := by
      rcases hn with hn | hn <;>
        exact (List.getElem?_eq_some_iff.mp hn).1
    rw [encode_interior p (j + 1) hj1]
    exact hn

theorem encode_length_bound (p : List Nat) :
    (encode p).length = p.length + 2 + p.countP (fun c => decide (c = END ∨ c = ESC))
    ∧ (encode p).length ≤ 2 * p.length + 2
    ∧ ((encode p).length = 2 * p.length + 2 ↔ ∀ c ∈ p, c = END ∨ c = ESC) := by
  have hle := List.countP_le_length (fun c => decide (c = END ∨ c = ESC)) (l := p)
  have hall := List.countP_eq_length (p := fun c => decide (c = END ∨ c = ESC)) (l := p)
  rw [encode_length, escape_length]
  refine ⟨by omega, by omega, ?_⟩
  constructor
  · intro h
    have hc : p.countP (fun c => decide (c = END ∨ c = ESC)) = p.length := by omega
    intro c hc'
    simpa using hall.mp hc c hc'
  · intro h
    have hc : p.countP (fun c => decide (c = END ∨ c = ESC)) = p.length :=
      hall.mpr (fun c hc' => by simpa using h c hc')
    omega

/-! ## Claims on the encoders -/

theorem escape_eq_self_iff (p : List Nat) :
    escape p = p ↔ ∀ c ∈ p, c ≠ END ∧ c ≠ ESC := by
  constructor
  · intro h c hc
    have hl := escape_length p
    rw [h] at hl
    have h0 : p.countP (fun c => decide (c = END ∨ c = ESC)) = 0 := by omega
    have := (List.countP_eq_zero.mp h0) c hc
    simpa [not_or] using this
  · intro h
    induction p with
    | nil => rfl
    | cons c p ih =>
      have hc := h c (List.mem_cons_self c p)
      have ih2 := ih (fun d hd => h d (List.mem_cons_of_mem c hd))
      simp [escape, escapeByte, hc.1, hc.2, ih2]

/-- C5, the three legacy encoders on a message `p`.  The firmware's `Usb_SlipSend`
hands `Usb_Write` the frame END, escaped payload, END.  `PacketUsbCdc::sendPacket` (on
a port that is open or opens) and `mc_send_packet` make their `switch` on a plain
`char`: where plain `char` is signed, as on the x86 hosts of the desktop program and of
the plugin, no byte compares equal to END or ESC, and both hand on END, the bytes of
`p` as they are, END; where it is unsigned they hand on the frame of the firmware.  So
on a host with a signed plain `char` the three encoders agree exactly on the messages
that hold no END and no ESC byte. -/
theorem legacy_encoders_signed_char (outgoingBuf buf : Nat → Nat) (port : QextSerialPort)
    (p : List Nat) (hopen : port.isOpen = true ∨ port.openOk = true) :
    Usb_SlipSend outgoingBuf p = [END] ++ escape p ++ [END]
    ∧ (PacketUsbCdc.sendPacket true port p).2.written = port.written ++ [[END] ++ p ++ [END]]
    ∧ mc_send_packet true buf p = [END] ++ p ++ [END]
    ∧ (PacketUsbCdc.sendPacket false port p).2.written
        = port.written ++ [[END] ++ escape p ++ [END]]
    ∧ mc_send_packet false buf p = [END] ++ escape p ++ [END]
    ∧ ([END] ++ p ++ [END] = [END] ++ escape p ++ [END] ↔ ∀ c ∈ p, c ≠ END ∧ c ≠ ESC) := by
  have he : [END] ++ escape p ++ [END] = encode p := by simp [encode]
  have hp : [END] ++ p ++ [END] = END :: (p ++ [END]) := by simp
  rw [he, hp]
  refine ⟨Usb_SlipSend_eq outgoingBuf p, sendPacket_written_signed port p hopen,
    mc_send_packet_signed buf p, sendPacket_written port p hopen, mc_send_packet_eq buf p, ?_⟩
  rw [← escape_eq_self_iff]
  constructor
  · intro h
    have h2 : p ++ [END] = escape p ++ [END] := by
      have := List.cons.inj h
      simpa [encode] using this
    exact (List.append_cancel_right h2).symm
  · intro h
    simp [encode, h]

/-- The failing input of C5, the message `[0x41, 0xC0, 0x42]` on an open port: the
firmware hands on `[0xC0, 0x41, 0xDB, 0xDC, 0x42, 0xC0]`; with a signed plain `char`
the desktop program and the plugin hand on `[0xC0, 0x41, 0xC0, 0x42, 0xC0]`, the END of
the message not escaped. -/
theorem legacy_encoders_signed_char_witness :
    Usb_SlipSend (fun _ => 0) [0x41, 0xC0, 0x42] = [0xC0, 0x41, 0xDB, 0xDC, 0x42, 0xC0]
    ∧ (PacketUsbCdc.sendPacket true (QextSerialPort.receiving []) [0x41, 0xC0, 0x42]).2.written
        = [[0xC0, 0x41, 0xC0, 0x42, 0xC0]]
    ∧ mc_send_packet true (fun _ => 0) [0x41, 0xC0, 0x42] = [0xC0, 0x41, 0xC0, 0x42, 0xC0] := by
  have h := legacy_encoders_signed_char (fun _ => 0) (fun _ => 0) (QextSerialPort.receiving [])
    [0x41, 0xC0, 0x42] (Or.inl rfl)
  exact ⟨h.1.trans (by decide), h.2.1.trans (by decide), h.2.2.1.trans (by decide)⟩

/-- C6: frames are self-delimiting.  For every message `p`, the frame that
`usbserialWriteSlip` puts on the wire and the frame that `Usb_SlipSend` hands to
`Usb_Write` begin with END, end with END, hold no END at an interior position, and
every interior ESC is immediately followed by ESC_END or ESC_ESC. -/
theorem frames_selfDelimiting (env : Nat → Option Nat) (maxWrite : Nat)
    (slipOutBuf outgoingBuf : Nat → Nat) (p : List Nat) :
    SelfDelimiting (usbserialWriteSlip.wire env maxWrite slipOutBuf p)
    ∧ SelfDelimiting (Usb_SlipSend outgoingBuf p) := by
  rw [usbserialWriteSlip_wire_eq, Usb_SlipSend_eq]
  exact ⟨encode_selfDelimiting p, encode_selfDelimiting p⟩

/-- C7: for every message `p` the frame of `usbserialWriteSlip` and the frame of
`Usb_SlipSend` have exactly `len(p) + 2 + k` bytes, where `k` is the number of bytes of
`p` equal to END or ESC; so their length is at most `2 * len(p) + 2`, with equality
exactly when every byte of `p` is END or ESC. -/
theorem frames_length (env : Nat → Option Nat) (maxWrite : Nat)
    (slipOutBuf outgoingBuf : Nat → Nat) (p : List Nat) :
    ((usbserialWriteSlip.wire env maxWrite slipOutBuf p).length
        = p.length + 2 + p.countP (fun c => decide (c = END ∨ c = ESC))
      ∧ (usbserialWriteSlip.wire env maxWrite slipOutBuf p).length ≤ 2 * p.length + 2
      ∧ ((usbserialWriteSlip.wire env maxWrite slipOutBuf p).length = 2 * p.length + 2
          ↔ ∀ c ∈ p, c = END ∨ c = ESC))
    ∧ ((Usb_SlipSend outgoingBuf p).length
        = p.length + 2 + p.countP (fun c => decide (c = END ∨ c = ESC))
      ∧ (Usb_SlipSend outgoingBuf p).length ≤ 2 * p.length + 2
      ∧ ((Usb_SlipSend outgoingBuf p).length = 2 * p.length + 2
          ↔ ∀ c ∈ p, c = END ∨ c = ESC)) := by
  rw [usbserialWriteSlip_wire_eq, Usb_SlipSend_eq]
  exact ⟨encode_length_bound p, encode_length_bound p⟩

/-! ## The desktop decoder where plain `char` is signed -/

theorem slipReceive_forLoop_signed (n : Nat) :
    ∀ (slipRxPacket : List Nat) (l : SlipLocals), l.started = false →
      PacketUsbCdc.slipReceive.forLoop true n slipRxPacket l
        = (none, slipRxPacket.drop n, l) := by
  induction n with
  | zero => intro rx l _; rfl
  | succ n ih =>
    intro rx l hs
    have hput : ∀ c, l.put c = l := by
      intro c
      simp [SlipLocals.put, hs]
    rw [PacketUsbCdc.slipReceive.forLoop]
    rw [if_neg (charValue_true_ne_END _), if_neg (charValue_true_ne_ESC _), hput, ih _ l hs]
    simp

theorem getMoreBytes_incoming (slipRxPacket : List Nat) (port : QextSerialPort)
    (h : ∀ o ∈ port.incoming, o ≠ none) :
    (PacketUsbCdc.getMoreBytes slipRxPacket port).1 = true
    ∧ ∀ o ∈ (PacketUsbCdc.getMoreBytes slipRxPacket port).2.2.incoming, o ≠ none := by
  unfold PacketUsbCdc.getMoreBytes
  by_cases h1 : slipRxPacket.length < 1
  · rw [if_pos h1]
    cases hi : port.incoming with
    | nil => exact ⟨rfl, by rw [hi]; simp⟩
    | cons o rest =>
      rw [hi] at h
      cases o with
      | none => exact absurd rfl (h none (List.mem_cons_self _ _))
      | some data =>
        have hr : ∀ o ∈ rest, o ≠ none := fun o ho => h o (List.mem_cons_of_mem _ ho)
        by_cases hd : data.length > 0
        · simp only [hd, if_true]
          exact ⟨trivial, hr⟩
        · simp only [hd, if_false]
          exact ⟨trivial, hr⟩
  · rw [if_neg h1]
    exact ⟨rfl, h⟩

theorem slipReceive_loop_signed_waits (length : Int) (fuel : Nat) :
    ∀ (slipRxPacket : List Nat) (port : QextSerialPort) (l : SlipLocals),
      l.started = false → (∀ o ∈ port.incoming, o ≠ none) →
      PacketUsbCdc.slipReceive.loop true length fuel slipRxPacket port l = none := by
  induction fuel with
  | zero => intro rx port l _ _; rfl
  | succ fuel ih =>
    intro rx port l hs hin
    obtain ⟨hg, hin2⟩ := getMoreBytes_incoming rx port hin
    rw [PacketUsbCdc.slipReceive.loop]
    simp only [hg, Bool.not_true, Bool.false_eq_true, if_false]
    by_cases hl : (PacketUsbCdc.getMoreBytes rx port).2.1.length ≠ 0
    · rw [if_pos hl, slipReceive_forLoop_signed _ _ l hs]
      exact ih _ _ l hs hin2
    · rw [if_neg hl]
      exact ih _ _ l hs hin2

/-! ## Claims on the legacy decoders -/

/-- C3 at the failing input `[0x41, 0xC0, 0x42]`: `Usb_SlipSend` produces the frame
`[0xC0, 0x41, 0xDB, 0xDC, 0x42, 0xC0]`, and `Usb_SlipReceive`, reading that frame from
the receive queue into a buffer of 100 bytes, returns 3 with `[0x41, 0xDC, 0x42]` in
the buffer: the ESC is skipped and the ESC_END after it is stored as it is, not turned
back into END. -/
theorem Usb_SlipReceive_escaped_END :
    Usb_SlipSend (fun _ => 0) [0x41, 0xC0, 0x42] = [0xC0, 0x41, 0xDB, 0xDC, 0x42, 0xC0]
    ∧ (Usb_SlipReceive (-1) 10
          (SlipRx.init (rxBlocks (Usb_SlipSend (fun _ => 0) [0x41, 0xC0, 0x42])))
          (fun _ => 0) 100).map (fun r => (r.1, bytes r.2.2 3))
        = some (3, [0x41, 0xDC, 0x42]) := by
  decide

/-- C4 at the failing input `[0x41, 0xC0, 0x42]`.  Where plain `char` is unsigned,
`PacketUsbCdc::sendPacket` writes the frame `[0xC0, 0x41, 0xDB, 0xDC, 0x42, 0xC0]`, and
`PacketUsbCdc::slipReceive`, finding that frame at its port, returns 3 with
`[0x41, 0xDC, 0x42]` in the buffer, not `[0x41, 0xC0, 0x42]`.  Where plain `char` is
signed, `sendPacket` writes `[0xC0, 0x41, 0xC0, 0x42, 0xC0]`, and `slipReceive`, finding
at its port what `sendPacket` wrote or the frame of the claim, returns nothing,
whatever the bound `fuel` on its iterations. -/
theorem slipReceive_escaped_END :
    (PacketUsbCdc.sendPacket false (QextSerialPort.receiving []) [0x41, 0xC0, 0x42]).2.written
        = [[0xC0, 0x41, 0xDB, 0xDC, 0x42, 0xC0]]
    ∧ (PacketUsbCdc.slipReceive false 10 []
          (QextSerialPort.receiving
            (PacketUsbCdc.sendPacket false (QextSerialPort.receiving [])
              [0x41, 0xC0, 0x42]).2.written)
          (fun _ => 0) 100).map (fun r => (r.1, bytes r.2.2.2 3))
        = some (3, [0x41, 0xDC, 0x42])
    ∧ (PacketUsbCdc.sendPacket true (QextSerialPort.receiving []) [0x41, 0xC0, 0x42]).2.written
        = [[0xC0, 0x41, 0xC0, 0x42, 0xC0]]
    ∧ (∀ fuel : Nat, PacketUsbCdc.slipReceive true fuel []
          (QextSerialPort.receiving
            (PacketUsbCdc.sendPacket true (QextSerialPort.receiving [])
              [0x41, 0xC0, 0x42]).2.written)
          (fun _ => 0) 100 = none)
    ∧ (∀ fuel : Nat, PacketUsbCdc.slipReceive true fuel []
          (QextSerialPort.receiving [[0xC0, 0x41, 0xDB, 0xDC, 0x42, 0xC0]])
          (fun _ => 0) 100 = none) := by
  refine ⟨by decide, by decide, by decide, ?_, ?_⟩
  · intro fuel
    exact slipReceive_loop_signed_waits 100 fuel _ _ _ rfl
      (by simp [QextSerialPort.receiving])
  · intro fuel
    exact slipReceive_loop_signed_waits 100 fuel _ _ _ rfl
      (by simp [QextSerialPort.receiving])

/-- C10 at the failing input, the frame `[0xC0, 0x41, 0x42, 0xC0]` of the message
`[0x41, 0x42]` split after its second byte: when the whole frame has arrived, one call
of `mc_SLIP_receive` hands `[0x41, 0x42]` to `Osc_receive_packet`; when `[0xC0, 0x41]`
has arrived before the first call and `[0x42, 0xC0]` before the second, neither call
hands anything to `Osc_receive_packet`. -/
theorem mc_SLIP_receive_split_frame :
    (∀ signedChar : Bool,
      mc_send_packet signedChar (fun _ => 0) [0x41, 0x42] = [0xC0, 0x41, 0x42, 0xC0])
    ∧ (mc_SLIP_receive 10 (t_mcUsb.new.arrive [0xC0, 0x41, 0x42, 0xC0])).map
        (fun x => x.delivered) = some [[0x41, 0x42]]
    ∧ (mc_SLIP_receive 10 (t_mcUsb.new.arrive [0xC0, 0x41])).map
        (fun x => x.delivered) = some []
    ∧ ((mc_SLIP_receive 10 (t_mcUsb.new.arrive [0xC0, 0x41])).bind
        (fun x => mc_SLIP_receive 10 (x.arrive [0x42, 0xC0]))).map
        (fun x => x.delivered) = some [] := by
  decide

/-! ## Second group of claims: decoders of the firmware -/

theorem Usb_Read_empty (rx : UsbRx) (buffer : Nat → Nat) (h1 : rx.xRxCDC = [])
    (h2 : rx.queueRemaining = true → rx.DeQueue.Count ≤ rx.queuePtr) :
    ∃ rx1 : UsbRx, Usb_Read rx buffer MAX_INCOMING_SLIP_PACKET = some (rx1, buffer, 0)
      ∧ rx1.xRxCDC = [] ∧ rx1.queueRemaining = false := by
  unfold Usb_Read
  rw [h1]
  have hf : ((MAX_INCOMING_SLIP_PACKET : Nat) : Int).toNat + 2 * ([] : List xBULKBUFFER).length + 3
      = 401 + 1 + 1 := by decide
  rw [hf]
  have hl : ((0 : Nat) : Int) < ((MAX_INCOMING_SLIP_PACKET : Nat) : Int) := by decide
  cases hq : rx.queueRemaining with
  | false =>
    refine ⟨rx, ?_, h1, hq⟩
    rw [Usb_Read.loop]
    simp [hl, hq, h1]
  | true =>
    have h3 : ¬ rx.queuePtr < rx.DeQueue.Count := by have := h2 hq; omega
    refine ⟨{ rx with queueRemaining := false }, ?_, h1, rfl⟩
    rw [Usb_Read.loop]
    simp only [hl, hq, h3, if_true, if_false]
    rw [Usb_Read.loop]
    simp [hl, h1]

theorem Usb_SlipReceive_loop_stuck (badFormat length : Int) (fuel : Nat) :
    ∀ (s : SlipRx) (l : SlipLocals), s.bufRemaining = 0 → s.rx.xRxCDC = [] →
      (s.rx.queueRemaining = true → s.rx.DeQueue.Count ≤ s.rx.queuePtr) →
      (l.count : Int) < length →
      Usb_SlipReceive.loop badFormat length fuel s l = none := by
  induction fuel with
  | zero => intro s l _ _ _ _; rfl
  | succ fuel ih =>
    intro s l h0 h1 h2 hc
    obtain ⟨rx1, hr, hx, hq⟩ := Usb_Read_empty s.rx s.parseBuf h1 h2
    rw [Usb_SlipReceive.loop]
    simp only [hc, h0, if_true, hr, Option.map_some']
    simp only [Int.toNat_ofNat, Nat.cast_zero, Int.toNat_zero, Nat.zero_add]
    rw [Usb_SlipReceive.forLoop]
    simp only [Nat.cast_zero, lt_self_iff_false, if_false]
    exact ih _ l rfl hx (by simp [hq]) hc

theorem Usb_SlipReceive_lost_END (badFormat length : Int) (fuel : Nat) (s : SlipRx)
    (buffer : Nat → Nat) (hlen : 1 < length) (hrem : s.bufRemaining = 3)
    (h2 : s.parseBuf s.pbp = END) (h3 : s.parseBuf (s.pbp + 1) = END)
    (h4 : s.parseBuf (s.pbp + 2) ≠ END) (h5 : s.parseBuf (s.pbp + 2) ≠ ESC)
    (hq : s.rx.xRxCDC = [])
    (hd : s.rx.queueRemaining = true → s.rx.DeQueue.Count ≤ s.rx.queuePtr) :
    Usb_SlipReceive badFormat fuel s buffer length = none := by
  unfold Usb_SlipReceive
  have hl0 : ((0 : Nat) : Int) < length := by simp; omega
  have hl1 : ((1 : Nat) : Int) < length := by simp; omega
  cases fuel with
  | zero => rfl
  | succ fuel =>
    rw [Usb_SlipReceive.loop]
    simp only [hl0, hrem, if_true, OfNat.ofNat_ne_zero, if_false]
    have hf1 : Usb_SlipReceive.forLoop ((3 : Int).toNat + 1) 0 s
        { started := false, count := 0, buffer := buffer, bp := 0 }
        = some (none, { s with pbp := s.pbp + 2, bufRemaining := 1 },
            { started := true, count := 0, buffer := buffer, bp := 0 }) := by
      have : (3 : Int).toNat + 1 = 1 + 1 + 1 + 1 := by decide
      rw [this, Usb_SlipReceive.forLoop]
      simp only [hrem, h2, Nat.cast_zero, if_true]
      simp only [Bool.false_and, Bool.false_eq_true, if_false]
      rw [Usb_SlipReceive.forLoop]
      simp only [h3, if_true]
      norm_num
      rw [Usb_SlipReceive.forLoop]
      norm_num
    rw [hf1]
    simp only []
    cases fuel with
    | zero => rfl
    | succ fuel =>
      rw [Usb_SlipReceive.loop]
      simp only [hl0, if_true, one_ne_zero, if_false]
      have hf2 : Usb_SlipReceive.forLoop ((1 : Int).toNat + 1) 0
          { s with pbp := s.pbp + 2, bufRemaining := 1 }
          { started := true, count := 0, buffer := buffer, bp := 0 }
          = some (none, { s with pbp := s.pbp + 3, bufRemaining := 0 },
              { started := true, count := 1,
                buffer := store buffer 0 (s.parseBuf (s.pbp + 2)), bp := 1 }) := by
        have : (1 : Int).toNat + 1 = 1 + 1 := by decide
        rw [this, Usb_SlipReceive.forLoop]
        simp only [h4, h5, if_false]
        norm_num
        rw [Usb_SlipReceive.forLoop]
        norm_num [SlipLocals.put]
      rw [hf2]
      simp only []
      exact Usb_SlipReceive_loop_stuck badFormat length fuel _ _ rfl hq hd hl1

/-- C11 at the failing input, one chunk holding the frames of `[0x41]` and `[0x42]`:
the first call of `Usb_SlipReceive` returns 1 with `[0x41]`, leaving `pbp` on the END
that closed the frame and `bufRemaining = 3` for the four bytes from there on; the
second call, with nothing more in the receive queue, does not return, whatever the
bound `fuel` on its iterations; it returns 1 with `[0x42]` once one more byte, an END,
has come from the link. -/
theorem Usb_SlipReceive_two_frames (fuel : Nat) :
    Usb_SlipSend (fun _ => 0) [0x41] ++ Usb_SlipSend (fun _ => 0) [0x42]
        = [0xC0, 0x41, 0xC0, 0xC0, 0x42, 0xC0]
    ∧ (Usb_SlipReceive (-1) 10
          (SlipRx.init (rxBlocks [0xC0, 0x41, 0xC0, 0xC0, 0x42, 0xC0])) (fun _ => 0) 100).map
        (fun r => (r.1, bytes r.2.2 1, r.2.1.pbp, r.2.1.bufRemaining, r.2.1.rx.xRxCDC.length))
        = some (1, [0x41], 2, 3, 0)
    ∧ (Usb_SlipReceive (-1) 10
          (SlipRx.init (rxBlocks [0xC0, 0x41, 0xC0, 0xC0, 0x42, 0xC0])) (fun _ => 0) 100).bind
        (fun r => Usb_SlipReceive (-1) fuel r.2.1 (fun _ => 0) 100) = none
    ∧ ((Usb_SlipReceive (-1) 10
          (SlipRx.init (rxBlocks [0xC0, 0x41, 0xC0, 0xC0, 0x42, 0xC0])) (fun _ => 0) 100).bind
        (fun r => Usb_SlipReceive (-1) 100
          { r.2.1 with rx := { r.2.1.rx with xRxCDC := rxBlocks [0xC0] } } (fun _ => 0) 100)).map
        (fun r => (r.1, bytes r.2.2 1)) = some (1, [0x42]) := by
  refine ⟨by decide, by decide, ?_, by decide⟩
  have hprops : (Usb_SlipReceive (-1) 10
      (SlipRx.init (rxBlocks [0xC0, 0x41, 0xC0, 0xC0, 0x42, 0xC0])) (fun _ => 0) 100).map
      (fun r => (r.2.1.bufRemaining, r.2.1.parseBuf r.2.1.pbp, r.2.1.parseBuf (r.2.1.pbp + 1),
        r.2.1.parseBuf (r.2.1.pbp + 2), r.2.1.rx.xRxCDC.length,
        decide (r.2.1.rx.DeQueue.Count ≤ r.2.1.rx.queuePtr)))
      = some (3, 192, 192, 66, 0, true) := by decide
  generalize Usb_SlipReceive (-1) 10
      (SlipRx.init (rxBlocks [0xC0, 0x41, 0xC0, 0xC0, 0x42, 0xC0])) (fun _ => 0) 100 = o
    at hprops ⊢
  cases o with
  | none => simp at hprops
  | some r =>
    simp only [Option.map_some', Option.some.injEq, Prod.mk.injEq, decide_eq_true_eq,
      List.length_eq_zero] at hprops
    obtain ⟨h1, h2, h3, h4, h5, h6⟩ := hprops
    simp only [Option.some_bind]
    exact Usb_SlipReceive_lost_END (-1) 100 fuel r.2.1 (fun _ => 0) (by decide) h1 h2 h3
      (by rw [h4]; decide) (by rw [h4]; decide) h5 (fun _ => h6)

theorem usbserialReadSlip_loop_escape_full (badFormat length : Int) (p rest : List Nat) :
    ∀ (received : Nat) (buffer : Nat → Nat),
      ((received + p.length : Nat) : Int) = length →
      usbserialReadSlip.loop badFormat length (escape p ++ rest) received buffer
        = some (badFormat, storeList buffer received p, rest) := by
  induction p with
  | nil =>
    intro received buffer h
    have hn : ¬ (received : Int) < length := by simp at h; omega
    rw [escape, List.nil_append, usbserialReadSlip_loop_full _ _ _ _ _ hn]
    simp [storeList]
  | cons c p ih =>
    intro received buffer h
    have hlen : received + (c :: p).length = (received + 1) + p.length := by
      simp only [List.length_cons]; omega
    rw [hlen] at h
    have hlt : (received : Int) < length := by push_cast at h; omega
    have ih' := fun b => ih (received + 1) b h
    by_cases h1 : c = END
    · subst h1
      have : escape (END :: p) ++ rest = ESC :: ESC_END :: (escape p ++ rest) := by
        simp [escape, escapeByte]
      rw [this, usbserialReadSlip_loop_ESC _ _ _ _ _ _ hlt, ih']
      simp [storeList]
    · by_cases h2 : c = ESC
      · subst h2
        have : escape (ESC :: p) ++ rest = ESC :: ESC_ESC :: (escape p ++ rest) := by
          simp [escape, escapeByte, ESC_ne_END]
        have hne : ESC_ESC ≠ ESC_END := by decide
        rw [this, usbserialReadSlip_loop_ESC _ _ _ _ _ _ hlt, ih']
        simp [storeList, hne]
      · have : escape (c :: p) ++ rest = c :: (escape p ++ rest) := by
          simp [escape, escapeByte, h1, h2]
        rw [this, usbserialReadSlip_loop_data _ _ _ _ _ _ hlt h1 h2, ih']
        simp [storeList]

/-- C12 (amended): when `usbserialReadSlip` has accumulated `length` bytes (the decoded
bytes `p` of the input, `len(p) = length`) without seeing END, it returns
`CONTROLLER_ERROR_BAD_FORMAT` and leaves the rest of the oversized frame unread in the
input queue; nothing is dropped, and the next call decodes from the first unread byte:
when the rest of the oversized frame (`t`, up to its closing END) is not empty and is
shorter than `length`, the next call returns `len(t)` with `t` in the buffer, the tail
of the oversized frame. -/
theorem usbserialReadSlip_oversize (badFormat length : Int) (k : Nat)
    (p t more : List Nat) (buffer buffer2 : Nat → Nat)
    (hp : (p.length : Int) = length) (ht : t ≠ []) (htl : (t.length : Int) < length) :
    usbserialReadSlip badFormat
        (List.replicate k END ++ (escape p ++ (escape t ++ END :: more))) buffer length
      = some (badFormat, storeList buffer 0 p, escape t ++ END :: more)
    ∧ (usbserialReadSlip badFormat (escape t ++ END :: more) buffer2 length).map
        (fun r => (r.1, bytes r.2.1 t.length, r.2.2)) = some ((t.length : Int), t, more) := by
  have htpos : 0 < t.length := List.length_pos.mpr ht
  have hl0 : (0 : Int) < length := by omega
  constructor
  · unfold usbserialReadSlip
    rw [usbserialReadSlip_loop_leading _ _ _ _ _ hl0,
      usbserialReadSlip_loop_escape_full badFormat length p _ 0 buffer (by simpa using hp)]
  · have hb := bytes_storeList t buffer2 0
    simp only [Nat.zero_add, bytes_zero, List.nil_append] at hb
    unfold usbserialReadSlip
    rw [usbserialReadSlip_loop_escape badFormat length t more 0 buffer2 (by simpa using htl)
      (by simpa using htpos)]
    simp [hb]

/-- Witness of C12 with `length = 2`: the oversized frame `0x41 0x42 0x43` gives the
error, and the next call returns its tail `[0x43]`. -/
theorem usbserialReadSlip_oversize_witness :
    usbserialReadSlip (-1)
        (List.replicate 1 END ++ (escape [0x41, 0x42] ++ (escape [0x43] ++ END :: [END, 0x44, END])))
        (fun _ => 0) 2
      = some (-1, storeList (fun _ => 0) 0 [0x41, 0x42], escape [0x43] ++ END :: [END, 0x44, END])
    ∧ (usbserialReadSlip (-1) (escape [0x43] ++ END :: [END, 0x44, END]) (fun _ => 0) 2).map
        (fun r => (r.1, bytes r.2.1 ([0x43] : List Nat).length, r.2.2))
      = some ((([0x43] : List Nat).length : Int), [0x43], [END, 0x44, END]) :=
  usbserialReadSlip_oversize (-1) 2 1 [0x41, 0x42] [0x43] [END, 0x44, END] (fun _ => 0)
    (fun _ => 0) (by decide) (by decide) (by decide)

/-- Counterexample to C12 as stated, with `length = 2` on the input
`END 0x41 0x42 0x43 END END 0x44 END`: the first call returns the error value (here
`-1`) after `0x41 0x42` and leaves `0x43 END END 0x44 END` unread; the next call returns
1 with `[0x43]`, the tail of the oversized frame, and not the message `[0x44]` of the
next complete frame. -/
theorem usbserialReadSlip_oversize_counterexample :
    (usbserialReadSlip (-1) [0xC0, 0x41, 0x42, 0x43, 0xC0, 0xC0, 0x44, 0xC0] (fun _ => 0) 2).map
        (fun r => (r.1, r.2.2)) = some (-1, [0x43, 0xC0, 0xC0, 0x44, 0xC0])
    ∧ (usbserialReadSlip (-1) [0x43, 0xC0, 0xC0, 0x44, 0xC0] (fun _ => 0) 2).map
        (fun r => (r.1, bytes r.2.1 1, r.2.2)) = some (1, [0x43], [0xC0, 0x44, 0xC0]) := by
  decide

theorem countP_bytes_succ_store (m : Nat → Nat) (n v : Nat) :
    (bytes (store m n v) (n + 1)).countP (fun c => decide (c = END ∨ c = ESC))
      = (bytes m n).countP (fun c => decide (c = END ∨ c = ESC))
        + (if v = END ∨ v = ESC then 1 else 0) := by
  rw [bytes_succ_store, List.countP_append]
  by_cases h : v = END ∨ v = ESC
  · simp [List.countP_cons, h]
  · simp [List.countP_cons, h]

theorem usbserialReadSlip_loop_special (badFormat length : Int) (n : Nat) :
    ∀ (inq : List Nat), inq.length ≤ n → ∀ (received : Nat) (buffer : Nat → Nat) (r : Int)
      (b : Nat → Nat) (q : List Nat),
      usbserialReadSlip.loop badFormat length inq received buffer = some (r, b, q) →
        r = badFormat ∨ ∃ m : Nat, r = (m : Int)
          ∧ (bytes b m).countP (fun c => decide (c = END ∨ c = ESC))
              ≤ (bytes buffer received).countP (fun c => decide (c = END ∨ c = ESC))
                + inq.count ESC := by
  induction n with
  | zero =>
    intro inq hn received buffer r b q h
    have : inq = [] := List.length_eq_zero.mp (Nat.le_zero.mp hn)
    subst this
    rw [usbserialReadSlip.loop.eq_def] at h
    by_cases hl : (received : Int) < length
    · simp [hl] at h
    · simp [hl] at h; exact Or.inl h.1.symm
  | succ n ih =>
    intro inq hn received buffer r b q h
    by_cases hl : (received : Int) < length
    · cases inq with
      | nil => rw [usbserialReadSlip.loop.eq_def] at h; simp [hl] at h
      | cons c inq =>
        have hn' : inq.length ≤ n := by simpa using hn
        by_cases h1 : c = END
        · subst h1
          have hcnt : (END :: inq).count ESC = inq.count ESC := by
            simp [List.count_cons, ESC_ne_END.symm]
          by_cases h0 : received = 0
          · subst h0
            have hl0 : (0 : Int) < length := by simpa using hl
            rw [usbserialReadSlip_loop_END _ _ _ _ hl0] at h
            rw [hcnt]
            exact ih inq hn' 0 buffer r b q h
          · rw [usbserialReadSlip.loop.eq_def] at h
            simp [hl, h0] at h
            right
            refine ⟨received, h.1.symm, ?_⟩
            rw [← h.2.1]
            omega
        · by_cases h2 : c = ESC
          · subst h2
            cases inq with
            | nil => rw [usbserialReadSlip.loop.eq_def] at h; simp [hl, ESC_ne_END] at h
            | cons c2 inq2 =>
              rw [usbserialReadSlip_loop_ESC _ _ _ _ _ _ hl] at h
              have hn2 : inq2.length ≤ n := by
                simp only [List.length_cons] at hn'; omega
              have hcnt : inq2.count ESC + 1 ≤ (ESC :: c2 :: inq2).count ESC := by
                simp [List.count_cons]
              rcases ih inq2 hn2 _ _ r b q h with h' | ⟨m, hm, h'⟩
              · exact Or.inl h'
              · right
                refine ⟨m, hm, ?_⟩
                rw [countP_bytes_succ_store] at h'
                have hle : ∀ v : Nat, (if v = END ∨ v = ESC then 1 else 0) ≤ 1 :=
                  fun v => by split <;> omega
                have hv := hle (if c2 = ESC_END then END else if c2 = ESC_ESC then ESC else c2)
                omega
          · rw [usbserialReadSlip_loop_data _ _ _ _ _ _ hl h1 h2] at h
            have hcnt : (c :: inq).count ESC = inq.count ESC := by
              simp [List.count_cons, h2]
            rcases ih inq hn' _ _ r b q h with h' | ⟨m, hm, h'⟩
            · exact Or.inl h'
            · right
              refine ⟨m, hm, ?_⟩
              rw [countP_bytes_succ_store] at h'
              have hc : ¬ (c = END ∨ c = ESC) := by
                intro hc; rcases hc with hc | hc
                · exact h1 hc
                · exact h2 hc
              rw [if_neg hc] at h'
              omega
    · rw [usbserialReadSlip_loop_full _ _ _ _ _ hl] at h
      simp at h
      exact Or.inl h.1.symm

/-- C13 (amended): a message returned by `usbserialReadSlip` (the error value
`CONTROLLER_ERROR_BAD_FORMAT` being negative) holds at most as many bytes equal to END
or ESC as its input holds ESC bytes: a byte taken from the input outside an escape is
never END or ESC.  So a message decoded from an input with no ESC byte contains no
byte equal to END or ESC; messages do contain END and ESC values where the input held
an escape pair. -/
theorem usbserialReadSlip_special_bytes (badFormat length : Int) (inq : List Nat)
    (buffer : Nat → Nat) (r : Int) (b : Nat → Nat) (q : List Nat) (hbad : badFormat < 0)
    (h : usbserialReadSlip badFormat inq buffer length = some (r, b, q)) :
    (bytes b r.toNat).countP (fun c => decide (c = END ∨ c = ESC)) ≤ inq.count ESC
    ∧ (ESC ∉ inq → ∀ c ∈ bytes b r.toNat, c ≠ END ∧ c ≠ ESC) := by
  have hmain : (bytes b r.toNat).countP (fun c => decide (c = END ∨ c = ESC))
      ≤ inq.count ESC := by
    rcases usbserialReadSlip_loop_special badFormat length inq.length inq (Nat.le_refl _)
      0 buffer r b q h with h' | ⟨m, hm, h'⟩
    · subst h'
      have : r.toNat = 0 := by omega
      simp [this, bytes_zero]
    · subst hm
      simpa [bytes_zero] using h'
  refine ⟨hmain, ?_⟩
  intro hesc c hc
  have h0 : inq.count ESC = 0 := List.count_eq_zero.mpr hesc
  rw [h0] at hmain
  have hz := Nat.le_zero.mp hmain
  rw [List.countP_eq_zero] at hz
  have := hz c hc
  simpa [not_or] using this

/-- Witness of C13 on the frame of the message `[0x41, 0xC0]`: one ESC in the input,
one END in the message. -/
theorem usbserialReadSlip_special_bytes_witness :
    (bytes (storeList (fun _ => 0) 0 [0x41, 0xC0]) (2 : Int).toNat).countP
        (fun c => decide (c = END ∨ c = ESC))
      ≤ ([0xC0, 0x41, 0xDB, 0xDC, 0xC0] : List Nat).count ESC :=
  (usbserialReadSlip_special_bytes (-1) 8 [0xC0, 0x41, 0xDB, 0xDC, 0xC0] (fun _ => 0) 2
    (storeList (fun _ => 0) 0 [0x41, 0xC0]) [] (by decide)
    (usbserialReadSlip_loop_escape (-1) 8 [0x41, 0xC0] [] 0 (fun _ => 0) (by decide)
      (by decide) ▸ rfl)).1

/-- Counterexample to C13 as stated: on the frame `END ESC ESC_END END` of the message
`[0xC0]`, `usbserialReadSlip` returns 1 and the message it leaves in the buffer is
`[0xC0]`, the literal END value. -/
theorem usbserialReadSlip_special_bytes_counterexample :
    (usbserialReadSlip (-1) [0xC0, 0xDB, 0xDC, 0xC0] (fun _ => 0) 8).map
        (fun r => (r.1, bytes r.2.1 1)) = some (1, [END]) := by
  decide

/-! ## Second group of claims: the senders -/

theorem usbserialWriteSlipIfFull_count (env : Nat → Option Nat) (maxWrite : Nat) (s : SlipOut)
    (count : Int)
    (h : count = ((List.range s.calls.length).map
      (fun k => match env k with | some n => (n : Int) | none => -1)).sum) :
    count + (usbserialWriteSlipIfFull env maxWrite s).1
      = ((List.range (usbserialWriteSlipIfFull env maxWrite s).2.calls.length).map
          (fun k => match env k with | some n => (n : Int) | none => -1)).sum := by
  unfold usbserialWriteSlipIfFull
  by_cases hf : s.obp ≥ maxWrite
  · simp only [hf, if_true, usbserialWrite, List.length_append, List.length_singleton]
    rw [List.range_succ, List.map_append, List.sum_append, ← h]
    simp
  · simp [hf, h]

theorem putIfFull_count (env : Nat → Option Nat) (maxWrite v : Nat) (cs : Int × SlipOut)
    (h : cs.1 = ((List.range cs.2.calls.length).map
      (fun k => match env k with | some n => (n : Int) | none => -1)).sum) :
    (putIfFull env maxWrite v cs).1
      = ((List.range (putIfFull env maxWrite v cs).2.calls.length).map
          (fun k => match env k with | some n => (n : Int) | none => -1)).sum := by
  unfold putIfFull
  exact usbserialWriteSlipIfFull_count env maxWrite (cs.2.put v) cs.1 (by simpa [SlipOut.put] using h)

theorem usbserialWriteSlip_loop_count (env : Nat → Option Nat) (maxWrite : Nat) (p : List Nat) :
    ∀ cs : Int × SlipOut,
      cs.1 = ((List.range cs.2.calls.length).map
        (fun k => match env k with | some n => (n : Int) | none => -1)).sum →
      (usbserialWriteSlip.loop env maxWrite p cs).1
        = ((List.range (usbserialWriteSlip.loop env maxWrite p cs).2.calls.length).map
            (fun k => match env k with | some n => (n : Int) | none => -1)).sum := by
  induction p with
  | nil => intro cs h; simpa [usbserialWriteSlip.loop] using h
  | cons c p ih =>
    intro cs h
    unfold usbserialWriteSlip.loop
    by_cases h1 : c = END
    · rw [if_pos h1]
      exact ih _ (putIfFull_count _ _ _ _ (putIfFull_count _ _ _ _ h))
    · by_cases h2 : c = ESC
      · rw [if_neg h1, if_pos h2]
        exact ih _ (putIfFull_count _ _ _ _ (putIfFull_count _ _ _ _ h))
      · rw [if_neg h1, if_neg h2]
        exact ih _ (putIfFull_count _ _ _ _ h)

/-- C15, what the code returns and the failing inputs.  The value `usbserialWriteSlip`
returns is the sum of the return values of its `usbserialWrite` calls, where a failed
call counts `-1`, not `0`.  On the message `[0x41]`: when every write fails it returns
`-1`; with `USBSER_MAX_WRITE = 2`, when the first chunk `[0xC0, 0x41]` fails and the
second chunk `[0xC0]` is written, it returns `0`, though one byte was accepted. -/
theorem usbserialWriteSlip_count (env : Nat → Option Nat) (maxWrite : Nat)
    (slipOutBuf : Nat → Nat) (p : List Nat) :
    (usbserialWriteSlip env maxWrite slipOutBuf p).1
        = ((List.range (usbserialWriteSlip env maxWrite slipOutBuf p).2.calls.length).map
            (fun k => match env k with | some n => (n : Int) | none => -1)).sum
    ∧ (usbserialWriteSlip (fun _ => none) 64 (fun _ => 0) [0x41]).1 = -1
    ∧ (usbserialWriteSlip (fun k => if k = 0 then none else some 1) 2 (fun _ => 0)
        [0x41]).2.calls = [[0xC0, 0x41], [0xC0]]
    ∧ (usbserialWriteSlip (fun k => if k = 0 then none else some 1) 2 (fun _ => 0)
        [0x41]).1 = 0 := by
  refine ⟨?_, by decide, by decide, by decide⟩
  have hl := usbserialWriteSlip_loop_count env maxWrite p
    (0, ({ slipOutBuf := slipOutBuf, obp := 0, calls := [] } : SlipOut).put END)
    (by simp [SlipOut.put])
  unfold usbserialWriteSlip
  simp only [usbserialWrite, List.length_append, List.length_singleton]
  rw [List.range_succ, List.map_append, List.sum_append]
  simp only [SlipOut.put] at hl ⊢
  rw [hl]
  simp

/-- C16, `PacketUsbCdc::sendPacket`.  On a closed port that does not open it returns
`IO_ERROR` and leaves the port as it was, nothing written; on a port that is open, or
closed and opening, it leaves the port open, makes exactly one write and returns `OK`
when the result of the write is not negative and `IO_ERROR` when it is.  The array it
writes is END, the packet, END, with the END and ESC bytes of the packet escaped where
plain `char` is unsigned and left as they are where it is signed.  At the failing
input, the packet `[0x41, 0xC0, 0x42]` with a signed plain `char`, the array written is
`[0xC0, 0x41, 0xC0, 0x42, 0xC0]`: it holds an END at an interior position, so it is not
one frame, and the firmware's `usbserialReadSlip` reads from it the message `[0x41]`,
leaving `[0x42, 0xC0]` for its next call. -/
theorem sendPacket_status (signedChar : Bool) (port : QextSerialPort) (packet : List Nat) :
    (port.isOpen = false → port.openOk = false →
      PacketUsbCdc.sendPacket signedChar port packet = (Status.IO_ERROR, port))
    ∧ (port.isOpen = true ∨ port.openOk = true →
      (PacketUsbCdc.sendPacket signedChar port packet).2.isOpen = true
      ∧ (PacketUsbCdc.sendPacket signedChar port packet).2.written
          = port.written ++ [[END] ++ (if signedChar then packet else escape packet) ++ [END]]
      ∧ (0 ≤ port.writeResult →
          (PacketUsbCdc.sendPacket signedChar port packet).1 = Status.OK)
      ∧ (port.writeResult < 0 →
          (PacketUsbCdc.sendPacket signedChar port packet).1 = Status.IO_ERROR))
    ∧ (PacketUsbCdc.sendPacket true (QextSerialPort.receiving []) [0x41, 0xC0, 0x42]).2.written
        = [[0xC0, 0x41, 0xC0, 0x42, 0xC0]]
    ∧ ¬ SelfDelimiting [0xC0, 0x41, 0xC0, 0x42, 0xC0]
    ∧ (usbserialReadSlip (-1) [0xC0, 0x41, 0xC0, 0x42, 0xC0] (fun _ => 0) 100).map
        (fun r => (r.1, bytes r.2.1 1, r.2.2)) = some (1, [0x41], [0x42, 0xC0]) := by
  refine ⟨?_, ?_, by decide, ?_, by decide⟩
  · intro h1 h2
    cases port with
    | mk isOpen openOk writeResult written incoming =>
      simp only at h1 h2
      subst h1 h2
      simp [PacketUsbCdc.sendPacket]
  · intro hopen
    have hw : (PacketUsbCdc.sendPacket signedChar port packet).2.written
        = port.written ++ [[END] ++ (if signedChar then packet else escape packet) ++ [END]] := by
      cases signedChar with
      | true =>
        rw [sendPacket_written_signed port packet hopen]
        simp
      | false =>
        rw [sendPacket_written port packet hopen]
        simp [encode]
    refine ⟨?_, hw, ?_, ?_⟩
    · unfold PacketUsbCdc.sendPacket
      cases hio : port.isOpen <;> cases hok : port.openOk <;>
        simp [hio, hok] at hopen ⊢ <;> split <;> simp
    · intro hr
      have hr' : ¬ port.writeResult < 0 := by omega
      unfold PacketUsbCdc.sendPacket
      cases hio : port.isOpen <;> cases hok : port.openOk <;>
        simp [hio, hok, hr'] at hopen ⊢
    · intro hr
      unfold PacketUsbCdc.sendPacket
      cases hio : port.isOpen <;> cases hok : port.openOk <;>
        simp [hio, hok, hr] at hopen ⊢
  · intro h
    exact h.2.2.1 2 (by decide) (by decide) (by decide)

/-! ## Second group of claims: the transmit queue and the queue of received packets -/

theorem xQueueSendRetry_never (fuel : Nat) :
    ∀ (tx : UsbTx) (q : xBULKBUFFER), xQueueSendRetry (fun _ => false) fuel tx q = none := by
  induction fuel with
  | zero => intro tx q; rfl
  | succ fuel ih => intro tx q; simp [xQueueSendRetry, ih]

theorem Usb_Write_loop_never (fuel : Nat) (bp : List Nat) :
    ∀ (tx : UsbTx) (q : xBULKBUFFER), q.Count < EP_FIFO →
      Usb_Write.loop (fun _ => false) fuel bp (tx, q) = none
      ∨ ∃ q1 : xBULKBUFFER, Usb_Write.loop (fun _ => false) fuel bp (tx, q) = some (tx, q1)
          ∧ q1.Count = q.Count + bp.length ∧ q1.Count < EP_FIFO := by
  induction bp with
  | nil => intro tx q h; exact Or.inr ⟨q, rfl, by simp, h⟩
  | cons c bp ih =>
    intro tx q h
    unfold Usb_Write.loop TestAndSend
    by_cases hfull : q.Count + 1 = EP_FIFO
    · left
      simp [hfull, xQueueSendRetry_never]
    · simp only [hfull, if_false]
      have h1 : q.Count + 1 < EP_FIFO := by omega
      rcases ih tx { Data := store q.Data q.Count c, Count := q.Count + 1 } h1 with h2 | ⟨q1, h2, h3, h4⟩
      · exact Or.inl h2
      · right
        refine ⟨q1, h2, ?_, h4⟩
        simp only [List.length_cons] at h3 ⊢
        omega

theorem Usb_Write_never (fuel : Nat) (tx : UsbTx) (qData : Nat → Nat) (buffer : List Nat)
    (hne : buffer ≠ []) :
    Usb_Write (fun _ => false) fuel tx qData buffer = none := by
  have hpos : 0 < buffer.length := List.length_pos.mpr hne
  unfold Usb_Write
  simp only []
  split
  · rfl
  · rename_i tx1 _
    rcases Usb_Write_loop_never fuel buffer tx1 { Data := qData, Count := 0 }
        (show (0 : Nat) < EP_FIFO by decide)
      with h | ⟨q1, h, h3, _⟩
    · simp [h]
    · have hc : q1.Count ≠ 0 := by simp at h3; omega
      simp [h, hc, xQueueSendRetry_never]

theorem Usb_SlipSend_ne_nil (outgoingBuf : Nat → Nat) (p : List Nat) :
    Usb_SlipSend outgoingBuf p ≠ [] := by
  rw [Usb_SlipSend_eq]
  simp [encode]

/-- C14 (amended): `Usb_Write` has no timeout; it retries `xQueueSend` until the
transmit queue accepts the block.  When `xQueueSend` always fails, `Usb_Write` on a
buffer that is not empty, and therefore `Usb_SlipSend` on every message, does not
return, however many retries are allowed; and whenever `Usb_Write` returns, it returns
`CONTROLLER_OK`, never an error. -/
theorem Usb_Write_backpressure (fuel : Nat) (tx : UsbTx) (qData outgoingBuf : Nat → Nat)
    (buffer p : List Nat) :
    (buffer ≠ [] → Usb_Write (fun _ => false) fuel tx qData buffer = none)
    ∧ Usb_SlipSend.call (fun _ => false) fuel tx qData outgoingBuf p = none
    ∧ (∀ (accept : Nat → Bool) (r : Int × UsbTx),
        Usb_Write accept fuel tx qData buffer = some r → r.1 = CONTROLLER_OK) := by
  refine ⟨Usb_Write_never fuel tx qData buffer, ?_, ?_⟩
  · unfold Usb_SlipSend.call
    rw [Usb_Write_never fuel tx qData _ (Usb_SlipSend_ne_nil outgoingBuf p)]
    rfl
  · intro accept r h
    unfold Usb_Write at h
    simp only [] at h
    split at h
    · simp at h
    · split at h
      · simp at h
      · split at h
        · simp only [Option.map_eq_some'] at h
          obtain ⟨_, _, h⟩ := h
          rw [← h]
        · simp only [Option.some.injEq] at h
          rw [← h]

/-- Counterexample to C14 as stated: with the USB task running and a transmit queue
that never accepts a block, no bound on the retries makes `Usb_Write` of the one byte
`0x41` return. -/
theorem Usb_Write_backpressure_counterexample :
    ¬ ∃ fuel : Nat,
      Usb_Write (fun _ => false) fuel UsbTx.running (fun _ => 0) [0x41] ≠ none := by
  rintro ⟨fuel, h⟩
  exact h (Usb_Write_never fuel UsbTx.running (fun _ => 0) [0x41] (by simp))

theorem receivePacket_forLoop_out_of_range (size : Int) (n : Nat) :
    ∀ (i : Nat) (packetList : List OscUsbPacket) (buffer : Nat → Nat) (retval : Int),
      0 < n → packetList.length ≤ i + 2 * (n - 1) →
      PacketUsbCdc.receivePacket.forLoop size n i packetList buffer retval = none := by
  induction n with
  | zero => intro i l b r h; omega
  | succ k ih =>
    intro i l b r _ hlen
    unfold PacketUsbCdc.receivePacket.forLoop
    cases hget : l[i]? with
    | none => rfl
    | some packet =>
      have hi : i < l.length := (List.getElem?_eq_some_iff.mp hget).1
      have hk : 0 < k := by
        rcases Nat.eq_zero_or_pos k with h0 | h0
        · subst h0; simp at hlen; omega
        · exact h0
      have hlen1 : (l.eraseIdx i).length ≤ (i + 1) + 2 * (k - 1) := by
        rw [List.length_eraseIdx]
        simp only [hi, if_true]
        simp at hlen
        omega
      simp only []
      split
      · exact ih (i + 1) _ _ _ hk hlen1
      · exact ih (i + 1) _ _ _ hk hlen1

/-- C17, what the code does and where it fails.  On an empty `packetList`,
`PacketUsbCdc::receivePacket` returns 0 and leaves list and buffer as they were; with
exactly one packet queued, no longer than `size`, it copies that packet into the
buffer, returns its length and leaves the list empty; with two or more packets queued
its loop calls `packetList.takeAt( i )` with `i` out of range, after having removed
more than the oldest packet: the call has no defined result. -/
theorem receivePacket_queue (p0 p1 : OscUsbPacket) (rest : List OscUsbPacket)
    (buffer : Nat → Nat) (size : Int) :
    PacketUsbCdc.receivePacket [] buffer size = some (0, [], buffer, 1)
    ∧ (p0.length ≤ size →
        PacketUsbCdc.receivePacket [p0] buffer size
          = some (p0.length, [], memcpy buffer p0.packetBuf p0.length.toNat, 0))
    ∧ PacketUsbCdc.receivePacket (p0 :: p1 :: rest) buffer size = none := by
  refine ⟨rfl, ?_, ?_⟩
  · intro h
    simp [PacketUsbCdc.receivePacket, PacketUsbCdc.receivePacket.forLoop, h]
  · unfold PacketUsbCdc.receivePacket
    have hl : (p0 :: p1 :: rest).length = rest.length + 2 := by simp
    have h := receivePacket_forLoop_out_of_range size (p0 :: p1 :: rest).length 0
      (p0 :: p1 :: rest) buffer 0 (by simp) (by rw [hl]; omega)
    simp only [List.length_cons] at h
    simp [h]

/-! ## Second group of claims: name and serial number of the board -/

/-- C18 at the failing input.  On a board whose EEPROM holds no name, `systemName()`
returns `"Make Controller Kit"`; `systemSetName("abc")` then returns 0, and
`systemName()` returns `"abce Controller Kit"`, not `"abc"`: `strncpy` copies the three
bytes without a terminating zero over the longer name that `sysName` holds.  From the
zeroed `sysName` of start-up the same call does read back as `"abc"`. -/
theorem systemSetName_over_longer_name :
    (systemName ⟨32, 0⟩ (System.boot ⟨32, 0⟩ [])).1 = defaultName
    ∧ (systemSetName ⟨32, 0⟩ (systemName ⟨32, 0⟩ (System.boot ⟨32, 0⟩ [])).2 [97, 98, 99]).1 = 0
    ∧ (systemName ⟨32, 0⟩
        (systemSetName ⟨32, 0⟩ (systemName ⟨32, 0⟩ (System.boot ⟨32, 0⟩ [])).2 [97, 98, 99]).2).1
        = [97, 98, 99, 101, 32, 67, 111, 110, 116, 114, 111, 108, 108, 101, 114, 32, 75, 105, 116]
    ∧ (systemName ⟨32, 0⟩ (systemSetName ⟨32, 0⟩ (System.boot ⟨32, 0⟩ []) [97, 98, 99]).2).1
        = [97, 98, 99] := by
  decide

theorem eepromRead_eepromWrite (eeprom : Nat → Nat) (address : Nat) (v : Int)
    (h0 : 0 ≤ v) (h1 : v ≤ 65535) :
    eepromRead (eepromWrite eeprom address v) address = v := by
  obtain ⟨u, rfl⟩ : ∃ u : Nat, v = (u : Int) := ⟨v.toNat, by omega⟩
  have hu : u ≤ 65535 := by omega
  have hmod : ((u : Int) % 4294967296).toNat = u := by omega
  unfold eepromRead eepromWrite
  simp only [hmod, store]
  have e1 : address ≠ address + 1 := by omega
  have e2 : address ≠ address + 2 := by omega
  have e3 : address ≠ address + 3 := by omega
  have e4 : address + 1 ≠ address + 2 := by omega
  have e5 : address + 1 ≠ address + 3 := by omega
  have e6 : address + 2 ≠ address + 3 := by omega
  simp only [e1, e2, e3, e4, e5, e6, if_true, if_false]
  split <;> omega

/-- C19: `systemSetSerialNumber(s)` returns 0 and afterwards `systemSerialNumber()`
returns `s & 0xFFFF` (`s % 65536`), for every `s`; so a serial number in `0..65535`
reads back unchanged; and `systemSerialNumber()` lies in `0..65535` whatever the
EEPROM holds. -/
theorem systemSerialNumber_roundtrip (M : EepromMap) (sys : System) (s : Int) :
    (systemSetSerialNumber M sys s).1 = 0
    ∧ systemSerialNumber M (systemSetSerialNumber M sys s).2 = s % 65536
    ∧ (0 ≤ s → s ≤ 65535 → systemSerialNumber M (systemSetSerialNumber M sys s).2 = s)
    ∧ 0 ≤ systemSerialNumber M sys ∧ systemSerialNumber M sys ≤ 65535 := by
  have hr : systemSerialNumber M (systemSetSerialNumber M sys s).2 = s % 65536 := by
    unfold systemSerialNumber systemSetSerialNumber
    simp only []
    rw [eepromRead_eepromWrite _ _ _ (by omega) (by omega)]
    omega
  refine ⟨rfl, hr, ?_, ?_, ?_⟩
  · intro h0 h1
    rw [hr]
    omega
  · unfold systemSerialNumber; omega
  · unfold systemSerialNumber; omega

/-- Witness of C19: the serial number 12345 of the documentation reads back as
12345. -/
theorem systemSerialNumber_roundtrip_witness :
    systemSerialNumber ⟨32, 0⟩ (systemSetSerialNumber ⟨32, 0⟩ (System.boot ⟨32, 0⟩ []) 12345).2
      = 12345 :=
  (systemSerialNumber_roundtrip ⟨32, 0⟩ (System.boot ⟨32, 0⟩ []) 12345).2.2.1
    (by decide) (by decide)

/-- C20, what the code does and the failing input.  Called with no data,
`systemNameOsc` creates one message on the given channel and address, carrying as its
one String the contents of the array `sysName`, and returns true; once a name is in
`sysName` that is what `systemName()` returns.  Before the name has been loaded
(`sysName` zeroed at start-up, the EEPROM holding `"abc"`) the reply carries the empty
string, while `systemName()` returns `"abc"`. -/
theorem systemNameOsc_reply (M : EepromMap) (sys : System) (out : List OscMessage) (ch : Nat)
    (address : List Nat) :
    systemNameOsc M sys out ch address []
        = (true, sys,
            out ++ [OscMessage.mk ch address
              [OscArg.string (cstring sys.sysName (SYSTEM_MAX_NAME + 1) 0)]])
    ∧ (sys.sysName 0 ≠ 0 →
        (systemName M sys).1 = cstring sys.sysName (SYSTEM_MAX_NAME + 1) 0)
    ∧ (systemNameOsc ⟨32, 0⟩ (System.boot ⟨32, 0⟩ [97, 98, 99]) [] 1 [47] []).2.2
        = [OscMessage.mk 1 [47] [OscArg.string []]]
    ∧ (systemName ⟨32, 0⟩ (System.boot ⟨32, 0⟩ [97, 98, 99])).1 = [97, 98, 99] := by
  refine ⟨rfl, ?_, by decide, by decide⟩
  intro h
  simp [systemName, h]

/-! ## Third group of claims: the handlers of system.c -/

/-- C21: `systemFreememOsc` called with no data creates exactly one message, on the
channel and to the address it was given, carrying the one Integer `systemFreeMemory()`,
leaves the state of `system.c` as it was and returns true; with one datum or more it
creates no message, leaves the state as it was and returns false.  With 12345 bytes
free the Integer is 12345. -/
theorem systemFreememOsc_get (heapFree : Nat) (sys : System) (out : List OscMessage)
    (ch : Nat) (address : List Nat) (d : List OscData) :
    systemFreememOsc heapFree sys out ch address []
        = (true, sys, out ++ [OscMessage.mk ch address [OscArg.int (systemFreeMemory heapFree)]])
    ∧ (1 ≤ d.length → systemFreememOsc heapFree sys out ch address d = (false, sys, out))
    ∧ systemFreeMemory 12345 = 12345 := by
  refine ⟨rfl, ?_, by decide⟩
  intro h
  have h0 : d.length ≠ 0 := by omega
  simp [systemFreememOsc, h0]

/-- C22: `systemNameOsc` called with two data or more, or with one datum whose type is
not STRING, returns false, leaves `sysName` and the EEPROM as they were and creates no
message. -/
theorem systemNameOsc_invalid (M : EepromMap) (sys : System) (out : List OscMessage)
    (ch : Nat) (address : List Nat) (d : List OscData)
    (h : 2 ≤ d.length ∨ ∃ d0 : OscData, d = [d0] ∧ d0.type ≠ OscType.STRING) :
    systemNameOsc M sys out ch address d = (false, sys, out) := by
  unfold systemNameOsc
  rcases h with h | ⟨d0, rfl, h⟩
  · have h1 : d.length ≠ 1 := by omega
    have h0 : d.length ≠ 0 := by omega
    simp [h1, h0]
  · simp [h]

/-- Witness of C22: one Integer datum where a String is expected. -/
theorem systemNameOsc_invalid_witness :
    systemNameOsc ⟨32, 0⟩ (System.boot ⟨32, 0⟩ [97, 98, 99]) [] 1 [47]
        [⟨OscType.INT, ⟨5, []⟩⟩]
      = (false, System.boot ⟨32, 0⟩ [97, 98, 99], []) :=
  systemNameOsc_invalid ⟨32, 0⟩ (System.boot ⟨32, 0⟩ [97, 98, 99]) [] 1 [47]
    [⟨OscType.INT, ⟨5, []⟩⟩] (Or.inr ⟨_, rfl, by decide⟩)

/-- C23, what the code does and the failing input.  `systemResetOsc` and
`systemSambaOsc` act exactly when they are given one datum whose `value.i` is 1,
whatever its type; otherwise they return false and set nothing off; they never create a
message.  Given one datum of type FLOAT whose bits read as the `int` 1, they call
`systemReset(YES)` and `systemSamba(YES)` and return true. -/
theorem systemResetOsc_type_unchecked (out : List OscMessage) (acts : List SystemAction)
    (ch : Nat) (address : List Nat) (d : List OscData) :
    systemResetOsc out acts ch address d
        = (if d.length = 1 ∧ (d.head?.map fun d0 => d0.value.i) = some 1
            then (true, out, acts ++ [SystemAction.reset]) else (false, out, acts))
    ∧ systemSambaOsc out acts ch address d
        = (if d.length = 1 ∧ (d.head?.map fun d0 => d0.value.i) = some 1
            then (true, out, acts ++ [SystemAction.samba]) else (false, out, acts))
    ∧ systemResetOsc [] [] 1 [47] [⟨OscType.FLOAT, ⟨1, []⟩⟩] = (true, [], [SystemAction.reset])
    ∧ systemSambaOsc [] [] 1 [47] [⟨OscType.FLOAT, ⟨1, []⟩⟩]
        = (true, [], [SystemAction.samba]) := by
  refine ⟨rfl, rfl, by decide, by decide⟩

/-- C25, the children of `systemOsc` against the documented properties: `name`,
`freememory`, `samba`, `reset` and `version` each name exactly one child;
`serialnumber`, `stack-audit`, `task-report` and `active` name none. -/
theorem systemOsc_children :
    systemDocumentedProperties.map
        (fun p => (p, (systemOsc.children.filter (fun c => c.name = p)).length))
      = [("name", 1), ("freememory", 1), ("samba", 1), ("reset", 1), ("serialnumber", 0),
          ("version", 1), ("stack-audit", 0), ("task-report", 0), ("active", 0)] := by
  decide

/-! ## Third group of claims: the transmit side of usb.c -/

/-- C24 (amended): `Usb_SetActive` counts the users of the subsystem.  From a state
with `Usb_Users >= 0`, whenever `Usb_SetActive(state)` returns it returns zero; after
`Usb_SetActive(1)` (any `state` that is not 0) there is one user more and
`Usb_GetActive()` returns 1; after `Usb_SetActive(0)` there is one user less, if there
was one, and `Usb_GetActive()` returns 0 when at most one user was counted before the
call, and still 1 when two or more were. -/
theorem Usb_SetActive_counts (tx : UsbTx) (state : Int) (r : Int × UsbTx)
    (h0 : 0 ≤ tx.Usb_Users) (h : Usb_SetActive state tx = some r) :
    r.1 = 0
    ∧ (state ≠ 0 → r.2.Usb_Users = tx.Usb_Users + 1 ∧ Usb_GetActive r.2 = 1)
    ∧ (state = 0 →
        r.2.Usb_Users = (if tx.Usb_Users = 0 then 0 else tx.Usb_Users - 1)
        ∧ Usb_GetActive r.2 = (if 2 ≤ tx.Usb_Users then 1 else 0)) := by
  unfold Usb_SetActive at h
  by_cases hs : state = 0
  · subst hs
    simp only [ne_eq, not_true_eq_false, if_false] at h
    by_cases hu : tx.Usb_Users = 0
    · simp only [hu, ne_eq, not_true_eq_false, if_false, Option.some.injEq] at h
      subst h
      refine ⟨rfl, fun hc => absurd rfl hc, fun _ => ?_⟩
      simp [Usb_GetActive, hu]
    · simp only [ne_eq, hu, not_false_eq_true, if_true, Option.some.injEq] at h
      subst h
      refine ⟨rfl, fun hc => absurd rfl hc, fun _ => ?_⟩
      simp only [hu, if_false, Usb_GetActive, true_and]
      split <;> split <;> omega
  · simp only [ne_eq, hs, not_false_eq_true, if_true] at h
    by_cases hu : tx.Usb_Users = 0
    · simp only [hu, if_true] at h
      split at h
      · simp only [Option.some.injEq] at h
        subst h
        refine ⟨rfl, fun _ => ?_, fun hc => absurd hc hs⟩
        simp [Usb_GetActive, hu]
      · simp at h
    · simp only [hu, if_false, Option.some.injEq] at h
      subst h
      refine ⟨rfl, fun _ => ⟨rfl, ?_⟩, fun hc => absurd hc hs⟩
      simp only [Usb_GetActive]
      split <;> omega

/-- Witness of C24: with one user counted, `Usb_SetActive(0)` returns zero and leaves
the subsystem off. -/
theorem Usb_SetActive_counts_witness :
    Usb_SetActive 0 UsbTx.running = some (0, UsbTx.mk 0 true true [] 0)
    ∧ Usb_GetActive (UsbTx.mk 0 true true [] 0) = 0 :=
  ⟨rfl, ((Usb_SetActive_counts UsbTx.running 0 (0, UsbTx.mk 0 true true [] 0) (by decide)
    rfl).2.2 rfl).2.trans (by decide)⟩

/-- Counterexample to C24 as stated: from start-up (no user, task not yet running),
after `Usb_SetActive(1)`, `Usb_SetActive(1)` and then `Usb_SetActive(0)`, each of which
returns 0, `Usb_GetActive()` returns 1, not 0. -/
theorem Usb_SetActive_counts_counterexample :
    (((Usb_SetActive 1 (UsbTx.mk 0 false true [] 0)).bind
        (fun r => Usb_SetActive 1 r.2)).bind (fun r => Usb_SetActive 0 r.2)).map
      (fun r => (r.1, r.2.Usb_Users, Usb_GetActive r.2)) = some (0, 1, 1) := by
  decide

theorem xQueueSendRetry_some (accept : Nat → Bool) (fuel : Nat) :
    ∀ (tx : UsbTx) (q : xBULKBUFFER), (∃ j, j < fuel ∧ accept (tx.attempts + j) = true) →
      ∃ a : Nat, xQueueSendRetry accept fuel tx q
        = some { tx with xTxCDC := tx.xTxCDC ++ [q], attempts := a } := by
  induction fuel with
  | zero => intro tx q ⟨j, hj, _⟩; omega
  | succ fuel ih =>
    intro tx q ⟨j, hj, ha⟩
    unfold xQueueSendRetry
    by_cases h : accept tx.attempts = true
    · exact ⟨tx.attempts + 1, by simp [h]⟩
    · have hj0 : j ≠ 0 := by
        intro h0; subst h0; simp at ha; exact h ha
      obtain ⟨j1, rfl⟩ : ∃ j1, j = j1 + 1 := ⟨j - 1, by omega⟩
      obtain ⟨a, hr⟩ := ih { tx with attempts := tx.attempts + 1 } q
        ⟨j1, by omega, by simpa [Nat.add_assoc, Nat.add_comm 1 j1] using ha⟩
      exact ⟨a, by simp [h, hr]⟩

theorem Usb_Write_loop_blocks (accept : Nat → Bool) (fuel : Nat)
    (hacc : ∀ k : Nat, ∃ j, j < fuel ∧ accept (k + j) = true) (bp : List Nat) :
    ∀ (tx : UsbTx) (q : xBULKBUFFER), q.Count < EP_FIFO →
      ∃ (tx1 : UsbTx) (q1 : xBULKBUFFER) (blocks : List xBULKBUFFER),
        Usb_Write.loop accept fuel bp (tx, q) = some (tx1, q1)
        ∧ tx1.xTxCDC = tx.xTxCDC ++ blocks
        ∧ (∀ b ∈ blocks, b.Count = EP_FIFO)
        ∧ q1.Count < EP_FIFO
        ∧ (blocks.map (fun b => bytes b.Data b.Count)).flatten ++ bytes q1.Data q1.Count
            = bytes q.Data q.Count ++ bp
        ∧ blocks.length * EP_FIFO + q1.Count = q.Count + bp.length := by
  induction bp with
  | nil =>
    intro tx q h
    exact ⟨tx, q, [], rfl, by simp, by simp, h, by simp, by simp⟩
  | cons c bp ih =>
    intro tx q h
    unfold Usb_Write.loop
    by_cases hfull : q.Count + 1 = EP_FIFO
    · obtain ⟨a, hr⟩ := xQueueSendRetry_some accept fuel tx
        { Data := store q.Data q.Count c, Count := q.Count + 1 } (hacc tx.attempts)
      obtain ⟨tx1, q1, blocks, h1, h2, h3, h4, h5, h6⟩ :=
        ih { tx with xTxCDC := tx.xTxCDC ++ [{ Data := store q.Data q.Count c, Count := q.Count + 1 }],
                     attempts := a }
          { Data := store q.Data q.Count c, Count := 0 } (show (0 : Nat) < EP_FIFO by decide)
      have hT : TestAndSend accept fuel tx q c
          = some (0, UsbTx.mk tx.Usb_Users tx.Usb_Running tx.taskRuns
              (tx.xTxCDC ++ [xBULKBUFFER.mk (store q.Data q.Count c) (q.Count + 1)]) a,
              xBULKBUFFER.mk (store q.Data q.Count c) 0) := by
        unfold TestAndSend
        simp only []
        rw [if_pos hfull, hr]
        rfl
      refine ⟨tx1, q1, { Data := store q.Data q.Count c, Count := q.Count + 1 } :: blocks,
        ?_, ?_, ?_, h4, ?_, ?_⟩
      · rw [hT]
        exact h1
      · rw [h2]; simp
      · intro b hb
        rcases List.mem_cons.mp hb with hb | hb
        · rw [hb]; exact hfull
        · exact h3 b hb
      · simp only [List.map_cons, List.flatten_cons, List.append_assoc]
        rw [h5, bytes_zero, List.nil_append, bytes_succ_store]
        simp
      · simp only [List.length_cons] at h6 ⊢
        rw [Nat.add_mul]
        omega
    · have hlt : q.Count + 1 < EP_FIFO := by omega
      obtain ⟨tx1, q1, blocks, h1, h2, h3, h4, h5, h6⟩ :=
        ih tx { Data := store q.Data q.Count c, Count := q.Count + 1 } hlt
      have hT : TestAndSend accept fuel tx q c
          = some (((q.Count + 1 : Nat) : Int), tx,
              xBULKBUFFER.mk (store q.Data q.Count c) (q.Count + 1)) := by
        unfold TestAndSend
        simp only []
        rw [if_neg hfull]
      refine ⟨tx1, q1, blocks, ?_, h2, h3, h4, ?_, ?_⟩
      · rw [hT]
        exact h1
      · rw [h5, bytes_succ_store]
        simp
      · simp only [List.length_cons] at h6 ⊢
        omega

/-- C27: for every buffer, when every `xQueueSend` retry loop succeeds within its bound
(from any attempt on, one of the next `fuel` attempts passes) and the USB task is or
gets running, `Usb_Write` returns `CONTROLLER_OK` having appended to the transmit queue
exactly `ceil(n / EP_FIFO)` blocks, each with `1 <= Count <= EP_FIFO`, all but the last
with `Count = EP_FIFO`, whose first `Count` data bytes, concatenated in order, are the
buffer; for the empty buffer it appends nothing. -/
theorem Usb_Write_blocks (accept : Nat → Bool) (fuel : Nat) (tx : UsbTx) (qData : Nat → Nat)
    (buffer : List Nat) (hacc : ∀ k : Nat, ∃ j, j < fuel ∧ accept (k + j) = true)
    (hact : tx.Usb_Users ≠ 0 ∨ tx.Usb_Running = true ∨ tx.taskRuns = true) :
    ∃ (tx1 : UsbTx) (blocks : List xBULKBUFFER),
      Usb_Write accept fuel tx qData buffer = some (CONTROLLER_OK, tx1)
      ∧ tx1.xTxCDC = tx.xTxCDC ++ blocks
      ∧ blocks.length = (buffer.length + EP_FIFO - 1) / EP_FIFO
      ∧ (∀ b ∈ blocks, 1 ≤ b.Count ∧ b.Count ≤ EP_FIFO)
      ∧ (∀ i : Nat, i + 1 < blocks.length →
          (blocks[i]?).map (fun b => b.Count) = some EP_FIFO)
      ∧ (blocks.map (fun b => bytes b.Data b.Count)).flatten = buffer
      ∧ (buffer = [] → blocks = []) := by
  have hactive : ∃ tx0 : UsbTx,
      (if tx.Usb_Users = 0 then (Usb_SetActive 1 tx).map fun r => r.2 else some tx) = some tx0
      ∧ tx0.xTxCDC = tx.xTxCDC := by
    by_cases hu : tx.Usb_Users = 0
    · have hrun : (tx.Usb_Running || tx.taskRuns) = true := by
        rcases hact with h | h | h
        · exact absurd hu h
        · simp [h]
        · simp [h]
      refine ⟨UsbTx.mk (tx.Usb_Users + 1) true tx.taskRuns tx.xTxCDC tx.attempts, ?_, rfl⟩
      simp [hu, Usb_SetActive, hrun]
    · exact ⟨tx, by simp [hu], rfl⟩
  obtain ⟨tx0, h0, hq0⟩ := hactive
  obtain ⟨tx1, q1, blocks, h1, h2, h3, h4, h5, h6⟩ :=
    Usb_Write_loop_blocks accept fuel hacc buffer tx0 (xBULKBUFFER.mk qData 0)
      (show (0 : Nat) < EP_FIFO by decide)
  simp only [bytes_zero, List.nil_append, Nat.zero_add] at h5 h6
  have hE : EP_FIFO = 64 := rfl
  by_cases hc : q1.Count = 0
  · refine ⟨tx1, blocks, ?_, by rw [h2, hq0], ?_, ?_, ?_, ?_, ?_⟩
    · unfold Usb_Write
      simp only [h0, h1, hc, ne_eq, not_true_eq_false, if_false]
    · rw [hE] at h6 ⊢; omega
    · intro b hb
      rw [h3 b hb, hE]; omega
    · intro i hi
      have hi' : i < blocks.length := by omega
      rw [List.getElem?_eq_getElem hi', Option.map_some']
      exact congrArg some (h3 _ (List.getElem_mem hi'))
    · rw [hc, bytes_zero, List.append_nil] at h5
      exact h5
    · intro hb
      rw [hb] at h6
      simp only [List.length_nil] at h6
      rw [hE] at h6
      exact List.length_eq_zero.mp (by omega)
  · obtain ⟨a, hr⟩ := xQueueSendRetry_some accept fuel tx1 q1 (hacc tx1.attempts)
    refine ⟨UsbTx.mk tx1.Usb_Users tx1.Usb_Running tx1.taskRuns (tx1.xTxCDC ++ [q1]) a,
      blocks ++ [q1], ?_, ?_, ?_, ?_, ?_, ?_, ?_⟩
    · unfold Usb_Write
      simp only [h0, h1, ne_eq, hc, not_false_eq_true, if_true, hr, Option.map_some']
    · simp only [h2, hq0, List.append_assoc]
    · simp only [List.length_append, List.length_singleton]
      rw [hE] at h6 h4 ⊢; omega
    · intro b hb
      rcases List.mem_append.mp hb with hb | hb
      · rw [h3 b hb, hE]; omega
      · rw [List.mem_singleton.mp hb]
        exact ⟨by omega, by omega⟩
    · intro i hi
      simp only [List.length_append, List.length_singleton] at hi
      have hi' : i < blocks.length := by omega
      rw [List.getElem?_append_left hi', List.getElem?_eq_getElem hi', Option.map_some']
      exact congrArg some (h3 _ (List.getElem_mem hi'))
    · simp only [List.map_append, List.map_cons, List.map_nil, List.flatten_append,
        List.flatten_cons, List.flatten_nil, List.append_nil]
      exact h5
    · intro hb
      rw [hb] at h6
      simp only [List.length_nil] at h6
      omega

/-- Witness of C27: three bytes on a queue that accepts at once go out as one block
of `Count = 3`. -/
theorem Usb_Write_blocks_witness :
    ∃ (tx1 : UsbTx) (blocks : List xBULKBUFFER),
      Usb_Write (fun _ => true) 1 UsbTx.running (fun _ => 0) [1, 2, 3]
        = some (CONTROLLER_OK, tx1)
      ∧ tx1.xTxCDC = UsbTx.running.xTxCDC ++ blocks
      ∧ blocks.length = 1
      ∧ (blocks.map (fun b => bytes b.Data b.Count)).flatten = [1, 2, 3] := by
  obtain ⟨tx1, blocks, h1, h2, h3, _, _, h6, _⟩ :=
    Usb_Write_blocks (fun _ => true) 1 UsbTx.running (fun _ => 0) [1, 2, 3]
      (fun _ => ⟨0, by decide, rfl⟩) (Or.inl (by decide))
  exact ⟨tx1, blocks, h1, h2, h3, h6⟩

/-! ## Third group of claims: bounds on the stores -/

theorem encoderStores_loop_eq (p : List Nat) :
    ∀ (obp : Nat) (ix : List Nat),
      encoderStores.loop p (obp, ix)
        = (obp + (escape p).length, ix ++ List.range' obp (escape p).length) := by
  induction p with
  | nil => intro obp ix; simp [encoderStores.loop, escape]
  | cons c p ih =>
    intro obp ix
    unfold encoderStores.loop
    by_cases h1 : c = END
    · subst h1
      rw [if_pos rfl, ih]
      have he : (escape (END :: p)).length = (escape p).length + 1 + 1 := by
        simp [escape, escapeByte]
      rw [he, List.range'_succ, List.range'_succ]
      simp only [List.append_assoc, List.cons_append, List.nil_append, Prod.mk.injEq]
      refine ⟨by omega, trivial⟩
    · by_cases h2 : c = ESC
      · subst h2
        rw [if_neg ESC_ne_END, if_pos rfl, ih]
        have he : (escape (ESC :: p)).length = (escape p).length + 1 + 1 := by
          simp [escape, escapeByte, ESC_ne_END]
        rw [he, List.range'_succ, List.range'_succ]
        simp only [List.append_assoc, List.cons_append, List.nil_append, Prod.mk.injEq]
        refine ⟨by omega, trivial⟩
      · rw [if_neg h1, if_neg h2, ih]
        have he : (escape (c :: p)).length = (escape p).length + 1 := by
          simp [escape, escapeByte, h1, h2]
        rw [he, List.range'_succ]
        simp only [List.append_assoc, List.cons_append, List.nil_append, Prod.mk.injEq]
        refine ⟨by omega, trivial⟩

theorem encoderStores_range (p : List Nat) :
    (encoderStores.loop p (1, [0])).2 ++ [(encoderStores.loop p (1, [0])).1]
      = List.range (p.length + p.countP (fun c => decide (c = END ∨ c = ESC)) + 2) := by
  rw [encoderStores_loop_eq, ← escape_length, List.range_eq_range']
  have h1 : List.range' 0 ((escape p).length + 2)
      = 0 :: List.range' 1 ((escape p).length + 1) := by
    rw [List.range'_succ]
  have h2 : List.range' 1 ((escape p).length + 1)
      = List.range' 1 (escape p).length ++ [1 + (escape p).length] := by
    rw [List.range'_concat]; simp
  rw [h1, h2]
  rfl

theorem mem_range_lt_iff (n cap : Nat) (hn : 0 < n) :
    (∀ i ∈ List.range n, i < cap) ↔ n ≤ cap := by
  constructor
  · intro h
    have := h (n - 1) (List.mem_range.mpr (by omega))
    omega
  · intro h i hi
    have := List.mem_range.mp hi
    omega

/-- C29, the offsets at which `Usb_SlipSend` stores and the failing input.  For a
message of `n` bytes, `k` of them END or ESC, the stores are at the offsets
`0 .. n + k + 1` of `outgoingBuf` and the length handed to `Usb_Write` is `n + k + 2`,
so they lie within the `n * 2` bytes of `outgoingBuf` exactly when `k + 2 <= n`.  For
the message `[0x41]` the stores are at the offsets 0, 1 and 2 of an array of 2 bytes,
and the length handed to `Usb_Write` is 3. -/
theorem Usb_SlipSend_stores_bound (outgoingBuf : Nat → Nat) (p : List Nat) :
    Usb_SlipSend.stores p
        = List.range (p.length + p.countP (fun c => decide (c = END ∨ c = ESC)) + 2)
    ∧ (Usb_SlipSend outgoingBuf p).length
        = p.length + p.countP (fun c => decide (c = END ∨ c = ESC)) + 2
    ∧ ((∀ i ∈ Usb_SlipSend.stores p, i < Usb_SlipSend.outgoingBufSize p.length)
        ↔ p.countP (fun c => decide (c = END ∨ c = ESC)) + 2 ≤ p.length)
    ∧ ((Usb_SlipSend outgoingBuf p).length ≤ Usb_SlipSend.outgoingBufSize p.length
        ↔ p.countP (fun c => decide (c = END ∨ c = ESC)) + 2 ≤ p.length)
    ∧ Usb_SlipSend.stores [0x41] = [0, 1, 2]
    ∧ Usb_SlipSend.outgoingBufSize ([0x41] : List Nat).length = 2
    ∧ (Usb_SlipSend (fun _ => 0) [0x41]).length = 3 := by
  have hs : Usb_SlipSend.stores p
      = List.range (p.length + p.countP (fun c => decide (c = END ∨ c = ESC)) + 2) :=
    encoderStores_range p
  have hl : (Usb_SlipSend outgoingBuf p).length
      = p.length + p.countP (fun c => decide (c = END ∨ c = ESC)) + 2 := by
    rw [Usb_SlipSend_eq, encode_length, escape_length]
  refine ⟨hs, hl, ?_, ?_, by decide, by decide, by decide⟩
  · rw [hs, mem_range_lt_iff _ _ (by omega)]
    unfold Usb_SlipSend.outgoingBufSize
    omega
  · rw [hl]
    unfold Usb_SlipSend.outgoingBufSize
    omega

theorem usbserialReadSlip_loop_above (badFormat length : Int) (n : Nat) :
    ∀ (inq : List Nat), inq.length ≤ n → ∀ (received : Nat) (buffer : Nat → Nat) (r : Int)
      (b : Nat → Nat) (q : List Nat),
      usbserialReadSlip.loop badFormat length inq received buffer = some (r, b, q) →
        ∀ i : Nat, length ≤ (i : Int) → b i = buffer i := by
  induction n with
  | zero =>
    intro inq hn received buffer r b q h i _
    have : inq = [] := List.length_eq_zero.mp (Nat.le_zero.mp hn)
    subst this
    rw [usbserialReadSlip.loop.eq_def] at h
    by_cases hl : (received : Int) < length
    · simp [hl] at h
    · simp [hl] at h; rw [← h.2.1]
  | succ n ih =>
    intro inq hn received buffer r b q h i hi
    by_cases hl : (received : Int) < length
    · have hne : i ≠ received := by omega
      cases inq with
      | nil => rw [usbserialReadSlip.loop.eq_def] at h; simp [hl] at h
      | cons c inq =>
        have hn' : inq.length ≤ n := by simpa using hn
        by_cases h1 : c = END
        · subst h1
          by_cases h0 : received = 0
          · subst h0
            have hl0 : (0 : Int) < length := by simpa using hl
            rw [usbserialReadSlip_loop_END _ _ _ _ hl0] at h
            exact ih inq hn' 0 buffer r b q h i hi
          · rw [usbserialReadSlip.loop.eq_def] at h
            simp [hl, h0] at h
            rw [← h.2.1]
        · by_cases h2 : c = ESC
          · subst h2
            cases inq with
            | nil => rw [usbserialReadSlip.loop.eq_def] at h; simp [hl, ESC_ne_END] at h
            | cons c2 inq2 =>
              rw [usbserialReadSlip_loop_ESC _ _ _ _ _ _ hl] at h
              have hn2 : inq2.length ≤ n := by
                simp only [List.length_cons] at hn'; omega
              rw [ih inq2 hn2 _ _ r b q h i hi]
              simp [store, hne]
          · rw [usbserialReadSlip_loop_data _ _ _ _ _ _ hl h1 h2] at h
            rw [ih inq hn' _ _ r b q h i hi]
            simp [store, hne]
    · rw [usbserialReadSlip_loop_full _ _ _ _ _ hl] at h
      simp at h
      rw [← h.2.1]

theorem accumulate_nil (started : Bool) : accumulate started [] = ([], none) := by
  cases started <;> rfl

theorem accumulate_END_started (inq : List Nat) :
    accumulate true (END :: inq) = ([], some inq) := by
  rw [accumulate.eq_def]; simp

theorem accumulate_END_leading (inq : List Nat) :
    accumulate false (END :: inq) = accumulate false inq := by
  rw [accumulate.eq_def]; simp

theorem accumulate_ESC_last (started : Bool) : accumulate started [ESC] = ([], none) := by
  rw [accumulate.eq_def]; simp [ESC_ne_END]

theorem accumulate_ESC (started : Bool) (c2 : Nat) (inq : List Nat) :
    accumulate started (ESC :: c2 :: inq)
      = ((if c2 = ESC_END then END else if c2 = ESC_ESC then ESC else c2)
          :: (accumulate true inq).1, (accumulate true inq).2) := by
  rw [accumulate.eq_def]; simp [ESC_ne_END]

theorem accumulate_data (started : Bool) (c : Nat) (inq : List Nat) (h1 : c ≠ END)
    (h2 : c ≠ ESC) :
    accumulate started (c :: inq) = (c :: (accumulate true inq).1, (accumulate true inq).2) := by
  rw [accumulate.eq_def]; simp [h1, h2]

theorem usbserialReadSlip_loop_accumulate (badFormat length : Int) (n : Nat) :
    ∀ (inq : List Nat), inq.length ≤ n → ∀ (received : Nat) (buffer : Nat → Nat),
      (length ≤ ((received + (accumulate (decide (received ≠ 0)) inq).1.length : Nat) : Int) →
        ∃ (b : Nat → Nat) (q : List Nat),
          usbserialReadSlip.loop badFormat length inq received buffer
            = some (badFormat, b, q))
      ∧ (((received + (accumulate (decide (received ≠ 0)) inq).1.length : Nat) : Int) < length →
        usbserialReadSlip.loop badFormat length inq received buffer
          = (accumulate (decide (received ≠ 0)) inq).2.map fun rest =>
              (((received + (accumulate (decide (received ≠ 0)) inq).1.length : Nat) : Int),
                storeList buffer received (accumulate (decide (received ≠ 0)) inq).1, rest)) := by
  induction n with
  | zero =>
    intro inq hn received buffer
    have : inq = [] := List.length_eq_zero.mp (Nat.le_zero.mp hn)
    subst this
    rw [accumulate_nil, usbserialReadSlip.loop.eq_def]
    simp only [List.length_nil, Nat.add_zero, Option.map_none']
    constructor
    · intro h
      have : ¬ (received : Int) < length := by omega
      exact ⟨buffer, [], by simp [this]⟩
    · intro h
      simp [h]
  | succ n ih =>
    intro inq hn received buffer
    by_cases hl : (received : Int) < length
    · cases inq with
      | nil =>
        rw [accumulate_nil, usbserialReadSlip.loop.eq_def]
        simp only [List.length_nil, Nat.add_zero, Option.map_none']
        exact ⟨fun h => absurd hl (by omega), fun _ => by simp [hl]⟩
      | cons c t =>
        have ht : t.length ≤ n := by simp only [List.length_cons] at hn; omega
        by_cases h1 : c = END
        · subst h1
          by_cases h0 : received = 0
          · subst h0
            have hl0 : (0 : Int) < length := by simpa using hl
            have e : decide ((0 : Nat) ≠ 0) = false := by decide
            rw [e, accumulate_END_leading, usbserialReadSlip_loop_END _ _ _ _ hl0]
            have := ih t ht 0 buffer
            rw [e] at this
            exact this
          · have e : decide (received ≠ 0) = true := by simp [h0]
            rw [e, accumulate_END_started]
            have hv : usbserialReadSlip.loop badFormat length (END :: t) received buffer
                = some ((received : Int), buffer, t) := by
              rw [usbserialReadSlip.loop.eq_def]; simp [hl, h0]
            rw [hv]
            simp only [List.length_nil, Nat.add_zero, Option.map_some', storeList]
            exact ⟨fun h => absurd hl (by omega), fun _ => trivial⟩
        · by_cases h2 : c = ESC
          · subst h2
            cases t with
            | nil =>
              rw [accumulate_ESC_last]
              have hv : usbserialReadSlip.loop badFormat length [ESC] received buffer = none := by
                rw [usbserialReadSlip.loop.eq_def]; simp [hl, ESC_ne_END]
              rw [hv]
              simp only [List.length_nil, Nat.add_zero, Option.map_none']
              exact ⟨fun h => absurd hl (by omega), fun _ => trivial⟩
            | cons c2 t2 =>
              have ht2 : t2.length ≤ n := by simp only [List.length_cons] at ht; omega
              have e : decide (received + 1 ≠ 0) = true := by simp
              have := ih t2 ht2 (received + 1)
                (store buffer received (if c2 = ESC_END then END else if c2 = ESC_ESC then ESC else c2))
              rw [e] at this
              rw [accumulate_ESC, usbserialReadSlip_loop_ESC _ _ _ _ _ _ hl]
              simp only [List.length_cons, storeList]
              have en : received + ((accumulate true t2).1.length + 1)
                  = received + 1 + (accumulate true t2).1.length := by omega
              rw [en]
              exact this
          · have e : decide (received + 1 ≠ 0) = true := by simp
            have := ih t ht (received + 1) (store buffer received c)
            rw [e] at this
            rw [accumulate_data _ _ _ h1 h2, usbserialReadSlip_loop_data _ _ _ _ _ _ hl h1 h2]
            simp only [List.length_cons, storeList]
            have en : received + ((accumulate true t).1.length + 1)
                = received + 1 + (accumulate true t).1.length := by omega
            rw [en]
            exact this
    · rw [usbserialReadSlip_loop_full _ _ _ _ _ hl]
      exact ⟨fun _ => ⟨buffer, inq, rfl⟩, fun h => absurd h (by omega)⟩

theorem accumulate_escape (p rest : List Nat) :
    accumulate true (escape p ++ END :: rest) = (p, some rest) := by
  induction p with
  | nil => exact accumulate_END_started rest
  | cons c p ih =>
    by_cases h1 : c = END
    · subst h1
      have he : escape (END :: p) ++ END :: rest = ESC :: ESC_END :: (escape p ++ END :: rest) := by
        simp [escape, escapeByte]
      rw [he, accumulate_ESC, ih]
      simp
    · by_cases h2 : c = ESC
      · subst h2
        have he : escape (ESC :: p) ++ END :: rest
            = ESC :: ESC_ESC :: (escape p ++ END :: rest) := by
          simp [escape, escapeByte, ESC_ne_END]
        have hne : ESC_ESC ≠ ESC_END := by decide
        rw [he, accumulate_ESC, ih]
        simp [hne]
      · have he : escape (c :: p) ++ END :: rest = c :: (escape p ++ END :: rest) := by
          simp [escape, escapeByte, h1, h2]
        rw [he, accumulate_data _ _ _ h1 h2, ih]

theorem accumulate_encode (p rest : List Nat) (hne : p ≠ []) :
    accumulate false (encode p ++ rest) = (p, some rest) := by
  cases p with
  | nil => exact absurd rfl hne
  | cons c p =>
    have he : encode (c :: p) ++ rest = END :: (escape (c :: p) ++ END :: rest) := by
      simp [encode]
    rw [he, accumulate_END_leading]
    by_cases h1 : c = END
    · subst h1
      have he2 : escape (END :: p) ++ END :: rest
          = ESC :: ESC_END :: (escape p ++ END :: rest) := by
        simp [escape, escapeByte]
      rw [he2, accumulate_ESC, accumulate_escape]
      simp
    · by_cases h2 : c = ESC
      · subst h2
        have he2 : escape (ESC :: p) ++ END :: rest
            = ESC :: ESC_ESC :: (escape p ++ END :: rest) := by
          simp [escape, escapeByte, ESC_ne_END]
        have hne2 : ESC_ESC ≠ ESC_END := by decide
        rw [he2, accumulate_ESC, accumulate_escape]
        simp [hne2]
      · have he2 : escape (c :: p) ++ END :: rest = c :: (escape p ++ END :: rest) := by
          simp [escape, escapeByte, h1, h2]
        rw [he2, accumulate_data _ _ _ h1 h2, accumulate_escape]

/-- C30: `usbserialReadSlip` is bounded by its buffer.  For every input and every
`length`, a call that returns has stored only at buffer indices below `length` (for
every buffer it is given, the cells from index `length` on are as before), and its
result is `CONTROLLER_ERROR_BAD_FORMAT` or a count `r` with `1 <= r < length`.  With
`accumulate false inq` the bytes that accumulate on the input `inq` before a
terminating END: when they are `length` or more the call returns
`CONTROLLER_ERROR_BAD_FORMAT`; when they are fewer the call returns their count, with
the bytes at the start of the buffer and the input after the terminating END left
unread, if there is a terminating END, and waits for input if there is none.  So the
error, a negative value, is returned exactly when `length` bytes accumulate before a
terminating END.  On
the frame of a message `p` the bytes that accumulate are `p`; in particular, after any
leading ENDs, a payload of exactly `length` bytes is rejected, whatever follows it, and
a payload of fewer bytes that is not empty is returned. -/
theorem usbserialReadSlip_bounded (badFormat length : Int) (inq : List Nat)
    (buffer : Nat → Nat) (k : Nat) (p rest : List Nat) :
    (∀ (r : Int) (b : Nat → Nat) (q : List Nat),
      usbserialReadSlip badFormat inq buffer length = some (r, b, q) →
        (∀ i : Nat, length ≤ (i : Int) → b i = buffer i)
        ∧ (r = badFormat ∨ (1 ≤ r ∧ r < length)))
    ∧ (length ≤ ((accumulate false inq).1.length : Int) →
        ∃ (b : Nat → Nat) (q : List Nat),
          usbserialReadSlip badFormat inq buffer length = some (badFormat, b, q))
    ∧ (((accumulate false inq).1.length : Int) < length →
        usbserialReadSlip badFormat inq buffer length
          = (accumulate false inq).2.map fun unread =>
              (((accumulate false inq).1.length : Int),
                storeList buffer 0 (accumulate false inq).1, unread))
    ∧ (badFormat < 0 →
        ((∃ (b : Nat → Nat) (q : List Nat),
            usbserialReadSlip badFormat inq buffer length = some (badFormat, b, q))
          ↔ length ≤ ((accumulate false inq).1.length : Int)))
    ∧ (p ≠ [] → accumulate false (encode p ++ rest) = (p, some rest))
    ∧ ((p.length : Int) = length →
        (usbserialReadSlip badFormat (List.replicate k END ++ (escape p ++ rest)) buffer
          length).map (fun r => r.1) = some badFormat
        ∧ (usbserialReadSlip badFormat (List.replicate k END ++ (escape p ++ END :: rest))
          buffer length).map (fun r => r.1) = some badFormat)
    ∧ (p ≠ [] → (p.length : Int) < length →
        (usbserialReadSlip badFormat (List.replicate k END ++ (escape p ++ END :: rest)) buffer
          length).map (fun r => (r.1, bytes r.2.1 p.length, r.2.2))
          = some ((p.length : Int), p, rest)) := by
  have hacc := usbserialReadSlip_loop_accumulate badFormat length inq.length inq
    (Nat.le_refl _) 0 buffer
  have e0 : decide ((0 : Nat) ≠ 0) = false := by decide
  rw [e0] at hacc
  simp only [Nat.zero_add] at hacc
  have hiff : badFormat < 0 →
      ((∃ (b : Nat → Nat) (q : List Nat),
          usbserialReadSlip badFormat inq buffer length = some (badFormat, b, q))
        ↔ length ≤ ((accumulate false inq).1.length : Int)) := by
    intro hneg
    constructor
    · rintro ⟨b, q, h⟩
      by_contra hlt
      have hlt2 : ((accumulate false inq).1.length : Int) < length := by omega
      have h2 := hacc.2 hlt2
      unfold usbserialReadSlip at h
      rw [h] at h2
      cases hd : (accumulate false inq).2 with
      | none => rw [hd] at h2; simp at h2
      | some unread =>
        rw [hd] at h2
        simp only [Option.map_some', Option.some.injEq, Prod.mk.injEq] at h2
        omega
    · exact hacc.1
  refine ⟨?_, hacc.1, hacc.2, hiff, accumulate_encode p rest, ?_, ?_⟩
  · intro r b q h
    refine ⟨usbserialReadSlip_loop_above badFormat length inq.length inq (Nat.le_refl _)
      0 buffer r b q h, ?_⟩
    rcases usbserialReadSlip_loop_count badFormat length inq.length inq (Nat.le_refl _)
      0 buffer r b q h with h1 | h1
    · exact Or.inl h1
    · exact Or.inr ⟨h1.1, h1.2.2⟩
  · intro hp
    have hgen : ∀ tail : List Nat,
        (usbserialReadSlip badFormat (List.replicate k END ++ (escape p ++ tail)) buffer
          length).map (fun r => r.1) = some badFormat := by
      intro tail
      unfold usbserialReadSlip
      by_cases hl0 : (0 : Int) < length
      · rw [usbserialReadSlip_loop_leading _ _ _ _ _ hl0,
          usbserialReadSlip_loop_escape_full badFormat length p tail 0 buffer
            (by simpa using hp)]
        rfl
      · have hn : ¬ ((0 : Nat) : Int) < length := by simpa using hl0
        rw [usbserialReadSlip_loop_full _ _ _ _ _ hn]
        rfl
    exact ⟨hgen rest, hgen (END :: rest)⟩
  · intro hne hlt
    have hpos : 0 < p.length := List.length_pos.mpr hne
    have hl0 : (0 : Int) < length := by omega
    have hb := bytes_storeList p buffer 0
    simp only [Nat.zero_add, bytes_zero, List.nil_append] at hb
    unfold usbserialReadSlip
    rw [usbserialReadSlip_loop_leading _ _ _ _ _ hl0,
      usbserialReadSlip_loop_escape badFormat length p rest 0 buffer (by simpa using hlt)
        (by simpa using hpos)]
    simp [hb]

/-! ## Third group of claims: the mutex of the packet list -/

theorem mutexFreeOfIO_receivePacket_loop (n : Nat) :
    ∀ (i size : Nat) (rest : List Access),
      mutexFreeOfIO true (PacketUsbCdc.receivePacket.forLoop.accesses n i size ++ rest)
        = mutexFreeOfIO true rest := by
  induction n with
  | zero => intro i size rest; rfl
  | succ n ih =>
    intro i size rest
    unfold PacketUsbCdc.receivePacket.forLoop.accesses
    by_cases h : i < size
    · simp only [h, if_true, List.cons_append, mutexFreeOfIO]
      exact ih _ _ _
    · simp [h, mutexFreeOfIO]

theorem packetListGuarded_receivePacket_loop (n : Nat) :
    ∀ (i size : Nat) (rest : List Access),
      packetListGuarded true (PacketUsbCdc.receivePacket.forLoop.accesses n i size ++ rest)
        = packetListGuarded true rest := by
  induction n with
  | zero => intro i size rest; rfl
  | succ n ih =>
    intro i size rest
    unfold PacketUsbCdc.receivePacket.forLoop.accesses
    by_cases h : i < size
    · simp only [h, if_true, List.cons_append, packetListGuarded, Bool.true_and]
      exact ih _ _ _
    · simp [h, packetListGuarded]

/-- C26, the steps of the member functions against `packetListMutex`.  In every pass of
the loop of `run` the `append` is made with the mutex held, and the port calls and
`slipReceive` are made without it; in `receivePacket` no port call is made and, the two
`size` calls at its head left out, every call on `packetList` (the `takeAt` calls) is
made with the mutex held, but both `size` calls come before the locker is constructed;
and the `isEmpty` of `isPacketWaiting` is made with no locker at all.
So not every call on `packetList` is made while the mutex is held. -/
theorem packetList_mutex (isOpen opens : Bool) (packetLength : Int)
    (packetReadyInterface : Bool) (size : Nat) :
    packetListGuarded false
        (PacketUsbCdc.run.pass isOpen opens packetLength packetReadyInterface) = true
    ∧ mutexFreeOfIO false
        (PacketUsbCdc.run.pass isOpen opens packetLength packetReadyInterface) = true
    ∧ mutexFreeOfIO false (PacketUsbCdc.receivePacket.accesses size) = true
    ∧ packetListGuarded false ((PacketUsbCdc.receivePacket.accesses size).drop 2) = true
    ∧ packetListGuarded false (PacketUsbCdc.receivePacket.accesses size) = false
    ∧ packetListGuarded false PacketUsbCdc.isPacketWaiting.accesses = false := by
  refine ⟨?_, ?_, ?_, ?_, ?_, rfl⟩
  · unfold PacketUsbCdc.run.pass
    cases isOpen <;> cases opens <;> by_cases h : (packetLength > 0 && packetReadyInterface) = true
      <;> simp [h, packetListGuarded]
  · unfold PacketUsbCdc.run.pass
    cases isOpen <;> cases opens <;> by_cases h : (packetLength > 0 && packetReadyInterface) = true
      <;> simp [h, mutexFreeOfIO]
  · unfold PacketUsbCdc.receivePacket.accesses
    by_cases h : size = 0
    · simp [h, mutexFreeOfIO]
    · have hp : size > 0 := Nat.pos_of_ne_zero h
      simp only [h, if_false, hp, if_true, List.singleton_append, List.cons_append,
        mutexFreeOfIO, List.append_assoc]
      rw [List.nil_append, mutexFreeOfIO_receivePacket_loop]
      rfl
  · unfold PacketUsbCdc.receivePacket.accesses
    by_cases h : size = 0
    · simp [h, packetListGuarded]
    · have hp : size > 0 := Nat.pos_of_ne_zero h
      simp only [h, if_false, hp, if_true, List.singleton_append, List.cons_append,
        List.drop_succ_cons, List.drop_zero, packetListGuarded, List.append_assoc]
      rw [List.nil_append, packetListGuarded_receivePacket_loop]
      rfl
  · unfold PacketUsbCdc.receivePacket.accesses
    simp [packetListGuarded]

/-! ## Fourth group of claims: bounds and accounting of the buffers -/

theorem escape_plain (p : List Nat) (hp : ∀ c ∈ p, c ≠ END ∧ c ≠ ESC) : escape p = p := by
  induction p with
  | nil => rfl
  | cons c p ih =>
    have hc := hp c (List.mem_cons_self c p)
    have ih2 := ih (fun d hd => hp d (List.mem_cons_of_mem c hd))
    simp [escape, escapeByte, hc.1, hc.2, ih2]

theorem slipReceive_forLoop_plain (n : Nat) :
    ∀ (q : List Nat) (l : SlipLocals), l.started = true →
      (∀ c ∈ q, c ≠ END ∧ c ≠ ESC) → l.count + q.length ≠ 0 →
      PacketUsbCdc.slipReceive.forLoop false n (q ++ [END]) l
        = if n ≤ q.length then
            (none, q.drop n ++ [END],
              SlipLocals.mk true (l.count + n) (storeList l.buffer l.bp (q.take n)) (l.bp + n))
          else
            (some ((l.count + q.length : Nat) : Int), [],
              SlipLocals.mk true (l.count + q.length) (storeList l.buffer l.bp q)
                (l.bp + q.length)) := by
  induction n with
  | zero =>
    intro q l hs _ _
    cases l
    simp only [] at hs
    simp [PacketUsbCdc.slipReceive.forLoop, storeList, hs]
  | succ n ih =>
    intro q l hs hp hc
    cases q with
    | nil =>
      have hc0 : l.count ≠ 0 := by simpa using hc
      cases l
      simp only [] at hs hc0
      simp [PacketUsbCdc.slipReceive.forLoop, charValue_false_eq, storeList, hs, hc0]
    | cons c q =>
      have hcc := hp c (List.mem_cons_self c q)
      have hq : ∀ d ∈ q, d ≠ END ∧ d ≠ ESC := fun d hd => hp d (List.mem_cons_of_mem c hd)
      have hput : l.put c = SlipLocals.mk true (l.count + 1) (store l.buffer l.bp c) (l.bp + 1) := by
        cases l
        simp only [] at hs
        simp [SlipLocals.put, hs]
      rw [List.cons_append, PacketUsbCdc.slipReceive.forLoop]
      simp only [List.headD_cons, charValue_false_eq, hcc.1, hcc.2, if_false,
        List.drop_succ_cons, List.drop_zero]
      rw [hput, ih q _ rfl hq (by simp)]
      simp only [List.length_cons, Nat.add_le_add_iff_right, List.take_succ_cons, storeList]
      by_cases h : n ≤ q.length
      · simp only [h, if_true]
        simp [Nat.add_assoc, Nat.add_comm 1 n]
      · simp only [h, if_false]
        simp [Nat.add_assoc, Nat.add_comm 1 q.length]

theorem slipReceive_loop_plain (length : Int) (hl : 1 ≤ length) (port : QextSerialPort)
    (fuel : Nat) :
    ∀ (q : List Nat) (l : SlipLocals), q.length < fuel → l.started = true →
      (∀ c ∈ q, c ≠ END ∧ c ≠ ESC) → l.count + q.length ≠ 0 →
      PacketUsbCdc.slipReceive.loop false length fuel (q ++ [END]) port l
        = some (((l.count + q.length : Nat) : Int), [], port, storeList l.buffer l.bp q) := by
  induction fuel with
  | zero => intro q l hf; omega
  | succ fuel ih =>
    intro q l hf hs hp hc
    have hg : PacketUsbCdc.getMoreBytes (q ++ [END]) port = (true, q ++ [END], port) := by
      simp [PacketUsbCdc.getMoreBytes]
    rw [PacketUsbCdc.slipReceive.loop]
    simp only [hg, Bool.not_true, Bool.false_eq_true, if_false]
    have hne : (q ++ [END]).length ≠ 0 := by simp
    rw [if_pos hne]
    generalize hn : (if (((q ++ [END]).length : Nat) : Int) > length then length
      else (((q ++ [END]).length : Nat) : Int)).toNat = n
    have hn1 : 1 ≤ n := by
      rw [← hn]
      split <;> omega
    rw [slipReceive_forLoop_plain n q l hs hp hc]
    by_cases h : n ≤ q.length
    · simp only [h, if_true]
      have hq2 : ∀ c ∈ q.drop n, c ≠ END ∧ c ≠ ESC := fun c hc => hp c (List.mem_of_mem_drop hc)
      rw [ih (q.drop n) _ (by simp; omega) rfl hq2 (by simp; omega)]
      simp only [List.length_drop]
      have e1 : l.count + n + (q.length - n) = l.count + q.length := by omega
      have e2 : storeList (storeList l.buffer l.bp (q.take n)) (l.bp + n) (q.drop n)
          = storeList l.buffer l.bp q := by
        have := storeList_append (q.take n) (q.drop n) l.buffer l.bp
        rw [List.take_append_drop, List.length_take, Nat.min_eq_left h] at this
        exact this.symm
      rw [e1, e2]
    · simp only [h, if_false]

/-- `PacketUsbCdc::slipReceive` where plain `char` is unsigned.  The frame of a message
`p` of plain bytes (none of them END or ESC) is found at the port in one read, and
`length` is at least 1: the call returns the count `p.length` with the whole of `p`
stored from the start of the caller's buffer, whatever `length` is.  There `length`
limits the bytes taken in one pass of the loop `for`, not `count`. -/
theorem slipReceive_unsigned_exceeds_length (length : Int) (p : List Nat) (buffer : Nat → Nat)
    (fuel : Nat) (hl : 1 ≤ length) (hp : ∀ c ∈ p, c ≠ END ∧ c ≠ ESC) (hne : p ≠ [])
    (hf : p.length + 1 < fuel) :
    PacketUsbCdc.slipReceive false fuel [] (QextSerialPort.receiving [encode p]) buffer length
      = some ((p.length : Int), [], QextSerialPort.receiving [], storeList buffer 0 p) := by
  have hpl : p.length ≠ 0 := by simpa using hne
  obtain ⟨fuel, rfl⟩ : ∃ f, fuel = f + 1 := ⟨fuel - 1, by omega⟩
  unfold PacketUsbCdc.slipReceive
  have hg : PacketUsbCdc.getMoreBytes [] (QextSerialPort.receiving [encode p])
      = (true, END :: (p ++ [END]), QextSerialPort.receiving []) := by
    simp [PacketUsbCdc.getMoreBytes, QextSerialPort.receiving, encode, escape_plain p hp]
  rw [PacketUsbCdc.slipReceive.loop]
  simp only [hg, Bool.not_true, Bool.false_eq_true, if_false]
  have hne2 : (END :: (p ++ [END])).length ≠ 0 := by simp
  rw [if_pos hne2]
  generalize hn : (if (((END :: (p ++ [END])).length : Nat) : Int) > length then length
    else (((END :: (p ++ [END])).length : Nat) : Int)).toNat = n
  have hn1 : 1 ≤ n := by
    rw [← hn]
    split <;> omega
  obtain ⟨n, rfl⟩ : ∃ k, n = k + 1 := ⟨n - 1, by omega⟩
  rw [PacketUsbCdc.slipReceive.forLoop]
  simp only [List.headD_cons, charValue_false_eq, if_true, Bool.false_and,
    Bool.false_eq_true, if_false, List.drop_succ_cons, List.drop_zero]
  rw [slipReceive_forLoop_plain n p _ rfl hp (by simpa using hpl)]
  by_cases h : n ≤ p.length
  · simp only [h, if_true]
    have hq2 : ∀ c ∈ p.drop n, c ≠ END ∧ c ≠ ESC := fun c hc => hp c (List.mem_of_mem_drop hc)
    rw [slipReceive_loop_plain length hl _ fuel (p.drop n) _ (by simp; omega) rfl hq2
      (by simp; omega)]
    simp only [List.length_drop]
    have e1 : 0 + n + (p.length - n) = p.length := by omega
    have e2 : storeList (storeList buffer 0 (p.take n)) (0 + n) (p.drop n)
        = storeList buffer 0 p := by
      have := storeList_append (p.take n) (p.drop n) buffer 0
      rw [List.take_append_drop, List.length_take, Nat.min_eq_left h] at this
      exact this.symm
    rw [e1, e2]
  · simp only [h, if_false]
    simp

/-- Where plain `char` is unsigned, the call at `length = 2` on the frame of `[1, 2, 3]`
returns 3 and stores the three bytes at the offsets 0, 1 and 2. -/
theorem slipReceive_unsigned_exceeds_length_example :
    PacketUsbCdc.slipReceive false 5 [] (QextSerialPort.receiving [[0xC0, 1, 2, 3, 0xC0]])
        (fun _ => 0) 2
      = some (3, [], QextSerialPort.receiving [], storeList (fun _ => 0) 0 [1, 2, 3]) :=
  slipReceive_unsigned_exceeds_length 2 [1, 2, 3] (fun _ => 0) 5 (by decide) (by decide) (by decide)
    (by decide)

/-- With a signed plain `char`, the call at `length = 2` on a port where the frame of
`[1, 2, 3]` is read and the next poll fails returns -1 and stores nothing. -/
theorem slipReceive_bounded_example :
    (PacketUsbCdc.slipReceive true 5 []
        (QextSerialPort.mk true true 0 [] [some [0xC0, 1, 2, 3, 0xC0], none])
        (fun _ => 0) 2).map (fun r => (r.1, r.2.1, bytes r.2.2.2 3))
      = some (-1, [], [0, 0, 0]) := by
  decide

theorem bytes_length (m : Nat → Nat) (n : Nat) : (bytes m n).length = n := by
  simp [bytes]

theorem putIfFull_bound (env : Nat → Option Nat) (maxWrite v : Nat) (cs : Int × SlipOut)
    (h1 : cs.2.obp < maxWrite)
    (h2 : ∀ ch ∈ cs.2.calls, 1 ≤ ch.length ∧ ch.length ≤ maxWrite) :
    (putIfFull env maxWrite v cs).2.obp < maxWrite
    ∧ ∀ ch ∈ (putIfFull env maxWrite v cs).2.calls, 1 ≤ ch.length ∧ ch.length ≤ maxWrite := by
  unfold putIfFull usbserialWriteSlipIfFull usbserialWrite SlipOut.put
  simp only []
  by_cases h : cs.2.obp + 1 ≥ maxWrite
  · simp only [h, if_true]
    refine ⟨by omega, ?_⟩
    intro ch hch
    rcases List.mem_append.mp hch with hc | hc
    · exact h2 ch hc
    · rw [List.mem_singleton.mp hc, bytes_length]
      omega
  · simp only [h, if_false]
    exact ⟨by omega, h2⟩

theorem usbserialWriteSlip_loop_bound (env : Nat → Option Nat) (maxWrite : Nat)
    (p : List Nat) :
    ∀ cs : Int × SlipOut, cs.2.obp < maxWrite →
      (∀ ch ∈ cs.2.calls, 1 ≤ ch.length ∧ ch.length ≤ maxWrite) →
      (usbserialWriteSlip.loop env maxWrite p cs).2.obp < maxWrite
      ∧ (∀ ch ∈ (usbserialWriteSlip.loop env maxWrite p cs).2.calls,
          1 ≤ ch.length ∧ ch.length ≤ maxWrite)
      ∧ ∀ i ∈ usbserialWriteSlip.loop.stores env maxWrite p cs, i < maxWrite := by
  induction p with
  | nil =>
    intro cs h1 h2
    exact ⟨h1, h2, by simp [usbserialWriteSlip.loop.stores]⟩
  | cons c p ih =>
    intro cs h1 h2
    have e := putIfFull_bound env maxWrite ESC cs h1 h2
    have ee := putIfFull_bound env maxWrite ESC_END _ e.1 e.2
    have ec := putIfFull_bound env maxWrite ESC_ESC _ e.1 e.2
    have d := putIfFull_bound env maxWrite c cs h1 h2
    unfold usbserialWriteSlip.loop usbserialWriteSlip.loop.stores
    by_cases hE : c = END
    · simp only [hE, if_true]
      obtain ⟨r1, r2, r3⟩ := ih _ ee.1 ee.2
      refine ⟨r1, r2, ?_⟩
      intro i hi
      rcases List.mem_cons.mp hi with hi | hi
      · rw [hi]; exact h1
      · rcases List.mem_cons.mp hi with hi | hi
        · rw [hi]; exact e.1
        · exact r3 i hi
    · by_cases hS : c = ESC
      · simp only [hS, ESC_ne_END, if_true, if_false]
        obtain ⟨r1, r2, r3⟩ := ih _ ec.1 ec.2
        refine ⟨r1, r2, ?_⟩
        intro i hi
        rcases List.mem_cons.mp hi with hi | hi
        · rw [hi]; exact h1
        · rcases List.mem_cons.mp hi with hi | hi
          · rw [hi]; exact e.1
          · exact r3 i hi
      · simp only [hE, hS, if_false]
        obtain ⟨r1, r2, r3⟩ := ih _ d.1 d.2
        refine ⟨r1, r2, ?_⟩
        intro i hi
        rcases List.mem_cons.mp hi with hi | hi
        · rw [hi]; exact h1
        · exact r3 i hi

theorem usbserialWriteSlip_loop_stores_length (env : Nat → Option Nat) (maxWrite : Nat)
    (p : List Nat) :
    ∀ cs : Int × SlipOut,
      (usbserialWriteSlip.loop.stores env maxWrite p cs).length = (escape p).length := by
  induction p with
  | nil => intro cs; rfl
  | cons c p ih =>
    intro cs
    unfold usbserialWriteSlip.loop.stores
    by_cases hE : c = END
    · simp [hE, escape, escapeByte, ih]
    · by_cases hS : c = ESC
      · simp [hS, ESC_ne_END, escape, escapeByte, ih]
      · simp [hE, hS, escape, escapeByte, ih]

theorem usbserialWriteSlip_stores_length (env : Nat → Option Nat) (maxWrite : Nat)
    (slipOutBuf : Nat → Nat) (buffer : List Nat) :
    (usbserialWriteSlip.stores env maxWrite slipOutBuf buffer).length
      = (encode buffer).length := by
  simp [usbserialWriteSlip.stores, usbserialWriteSlip_loop_stores_length, encode]

/-- C32, the output buffer of `usbserialWriteSlip` with `USBSER_MAX_WRITE = maxWrite` at
least 2: for every message, every initial content of `slipOutBuf` and every behaviour
of the driver, every store into `slipOutBuf` is made at an offset below `maxWrite`, and
every chunk handed to `usbserialWrite` holds at least one byte and at most `maxWrite`
bytes. -/
theorem usbserialWriteSlip_stores_bound (env : Nat → Option Nat) (maxWrite : Nat)
    (slipOutBuf : Nat → Nat) (buffer : List Nat) (hmax : 2 ≤ maxWrite) :
    (∀ i ∈ usbserialWriteSlip.stores env maxWrite slipOutBuf buffer, i < maxWrite)
    ∧ ∀ ch ∈ (usbserialWriteSlip env maxWrite slipOutBuf buffer).2.calls,
        1 ≤ ch.length ∧ ch.length ≤ maxWrite := by
  obtain ⟨r1, r2, r3⟩ := usbserialWriteSlip_loop_bound env maxWrite buffer
    (0, (SlipOut.mk slipOutBuf 0 []).put END) (by simp [SlipOut.put]; omega)
    (by simp [SlipOut.put])
  constructor
  · intro i hi
    unfold usbserialWriteSlip.stores at hi
    simp only [List.mem_cons, List.mem_append, List.mem_singleton, List.not_mem_nil,
      or_false] at hi
    rcases hi with hi | hi | hi
    · rw [hi]; omega
    · exact r3 i hi
    · rw [hi]; exact r1
  · intro ch hch
    unfold usbserialWriteSlip usbserialWrite at hch
    simp only [List.mem_append, List.mem_singleton] at hch
    rcases hch with hc | hc
    · exact r2 ch hc
    · rw [hc, bytes_length]
      simp only [SlipOut.put] at r1 ⊢
      omega

/-- The bounds at `USBSER_MAX_WRITE = 2` on the message `[0x41, 0xC0]`. -/
theorem usbserialWriteSlip_stores_bound_witness :
    (∀ i ∈ usbserialWriteSlip.stores (fun _ => some 0) 2 (fun _ => 0) [0x41, 0xC0], i < 2)
    ∧ ∀ ch ∈ (usbserialWriteSlip (fun _ => some 0) 2 (fun _ => 0) [0x41, 0xC0]).2.calls,
        1 ≤ ch.length ∧ ch.length ≤ 2 :=
  usbserialWriteSlip_stores_bound (fun _ => some 0) 2 (fun _ => 0) [0x41, 0xC0] (by decide)

/-- The stores and the chunks of the message `[0x41, 0xC0]` at `USBSER_MAX_WRITE = 2`;
and at `USBSER_MAX_WRITE = 1`, where the END at the head fills the buffer without a
check, the closing END of the empty message is stored at the offset 1. -/
theorem usbserialWriteSlip_stores_example :
    usbserialWriteSlip.stores (fun _ => some 0) 2 (fun _ => 0) [0x41, 0xC0] = [0, 1, 0, 1, 0]
    ∧ (usbserialWriteSlip (fun _ => some 0) 2 (fun _ => 0) [0x41, 0xC0]).2.calls
        = [[0xC0, 0x41], [0xDB, 0xDC], [0xC0]]
    ∧ usbserialWriteSlip.stores (fun _ => some 0) 1 (fun _ => 0) [] = [0, 1] := by
  decide

theorem mc_SLIP_receive_loop_stuck (fuel : Nat) :
    ∀ (x : t_mcUsb) (started : Bool) (bufferPtr : Nat),
      x.usbReadBufLength < 0 → x.incoming = [] →
      mc_SLIP_receive.loop fuel x started bufferPtr = none := by
  induction fuel with
  | zero => intro x started bufferPtr _ _; rfl
  | succ fuel ih =>
    intro x started bufferPtr hneg hin
    have hr : mc_SLIP_receive.readMore x = (false, x) := by
      unfold mc_SLIP_receive.readMore
      rw [if_pos (by omega), hin]
    have ht : x.usbReadBufLength.toNat + 1 = 1 := by omega
    have hf : mc_SLIP_receive.forLoop 1 0 x started bufferPtr
        = some (false, x, started, bufferPtr) := by
      rw [mc_SLIP_receive.forLoop]
      rw [if_neg (by simp; omega)]
    have hz : ¬ x.usbReadBufLength = 0 := by omega
    rw [mc_SLIP_receive.loop]
    simp only [hr, Bool.false_eq_true, if_false, ht, hf, hz]
    exact ih x started bufferPtr hneg hin

theorem mc_SLIP_receive_loop_two_passes (fuel : Nat) :
    mc_SLIP_receive.loop (fuel + 2) (t_mcUsb.new.arrive [0xC0, 0x41, 0xDB]) false 0
      = ((mc_SLIP_receive.forLoop 4 0
            (mc_SLIP_receive.readMore (t_mcUsb.new.arrive [0xC0, 0x41, 0xDB])).2 false 0).bind
          fun r => mc_SLIP_receive.forLoop 2 0 r.2.1 r.2.2.1 r.2.2.2).bind
        fun r => mc_SLIP_receive.loop fuel r.2.1 r.2.2.1 r.2.2.2 := by
  rfl

/-- C33 at the failing input, a chunk `[0xC0, 0x41, 0xDB]` whose last byte is ESC.  The
two passes of the loop `for` that the call makes over the chunk leave `usbReadBufPtr` at
4, past the three bytes read, and `usbReadBufLength` at -1: the ESC branch steps over a
byte that is not there.  With nothing more at the port the call does not return then,
whatever the bound `fuel` on its iterations, since `usbReadBufLength` is not 0.  When
the rest of the frame, `[0xDC, 0x42, 0xC0]`, is at the port as the next chunk, the call
returns with `usbReadBufLength = 0` and `usbReadBufPtr` on the unread END of that
chunk, having handed nothing to `Osc_receive_packet` and stored a byte 0 that never
came from the link; the same six bytes in one chunk are handed on as
`[0x41, 0xDC, 0x42]`. -/
theorem mc_SLIP_receive_ESC_ends_chunk (fuel : Nat) :
    ((mc_SLIP_receive.forLoop 4 0
          (mc_SLIP_receive.readMore (t_mcUsb.new.arrive [0xC0, 0x41, 0xDB])).2 false 0).bind
        fun r => mc_SLIP_receive.forLoop 2 0 r.2.1 r.2.2.1 r.2.2.2).map
      (fun r => (r.2.1.usbReadBufPtr, r.2.1.usbReadBufLength)) = some (4, -1)
    ∧ mc_SLIP_receive fuel (t_mcUsb.new.arrive [0xC0, 0x41, 0xDB]) = none
    ∧ (mc_SLIP_receive 10
          ((t_mcUsb.new.arrive [0xC0, 0x41, 0xDB]).arrive [0xDC, 0x42, 0xC0])).map
        (fun x => (x.delivered, x.usbReadBufPtr, x.usbReadBufLength,
          x.usbReadBuffer x.usbReadBufPtr, bytes x.packetBuf x.length.toNat))
        = some ([], 2, 0, 0xC0, [0x41, 0, 0xDC, 0x42])
    ∧ (mc_SLIP_receive 10 (t_mcUsb.new.arrive [0xC0, 0x41, 0xDB, 0xDC, 0x42, 0xC0])).map
        (fun x => x.delivered) = some [[0x41, 0xDC, 0x42]] := by
  refine ⟨by decide, ?_, by decide, by decide⟩
  have hprops : ((mc_SLIP_receive.forLoop 4 0
          (mc_SLIP_receive.readMore (t_mcUsb.new.arrive [0xC0, 0x41, 0xDB])).2 false 0).bind
        fun r => mc_SLIP_receive.forLoop 2 0 r.2.1 r.2.2.1 r.2.2.2).map
      (fun r => (decide (r.2.1.usbReadBufLength < 0), r.2.1.incoming.length))
      = some (true, 0) := by decide
  have hopen : mc_SLIP_receive fuel (t_mcUsb.new.arrive [0xC0, 0x41, 0xDB])
      = mc_SLIP_receive.loop fuel (t_mcUsb.new.arrive [0xC0, 0x41, 0xDB]) false 0 := rfl
  rw [hopen]
  cases fuel with
  | zero => rfl
  | succ fuel =>
    cases fuel with
    | zero => rfl
    | succ fuel =>
      rw [mc_SLIP_receive_loop_two_passes]
      generalize (mc_SLIP_receive.forLoop 4 0
          (mc_SLIP_receive.readMore (t_mcUsb.new.arrive [0xC0, 0x41, 0xDB])).2 false 0).bind
        (fun r => mc_SLIP_receive.forLoop 2 0 r.2.1 r.2.2.1 r.2.2.2) = o at hprops ⊢
      cases o with
      | none => rfl
      | some r =>
        simp only [Option.map_some', Option.some.injEq, Prod.mk.injEq, decide_eq_true_eq,
          List.length_eq_zero] at hprops
        simp only [Option.some_bind]
        exact mc_SLIP_receive_loop_stuck fuel _ _ _ hprops.1 hprops.2

theorem bytes_drop (m : Nat → Nat) (n i : Nat) (h : i < n) :
    (bytes m n).drop i = m i :: (bytes m n).drop (i + 1) := by
  have hl : i < (bytes m n).length := by rw [bytes_length]; exact h
  rw [List.drop_eq_getElem_cons hl]
  simp [bytes]

theorem Usb_Read_loop_stream (length : Int) (fuel : Nat) :
    ∀ (rx : UsbRx) (buffer : Nat → Nat) (n : Nat),
      (length.toNat - n) + 2 * rx.xRxCDC.length + (if rx.queueRemaining = true then 1 else 0) + 1
        ≤ fuel →
      ∃ (rx1 : UsbRx) (buffer1 : Nat → Nat) (n1 : Nat),
        Usb_Read.loop length fuel rx buffer n = some (rx1, buffer1, n1)
        ∧ n ≤ n1 ∧ n1 ≤ max n length.toNat
        ∧ bytes buffer1 n1 ++ rx1.pending = bytes buffer n ++ rx.pending
        ∧ ((n1 : Int) < length → rx1.xRxCDC = [] ∧ rx1.pending = []) := by
  induction fuel with
  | zero => intro rx buffer n hf; omega
  | succ fuel ih =>
    intro rx buffer n hf
    rw [Usb_Read.loop]
    by_cases hlt : (n : Int) < length
    · rw [if_pos hlt]
      by_cases hq : rx.queueRemaining = true
      · rw [if_pos hq] at hf ⊢
        by_cases hp : rx.queuePtr < rx.DeQueue.Count
        · rw [if_pos hp]
          obtain ⟨rx1, buffer1, n1, h1, h2, h3, h4, h5⟩ :=
            ih { rx with queuePtr := rx.queuePtr + 1 }
              (store buffer n (rx.DeQueue.Data rx.queuePtr)) (n + 1)
              (by simp only [hq, if_true]; omega)
          refine ⟨rx1, buffer1, n1, h1, by omega, by omega, ?_, h5⟩
          rw [h4, bytes_succ_store]
          simp only [UsbRx.pending, hq, if_true, xBULKBUFFER.received]
          rw [bytes_drop _ _ _ hp]
          simp
        · rw [if_neg hp]
          obtain ⟨rx1, buffer1, n1, h1, h2, h3, h4, h5⟩ :=
            ih { rx with queueRemaining := false } buffer n
              (by simp only [Bool.false_eq_true, if_false]; omega)
          refine ⟨rx1, buffer1, n1, h1, h2, h3, ?_, h5⟩
          rw [h4]
          simp only [UsbRx.pending, hq, if_true, Bool.false_eq_true, if_false,
            xBULKBUFFER.received]
          rw [List.drop_eq_nil_of_le (by rw [bytes_length]; omega)]
      · rw [if_neg hq] at hf ⊢
        cases hx : rx.xRxCDC with
        | nil =>
          refine ⟨rx, buffer, n, rfl, le_refl n, by omega, rfl, ?_⟩
          intro _
          exact ⟨hx, by simp [UsbRx.pending, hq, hx]⟩
        | cons b q =>
          rw [hx] at hf
          simp only [List.length_cons] at hf
          obtain ⟨rx1, buffer1, n1, h1, h2, h3, h4, h5⟩ :=
            ih { rx with xRxCDC := q, DeQueue := b, queueRemaining := true, queuePtr := 0 }
              buffer n (by simp only [if_true]; omega)
          refine ⟨rx1, buffer1, n1, h1, h2, h3, ?_, h5⟩
          rw [h4]
          simp [UsbRx.pending, hq, hx]
    · rw [if_neg hlt]
      exact ⟨rx, buffer, n, rfl, le_refl n, by omega, rfl, fun h => absurd h hlt⟩

theorem Usb_Read_call_stream (rx : UsbRx) (buffer : Nat → Nat) (length : Int) :
    ∃ (rx1 : UsbRx) (buffer1 : Nat → Nat) (n1 : Nat),
      Usb_Read rx buffer length = some (rx1, buffer1, n1)
      ∧ n1 ≤ length.toNat
      ∧ bytes buffer1 n1 ++ rx1.pending = rx.pending
      ∧ ((n1 : Int) < length → rx1.xRxCDC = [] ∧ rx1.pending = []) := by
  obtain ⟨rx1, buffer1, n1, h1, _, h3, h4, h5⟩ :=
    Usb_Read_loop_stream length (length.toNat + 2 * rx.xRxCDC.length + 3) rx buffer 0
      (by split <;> omega)
  refine ⟨rx1, buffer1, n1, h1, by omega, ?_, h5⟩
  rw [h4, bytes_zero, List.nil_append]

theorem UsbRx_pending_arrived (rx : UsbRx) (a : List xBULKBUFFER) :
    UsbRx.pending { rx with xRxCDC := rx.xRxCDC ++ a }
      = rx.pending ++ (a.map xBULKBUFFER.received).flatten := by
  simp [UsbRx.pending]

/-- C34, `Usb_Read` preserves the byte stream.  From any state of the receive side, every
sequence of calls returns, whatever blocks are queued before each call, and: a call
with a non-negative `length` returns `n` with `n ≤ length` and delivers `n` bytes (a
call with a negative `length` returns 0); a call that returns fewer than `length` bytes
leaves the queue empty and no byte behind it; and the bytes delivered by the calls,
concatenated in order and followed by the bytes the receive side still holds, are the
bytes it held at the start followed by the first `Count` data bytes of every block
queued since, in queue order.  So the delivered bytes are a prefix of the stream, with
nothing lost, duplicated or reordered. -/
theorem Usb_Read_stream (calls : List Usb_Read.Call) :
    ∀ rx : UsbRx, ∃ (rx1 : UsbRx) (rs : List Usb_Read.Return),
      Usb_Read.calls rx calls = some (rx1, rs)
      ∧ List.Forall₂
          (fun c r => r.n ≤ c.length.toNat ∧ r.delivered.length = r.n
            ∧ ((r.n : Int) < c.length → r.rx.xRxCDC = [] ∧ r.rx.pending = []))
          calls rs
      ∧ (rs.map fun r => r.delivered).flatten ++ rx1.pending
          = rx.pending
            ++ ((calls.map fun c => c.arrived).flatten.map xBULKBUFFER.received).flatten := by
  induction calls with
  | nil =>
    intro rx
    exact ⟨rx, [], rfl, List.Forall₂.nil, by simp⟩
  | cons c cs ih =>
    intro rx
    obtain ⟨rx1, buffer1, n1, h1, h2, h3, h4⟩ :=
      Usb_Read_call_stream { rx with xRxCDC := rx.xRxCDC ++ c.arrived } c.buffer c.length
    obtain ⟨rx2, rs, k1, k2, k3⟩ := ih rx1
    refine ⟨rx2, { n := n1, delivered := bytes buffer1 n1, rx := rx1 } :: rs, ?_, ?_, ?_⟩
    · rw [Usb_Read.calls, h1]
      simp only [k1, Option.map_some']
    · exact List.Forall₂.cons ⟨h2, bytes_length _ _, h4⟩ k2
    · rw [UsbRx_pending_arrived] at h3
      simp only [List.map_cons, List.flatten_cons, List.map_append, List.flatten_append,
        List.append_assoc]
      rw [k3, ← List.append_assoc, h3]
      simp only [List.append_assoc]

/-- Three calls with `length = 2` on a queue holding the blocks `[1, 2, 3]` and `[4, 5]`:
they deliver `[1, 2]`, `[3, 4]` and `[5]`; a fourth call delivers nothing. -/
theorem Usb_Read_stream_example :
    (Usb_Read.calls
        (UsbRx.mk [xBULKBUFFER.mk (fun i => [1, 2, 3].getD i 0) 3,
                   xBULKBUFFER.mk (fun i => [4, 5].getD i 0) 2]
          (xBULKBUFFER.mk (fun _ => 0) 0) false 0)
        [Usb_Read.Call.mk [] (fun _ => 0) 2, Usb_Read.Call.mk [] (fun _ => 0) 2,
         Usb_Read.Call.mk [] (fun _ => 0) 2, Usb_Read.Call.mk [] (fun _ => 0) 2]).map
      (fun r => (r.2.map fun c => (c.n, c.delivered), r.1.pending))
      = some ([(2, [1, 2]), (2, [3, 4]), (1, [5]), (0, [])], []) := by
  decide

end MakeController
